import Mathlib

/-!
Verification development for the pack-rs archiver (src/lib.rs, src/main.rs).

The Rust sources are shallowly embedded: machine integers (`u64`, `i64`, `i8`)
become `Nat`; the SQLite tables of the archive become Lean lists mirroring
insertion order (SQLite row ids for rows appended to a fresh table are
`1, 2, 3, ...`, i.e. list index + 1); fallible operations return `Except Error`.
The filesystem is pure: the bytes of a file are carried in place of its path
(the source re-reads the file at `path` when flushing a bundle; in the pure
model the same bytes are read back).  The zstd codec and the SQLite blob
writer are external collaborators and are passed in as function parameters
(`compress`, `decompress`, `blobWrite`); round-trip theorems hypothesise that
the codec is lossless and that blob writes report the full length, which is
the documented behaviour of the collaborators.

The one genuinely partial operation of the source is the `u64` subtraction
`BUNDLE_SIZE - self.current_pos` in `PackBuilder::add_file`, which underflows
(a Rust panic in debug builds) when `current_pos > BUNDLE_SIZE`; the model
returns `Error.arithOverflow` there.
-/

namespace PackRs

/-- `const KIND_FILE: i8 = 0` in main.rs. -/
def KIND_FILE : Nat := 0

/-- `const KIND_DIRECTORY: i8 = 1` in main.rs. -/
def KIND_DIRECTORY : Nat := 1

/-- `const KIND_SYMLINK: i8 = 2` in main.rs. -/
def KIND_SYMLINK : Nat := 2

/-- `const BUNDLE_SIZE: u64 = 16777216` in main.rs. -/
def BUNDLE_SIZE : Nat := 16777216

/-- The error enum of src/lib.rs.  `ioError`, `sqlError` collapse the payloads
of the corresponding variants; `arithOverflow` models a Rust arithmetic
underflow panic (see module comment). -/
inductive Error where
  | ioError
  | sqlError
  | jobError
  | incompleteBlobWrite
  | notPackFile
  | linkTextEncoding
  | database
  | threadPoolShutdown
  | arithOverflow
deriving Repr, DecidableEq

/-- A row of the `item` table. -/
structure ItemRow where
  id : Nat
  parent : Nat
  kind : Nat
  name : String
deriving Repr, DecidableEq

/-- A row of the `itemcontent` table. -/
structure IcRow where
  item : Nat
  itempos : Nat
  content : Nat
  contentpos : Nat
  size : Nat
deriving Repr, DecidableEq

/-- `IncomingContent` of main.rs.  The `path` field is replaced by the bytes
the path denotes (`data`): for a file slice the full file contents, for a
symlink its raw target bytes. -/
structure IncomingContent where
  data : List Nat
  kind : Nat
  item : Nat
  itempos : Nat
  contentpos : Nat
  size : Nat
deriving Repr, DecidableEq

/-- `PackBuilder` of main.rs: the three tables of its in-memory database,
the bundle cursor `current_pos` and the pending slice list `contents`.
(The reusable compression `buffer` is a pure optimization and has no
observable effect, so it is not part of the state.) -/
structure PackBuilder where
  items : List ItemRow
  contentRows : List (List Nat)
  itemcontentRows : List IcRow
  current_pos : Nat
  contents : List IncomingContent
deriving Repr, DecidableEq

/-- `PackBuilder::new()`. -/
def PackBuilder.new : PackBuilder :=
  { items := [], contentRows := [], itemcontentRows := [], current_pos := 0, contents := [] }

/-- The bytes a pending slice contributes to its bundle when flushed
(`insert_content`'s loop body): a file slice is read from `itempos` for
`size` bytes; a symlink target is written whole. -/
def sliceBytes (s : IncomingContent) : List Nat :=
  if s.kind = KIND_FILE then (s.data.drop s.itempos).take s.size
  else if s.kind = KIND_SYMLINK then s.data
  else []

/-- The uncompressed bundle built by `insert_content` from the pending slices. -/
def bundleBytes (pending : List IncomingContent) : List Nat :=
  pending.foldl (fun acc s => acc ++ sliceBytes s) []

/-- The `itemcontent` row inserted for a pending slice when its bundle is
flushed as content row `cid`. -/
def flushRow (cid : Nat) (s : IncomingContent) : IcRow :=
  { item := s.item, itempos := s.itempos, content := cid,
    contentpos := s.contentpos, size := s.size }

/-- `PackBuilder::insert_content`.  `compress` is the zstd encoder;
`blobWrite` models `rusqlite::blob::Blob::write`, returning the number of
bytes it accepted.  The content row is first inserted as a zero blob of the
compressed length and then overwritten in place; on a short write the
function fails with `incompleteBlobWrite` before any `itemcontent` row is
inserted. -/
def insert_content (compress : List Nat → List Nat) (blobWrite : List Nat → Nat)
    (st : PackBuilder) : Except Error PackBuilder :=
  let content := compress (bundleBytes st.contents)
  let compressed_len := content.length
  let rows0 := st.contentRows ++ [List.replicate compressed_len 0]
  let content_id := rows0.length
  let bytes_written := blobWrite content
  if bytes_written ≠ content.length then Except.error Error.incompleteBlobWrite
  else
    let rows1 := rows0.set (content_id - 1) content
    let icNew := st.contents.map (flushRow content_id)
    Except.ok { st with contentRows := rows1,
                        itemcontentRows := st.itemcontentRows ++ icNew }

/-- `PackBuilder::process_contents`: flush the pending bundle, clear the
pending list, reset the cursor. -/
def process_contents (compress : List Nat → List Nat) (blobWrite : List Nat → Nat)
    (st : PackBuilder) : Except Error PackBuilder :=
  match insert_content compress blobWrite st with
  | Except.error e => Except.error e
  | Except.ok st1 => Except.ok { st1 with contents := [], current_pos := 0 }

/-- `PackBuilder::add_directory`: insert one `item` row, return the fresh id. -/
def add_directory (st : PackBuilder) (name : String) (parent : Nat) : PackBuilder × Nat :=
  let id := st.items.length + 1
  ({ st with items := st.items ++ [{ id := id, parent := parent, kind := KIND_DIRECTORY, name := name }] }, id)

/-- The `loop` of `PackBuilder::add_file`: while the remaining part of the
file overflows the bundle, emit a head slice filling the bundle and flush;
the final remainder is left pending.  The flush (`process_contents`) is
inlined as `insert_content` followed by the clearing of the pending list
and cursor, exactly its definition.  The `u64` subtraction
`BUNDLE_SIZE - current_pos` underflows when `current_pos > BUNDLE_SIZE`
(a Rust arithmetic panic), modelled as `arithOverflow`. -/
def add_file_loop (compress : List Nat → List Nat) (blobWrite : List Nat → Nat)
    (data : List Nat) (item_id : Nat) (st : PackBuilder) (itempos size : Nat) :
    Except Error PackBuilder :=
  if st.current_pos + size > BUNDLE_SIZE then
    if BUNDLE_SIZE < st.current_pos then Except.error Error.arithOverflow
    else
      let remainder := BUNDLE_SIZE - st.current_pos
      let st1 := { st with contents := st.contents ++
        [{ data := data, kind := KIND_FILE, item := item_id, itempos := itempos,
           contentpos := st.current_pos, size := remainder : IncomingContent }] }
      match insert_content compress blobWrite st1 with
      | Except.error e => Except.error e
      | Except.ok st2 =>
          add_file_loop compress blobWrite data item_id
            { st2 with contents := [], current_pos := 0 }
            (itempos + remainder) (size - remainder)
  else
    Except.ok { st with
      contents := st.contents ++
        [{ data := data, kind := KIND_FILE, item := item_id, itempos := itempos,
           contentpos := st.current_pos, size := size : IncomingContent }],
      current_pos := st.current_pos + size }
termination_by 2 * size + (if st.current_pos = 0 then 0 else 1)
decreasing_by
  rename_i hover hle
  have hB : (0:Nat) < BUNDLE_SIZE := by decide
  dsimp only
  by_cases hcp : st.current_pos = 0
  · simp only [hcp, if_pos rfl, if_true]
    omega
  · simp only [if_neg hcp, if_true]
    omega

/-- `PackBuilder::add_file`: insert the `item` row, then run the splitting
loop on the whole file. -/
def add_file (compress : List Nat → List Nat) (blobWrite : List Nat → Nat)
    (st : PackBuilder) (name : String) (data : List Nat) (parent : Nat) :
    Except Error (PackBuilder × Nat) :=
  let id := st.items.length + 1
  let st0 := { st with items := st.items ++ [{ id := id, parent := parent, kind := KIND_FILE, name := name }] }
  match add_file_loop compress blobWrite data id st0 0 data.length with
  | Except.error e => Except.error e
  | Except.ok st1 => Except.ok (st1, id)

/-- `PackBuilder::add_symlink`: insert the `item` row and append a single
pending slice holding the whole link target; no capacity check is made. -/
def add_symlink (st : PackBuilder) (name : String) (target : List Nat) (parent : Nat) :
    PackBuilder × Nat :=
  let id := st.items.length + 1
  let st0 := { st with items := st.items ++ [{ id := id, parent := parent, kind := KIND_SYMLINK, name := name : ItemRow }] }
  let link_len := target.length
  (({ st0 with
      contents := st0.contents ++
        [{ data := target, kind := KIND_SYMLINK, item := id, itempos := 0,
           contentpos := st0.current_pos, size := link_len : IncomingContent }],
      current_pos := st0.current_pos + link_len } : PackBuilder), id)

/-- `PackBuilder::finish`: flush any pending bundle; the backup of the
in-memory database to disk is the identity on the tables. -/
def finish (compress : List Nat → List Nat) (blobWrite : List Nat → Nat)
    (st : PackBuilder) : Except Error PackBuilder :=
  if st.contents.isEmpty then Except.ok st
  else process_contents compress blobWrite st

/-- The archive database written by `finish` (the three tables). -/
structure ArchiveDb where
  items : List ItemRow
  contentRows : List (List Nat)
  itemcontentRows : List IcRow
deriving Repr, DecidableEq

/-- Project the builder state onto the archive tables. -/
def PackBuilder.db (st : PackBuilder) : ArchiveDb :=
  { items := st.items, contentRows := st.contentRows, itemcontentRows := st.itemcontentRows }

/-- One builder call, for stating claims over arbitrary build sequences. -/
inductive BuildOp where
  | dirOp (name : String) (parent : Nat)
  | fileOp (name : String) (data : List Nat) (parent : Nat)
  | linkOp (name : String) (target : List Nat) (parent : Nat)
deriving Repr, DecidableEq

/-- Run a sequence of builder calls. -/
def runOps (compress : List Nat → List Nat) (blobWrite : List Nat → Nat) :
    List BuildOp → PackBuilder → Except Error PackBuilder
  | [], st => Except.ok st
  | BuildOp.dirOp name parent :: rest, st =>
      runOps compress blobWrite rest (add_directory st name parent).1
  | BuildOp.fileOp name data parent :: rest, st =>
      match add_file compress blobWrite st name data parent with
      | Except.error e => Except.error e
      | Except.ok (st1, _) => runOps compress blobWrite rest st1
  | BuildOp.linkOp name target parent :: rest, st =>
      runOps compress blobWrite rest (add_symlink st name target parent).1

/-! ## Input trees

`add_dir_all` walks a real directory tree; the pure model walks an `FsNode`
tree.  Directory entry names on a real filesystem are nonempty, are not `.`
or `..`, and contain no separator; trees satisfying `FsNode.wf` below model
exactly those (plus UTF-8 validity, since names are Lean `String`s — the
`to_string_lossy` fallback of `get_file_name` is outside the model). -/

/-- A node of an input tree: a regular file, a symlink (raw target bytes),
or a directory. -/
inductive FsNode where
  | file (name : String) (data : List Nat)
  | symlink (name : String) (target : List Nat)
  | dir (name : String) (children : List FsNode)

/-- The leaf name of a node. -/
def FsNode.name : FsNode → String
  | FsNode.file n _ => n
  | FsNode.symlink n _ => n
  | FsNode.dir n _ => n

mutual

/-- Number of nodes in a tree (walk termination measure). -/
def FsNode.weight : FsNode → Nat
  | FsNode.file _ _ => 1
  | FsNode.symlink _ _ => 1
  | FsNode.dir _ cs => 1 + weightList cs

/-- Number of nodes in a forest. -/
def weightList : List FsNode → Nat
  | [] => 0
  | x :: xs => FsNode.weight x + weightList xs

end

/-- A directory-entry name that `Path::components` parses as one `Normal`
component. -/
def isNormalName (s : String) : Bool :=
  decide (s ≠ "" ∧ s ≠ "." ∧ s ≠ "..") && !(s.data.contains '/')

/-- No duplicates, executable form. -/
def nodupB : List String → Bool
  | [] => true
  | x :: xs => !(xs.contains x) && nodupB xs

/-- Names of the children of a directory. -/
def childNames (cs : List FsNode) : List String := cs.map FsNode.name

mutual

/-- Well-formed tree: every name is a normal component and sibling names
are distinct (both hold for trees read from a real filesystem). -/
def FsNode.wf : FsNode → Bool
  | FsNode.file n _ => isNormalName n
  | FsNode.symlink n _ => isNormalName n
  | FsNode.dir n cs => isNormalName n && nodupB (childNames cs) && wfList cs

/-- Well-formed forest. -/
def wfList : List FsNode → Bool
  | [] => true
  | x :: xs => FsNode.wf x && wfList xs

end

/-- Entry payload for `FsNode.entries`. -/
inductive EntryData where
  | fileE (data : List Nat)
  | dirE
  | linkE (target : List Nat)
deriving Repr, DecidableEq

mutual

/-- All entries of a tree with their full paths (component lists, the node's
own name included). -/
def FsNode.entries : FsNode → List (List String × EntryData)
  | FsNode.file n d => [([n], EntryData.fileE d)]
  | FsNode.symlink n t => [([n], EntryData.linkE t)]
  | FsNode.dir n cs =>
      ([n], EntryData.dirE) :: (entriesList cs).map (fun pe => (n :: pe.1, pe.2))

/-- Entries of a forest, in order. -/
def entriesList : List FsNode → List (List String × EntryData)
  | [] => []
  | x :: xs => FsNode.entries x ++ entriesList xs

end

/-- The body of `add_dir_all`'s `for entry_result in readdir` loop, restricted
to its builder effects: files and symlinks are added inline, directories have
no builder effect (they are only pushed onto the stack, see `childFrames`). -/
def add_entries (compress : List Nat → List Nat) (blobWrite : List Nat → Nat) :
    List FsNode → Nat → PackBuilder → Nat → Except Error (PackBuilder × Nat)
  | [], _, st, fc => Except.ok (st, fc)
  | FsNode.dir _ _ :: rest, parent, st, fc => add_entries compress blobWrite rest parent st fc
  | FsNode.file n d :: rest, parent, st, fc =>
      match add_file compress blobWrite st n d parent with
      | Except.error e => Except.error e
      | Except.ok (st1, _) => add_entries compress blobWrite rest parent st1 (fc + 1)
  | FsNode.symlink n t :: rest, parent, st, fc =>
      add_entries compress blobWrite rest parent (add_symlink st n t parent).1 fc

/-- The stack frames pushed while scanning a directory's entries: its child
directories, with the new directory's id as parent.  `Vec::push`/`Vec::pop`
is LIFO, so the frame list (head popped first) is the child list reversed,
which the `foldl`-with-cons computes. -/
def childFramesStep (pid : Nat) (acc : List (Nat × String × List FsNode)) (ch : FsNode) :
    List (Nat × String × List FsNode) :=
  match ch with
  | FsNode.dir n cs => (pid, n, cs) :: acc
  | _ => acc

def childFrames (pid : Nat) (children : List FsNode) : List (Nat × String × List FsNode) :=
  children.foldl (childFramesStep pid) []

/-- Node count of the subtrees on the stack (termination measure). -/
def frameWeight : List (Nat × String × List FsNode) → Nat
  | [] => 0
  | (_, _, cs) :: rest => 1 + weightList cs + frameWeight rest

/-- The `while let Some(..) = subdirs.pop()` loop of `add_dir_all`. -/
def add_dir_all_loop (compress : List Nat → List Nat) (blobWrite : List Nat → Nat) :
    PackBuilder → Nat → List (Nat × String × List FsNode) → Except Error (PackBuilder × Nat)
  | st, fc, [] => Except.ok (st, fc)
  | st, fc, (parent, name, children) :: rest =>
      let pr := add_directory st name parent
      match add_entries compress blobWrite children pr.2 pr.1 fc with
      | Except.error e => Except.error e
      | Except.ok (st2, fc2) =>
          add_dir_all_loop compress blobWrite st2 fc2 (childFrames pr.2 children ++ rest)
termination_by st fc frames => frameWeight frames
decreasing_by
  have happ : ∀ A B : List (Nat × String × List FsNode),
      frameWeight (A ++ B) = frameWeight A + frameWeight B := by
    intro A
    induction A with
    | nil => intro B; simp [frameWeight]
    | cons hd tl ih =>
        intro B
        obtain ⟨p, n, cs⟩ := hd
        simp [frameWeight, ih]
        omega
  have hcf : ∀ (pid : Nat) (cs : List FsNode) (acc : List (Nat × String × List FsNode)),
      frameWeight (cs.foldl (childFramesStep pid) acc) ≤ weightList cs + frameWeight acc := by
    intro pid cs
    induction cs with
    | nil => intro acc; simp [weightList]
    | cons x xs ih =>
        intro acc
        rw [List.foldl_cons]
        refine le_trans (ih _) ?_
        cases x with
        | dir n cs2 =>
            simp only [weightList, FsNode.weight, frameWeight, childFramesStep]
            omega
        | file n d =>
            simp only [weightList, FsNode.weight, childFramesStep]
            omega
        | symlink n t =>
            simp only [weightList, FsNode.weight, childFramesStep]
            omega
  have hbound := hcf (add_directory st name parent).2 children []
  simp only [frameWeight] at hbound
  rw [happ]
  unfold childFrames
  simp only [frameWeight]
  omega

/-- `PackBuilder::add_dir_all`: seed the stack with the base directory. -/
def add_dir_all (compress : List Nat → List Nat) (blobWrite : List Nat → Nat)
    (st : PackBuilder) (basename : String) (children : List FsNode) :
    Except Error (PackBuilder × Nat) :=
  add_dir_all_loop compress blobWrite st 0 [(0, basename, children)]

/-- The input loop of `create_archive`.  A directory input goes through
`add_dir_all`, a file input through `add_file` with parent 0.  (For a
symlink input `fs::metadata` follows the link and the input behaves as its
target; the pure model does not resolve targets, so such inputs are skipped
here and the claims quantify over file and directory inputs.) -/
def create_inputs (compress : List Nat → List Nat) (blobWrite : List Nat → Nat) :
    List FsNode → PackBuilder → Nat → Except Error (PackBuilder × Nat)
  | [], st, fc => Except.ok (st, fc)
  | FsNode.dir n cs :: rest, st, fc =>
      match add_dir_all compress blobWrite st n cs with
      | Except.error e => Except.error e
      | Except.ok (st1, k) => create_inputs compress blobWrite rest st1 (fc + k)
  | FsNode.file n d :: rest, st, fc =>
      match add_file compress blobWrite st n d 0 with
      | Except.error e => Except.error e
      | Except.ok (st1, _) => create_inputs compress blobWrite rest st1 (fc + 1)
  | FsNode.symlink _ _ :: rest, st, fc => create_inputs compress blobWrite rest st fc

/-- `create_archive`: build from the inputs, `finish`, return the archive
database and the file count. -/
def create_archive (compress : List Nat → List Nat) (blobWrite : List Nat → Nat)
    (inputs : List FsNode) : Except Error (ArchiveDb × Nat) :=
  match create_inputs compress blobWrite inputs PackBuilder.new 0 with
  | Except.error e => Except.error e
  | Except.ok (st, fc) =>
      match finish compress blobWrite st with
      | Except.error e => Except.error e
      | Except.ok st1 => Except.ok (st1.db, fc)

/-! ## Path sanitizer (src/lib.rs `sanitize_path`)

`std::path::Component` is embedded directly; the parsing of an OS string
into components is the standard library's and is taken as a collaborator. -/

/-- `std::path::Component`. -/
inductive Component where
  | drive (s : String)
  | rootDir
  | curDir
  | parentDir
  | normal (s : String)
deriving Repr, DecidableEq

/-- `matches!(c, Component::Normal(_))`. -/
def Component.isNormal : Component → Bool
  | Component.normal _ => true
  | _ => false

/-- `PathBuf::join` restricted to a single component: joining an absolute
or prefixed component replaces the accumulated path, anything else is
appended. -/
def pathJoin (path : List Component) (c : Component) : List Component :=
  match c with
  | Component.rootDir => [Component.rootDir]
  | Component.drive s => [Component.drive s]
  | c => path ++ [c]

/-- `sanitize_path` of src/lib.rs: keep the `Normal` components, join them
onto an empty `PathBuf`. -/
def sanitize_path (dirty : List Component) : Except Error (List Component) :=
  let allowed := dirty.filter Component.isNormal
  Except.ok (allowed.foldl pathJoin [])

/-! ## Archive identifier (src/lib.rs `is_pack_file`) -/

/-- The observable behaviour of the filesystem and SQLite for one candidate
path: whether `fs::metadata` succeeds and what it reports, whether opening
and reading 16 bytes succeeds and what they are, whether `Connection::open`
succeeds, whether `SELECT * FROM item` prepares (the table exists), whether
`Statement::exists` runs, and whether the `item` table has a row. -/
structure ProbeFile where
  metaOk : Bool
  is_file : Bool
  len : Nat
  readOk : Bool
  first16 : List Nat
  connOk : Bool
  prepareOk : Bool
  existsOk : Bool
  itemNonempty : Bool
deriving Repr, DecidableEq

/-- The 16-byte SQLite magic, `SQL_HEADER` of src/lib.rs. -/
def SQL_HEADER : List Nat :=
  [0x53, 0x51, 0x4c, 0x69, 0x74, 0x65, 0x20, 0x66, 0x6f, 0x72, 0x6d, 0x61, 0x74, 0x20, 0x33, 0x00]

/-- `is_pack_file` of src/lib.rs. -/
def is_pack_file (f : ProbeFile) : Except Error Bool :=
  if !f.metaOk then Except.error Error.ioError
  else if f.is_file ∧ f.len > 16 then
    if !f.readOk then Except.error Error.ioError
    else if f.first16 = SQL_HEADER then
      if !f.connOk then Except.error Error.sqlError
      else if f.prepareOk then
        if !f.existsOk then Except.error Error.sqlError
        else Except.ok f.itemNonempty
      else Except.ok false
    else Except.ok false
  else Except.ok false

/-! ## Extraction (PackReader)

Paths are modelled as component lists throughout: the recursive CTE joins
leaf names with `/` and the reader immediately re-splits via
`sanitize_path`; for names that are single normal components the round trip
through the string is the identity, so the model keeps the component lists.
`sanitizeNames` is `sanitize_path` applied to such a path. -/

/-- `sanitize_path` on an archive path whose components are leaf names. -/
def sanitizeNames (p : List String) : List String := p.filter (fun n => isNormalName n)

/-- A row of the recursive CTE `FIT`: an item id, its kind, and its full
path. -/
structure FitRow where
  id : Nat
  kind : Nat
  path : List String
deriving Repr, DecidableEq

/-- The recursive step of the CTE: the children of a directory row. -/
def childrenRows (items : List ItemRow) (r : FitRow) : List FitRow :=
  if r.kind = KIND_DIRECTORY then
    (items.filter (fun it => it.parent = r.id)).map
      (fun it => { id := it.id, kind := it.kind, path := r.path ++ [it.name] })
  else []

/-- One CTE iteration over a whole level. -/
def fitLevel (items : List ItemRow) (level : List FitRow) : List FitRow :=
  level.foldr (fun r acc => childrenRows items r ++ acc) []

/-- Accumulate CTE levels; `items.length + 1` iterations suffice because a
root-reachable parent chain in a table with distinct ids cannot repeat an
id. -/
def fitAux (items : List ItemRow) : Nat → List FitRow → List FitRow
  | 0, _ => []
  | n + 1, level => level ++ fitAux items n (fitLevel items level)

/-- All rows of the recursive CTE, roots (`Parent = 0`) first. -/
def fitRows (items : List ItemRow) : List FitRow :=
  fitAux items (items.length + 1)
    ((items.filter (fun it => it.parent = 0)).map
      (fun it => { id := it.id, kind := it.kind, path := [it.name] }))

/-- The temporary `IndexedFiles` table: every non-directory item with its
full path (`WHERE kind <> 1`). -/
def indexedFiles (items : List ItemRow) : List FitRow :=
  (fitRows items).filter (fun r => r.kind ≠ KIND_DIRECTORY)

/-- The directory rows used by `ensure_all_directories` (`WHERE Kind = 1`). -/
def dirRows (items : List ItemRow) : List FitRow :=
  (fitRows items).filter (fun r => r.kind = KIND_DIRECTORY)

/-- The extraction target: the directories created, the regular files
written (path to bytes) and the symlinks created (path to raw target).
Real extraction writes into one shared namespace; the claims below are
stated for archives whose paths do not collide across kinds. -/
structure OutFS where
  dirs : List (List String)
  files : List (List String × List Nat)
  links : List (List String × List Nat)
deriving Repr, DecidableEq

/-- Insert or replace a file binding, keeping first-insertion order. -/
def upsert (m : List (List String × List Nat)) (k : List String) (v : List Nat) :
    List (List String × List Nat) :=
  if (List.lookup k m).isSome then
    m.map (fun kv => if kv.1 = k then (k, v) else kv)
  else m ++ [(k, v)]

/-- `fs::create_dir_all`: create the path and every ancestor, in order; a
no-op for components that already exist.  (On the empty path the real call
fails; well-formed archives never produce one and the model makes it a
no-op.) -/
def create_dir_all (dirs : List (List String)) (p : List String) : List (List String) :=
  (p.inits.filter (fun q => q ≠ [])).foldl
    (fun ds q => if q ∈ ds then ds else ds ++ [q]) dirs

/-- `PackReader::ensure_all_directories`. -/
def ensure_all_directories (items : List ItemRow) (fs : OutFS) : OutFS :=
  let ds := (dirRows items).foldl (fun ds r => create_dir_all ds (sanitizeNames r.path)) fs.dirs
  { fs with dirs := ds }

/-- A row of the scatter query
`SELECT content, contentpos, itempos, Size, kind, Path FROM IndexedFiles
LEFT JOIN itemcontent ...`.  An item with no `itemcontent` rows survives the
LEFT JOIN as a single row whose `content`, `contentpos`, `itempos` and
`size` columns are NULL (`nullRow`). -/
inductive ScatterRow where
  | nullRow (kind : Nat) (path : List String)
  | dataRow (content contentpos itempos size : Nat) (kind : Nat) (path : List String)
deriving Repr, DecidableEq

/-- The LEFT JOIN, before sorting. -/
def joinRows (db : ArchiveDb) : List ScatterRow :=
  (indexedFiles db.items).foldr (fun f acc =>
    (let rs := db.itemcontentRows.filter (fun r => r.item = f.id)
     if rs.isEmpty then [ScatterRow.nullRow f.kind f.path]
     else rs.map (fun r =>
       ScatterRow.dataRow r.content r.contentpos r.itempos r.size f.kind f.path)) ++ acc) []

/-- Sort key of `ORDER BY content, contentpos`; SQLite sorts NULL before
every integer, encoded by the leading flag. -/
def rowKey : ScatterRow → Nat × Nat × Nat
  | ScatterRow.nullRow _ _ => (0, 0, 0)
  | ScatterRow.dataRow c cp _ _ _ _ => (1, c, cp)

/-- Lexicographic comparison of sort keys. -/
def keyLe (a b : Nat × Nat × Nat) : Prop :=
  a.1 < b.1 ∨ (a.1 = b.1 ∧ (a.2.1 < b.2.1 ∨ (a.2.1 = b.2.1 ∧ a.2.2 ≤ b.2.2)))

instance (a b : Nat × Nat × Nat) : Decidable (keyLe a b) := by
  unfold keyLe; infer_instance

/-- Row order of the scatter query. -/
def rowLe (a b : ScatterRow) : Prop := keyLe (rowKey a) (rowKey b)

instance (a b : ScatterRow) : Decidable (rowLe a b) := by
  unfold rowLe; infer_instance

/-- `blob_open` on a content id: row ids are list index + 1. -/
def blobOf (db : ArchiveDb) (cid : Nat) : Option (List Nat) :=
  if cid = 0 then none else db.contentRows[cid - 1]?

/-- The bytes `Cursor::seek(contentpos)` + `take(size)` yields. -/
def segmentOf (bytes : List Nat) (contentpos size : Nat) : List Nat :=
  (bytes.drop contentpos).take size

/-- One slice written into a file: extend with `set_len` (zero fill) when
the file is shorter than `itempos`, seek to `itempos`, overwrite the bytes
of the segment (which may be shorter than `size` if the bundle runs out). -/
def writeChunk (cur : List Nat) (itempos : Nat) (seg : List Nat) : List Nat :=
  let padded := if cur.length < itempos then cur ++ List.replicate (itempos - cur.length) 0 else cur
  padded.take itempos ++ seg ++ padded.drop (itempos + seg.length)

/-- The per-row body of `PackReader::process_content`.  The blob is fetched
per row here; rows of equal `content` are adjacent after sorting, so this
differs from the per-batch fetch of the source only in which of two equal
error outcomes is produced first.  A NULL row fails at column decoding
(rusqlite `InvalidColumnType`, a `SQLError`).  Symlink creation fails with
an I/O error (`EEXIST`) when the path already exists.  The file branch
models only the empty-path failure of `OpenOptions::open`; the real open
also fails when the path names an existing directory (`EISDIR`) or when a
parent directory is missing (`ENOENT`).  Theorems that exercise the file
branch therefore confine themselves to archives where neither can happen:
builder-produced archives (C1, C4, C9), whose item paths are pairwise
distinct and whose parents are directory items, and for C8 explicit
hypotheses that no file row's path names a created directory and that every
proper prefix of a file row's path is a created directory. -/
def processRow (decompress : List Nat → List Nat) (db : ArchiveDb)
    (fs : OutFS) (fc : Nat) : ScatterRow → Except Error (OutFS × Nat)
  | ScatterRow.nullRow _ _ => Except.error Error.sqlError
  | ScatterRow.dataRow content contentpos itempos size kind path =>
      match blobOf db content with
      | none => Except.error Error.sqlError
      | some blob =>
          let buffer := decompress blob
          let fpath := sanitizeNames path
          if kind = KIND_FILE then
            if fpath = [] then Except.error Error.ioError
            else
              let cur := (List.lookup fpath fs.files).getD []
              let fc1 := if cur.length = 0 then fc + 1 else fc
              if size > 0 then
                let seg := segmentOf buffer contentpos size
                Except.ok ({ fs with files := upsert fs.files fpath (writeChunk cur itempos seg) }, fc1)
              else
                Except.ok ({ fs with files := upsert fs.files fpath cur }, fc1)
          else if kind = KIND_SYMLINK then
            if fpath = [] then Except.error Error.ioError
            else if (List.lookup fpath fs.links).isSome ∨ (List.lookup fpath fs.files).isSome
                ∨ fpath ∈ fs.dirs then
              Except.error Error.ioError
            else
              Except.ok ({ fs with links := fs.links ++ [(fpath, segmentOf buffer contentpos size)] }, fc)
          else Except.ok (fs, fc)

/-- The scatter loop of `extract_all`.  On an error the Rust code returns
`Err` but the files already written remain on disk, so the model returns
the filesystem state alongside the outcome. -/
def extract_go (decompress : List Nat → List Nat) (db : ArchiveDb) :
    List ScatterRow → OutFS → Nat → OutFS × Except Error Nat
  | [], fs, fc => (fs, Except.ok fc)
  | r :: rs, fs, fc =>
      match processRow decompress db fs fc r with
      | Except.error e => (fs, Except.error e)
      | Except.ok (fs1, fc1) => extract_go decompress db rs fs1 fc1

/-- `PackReader::extract_all`: create all directories, run the scatter
query ordered by `(content, contentpos)`, process every row. -/
def extract_all (decompress : List Nat → List Nat) (db : ArchiveDb) (fs0 : OutFS) :
    OutFS × Except Error Nat :=
  let fs1 := ensure_all_directories db.items fs0
  extract_go decompress db (List.insertionSort rowLe (joinRows db)) fs1 0

/-! ## Derived notions used by the claims -/

/-- The `itemcontent` rows of item `i`, in table order. -/
def rowsOf (db : ArchiveDb) (i : Nat) : List IcRow :=
  db.itemcontentRows.filter (fun r => r.item = i)

/-- Sum of the `size` fields of the `itemcontent` rows referencing content
row `cid`. -/
def sumSizes (db : ArchiveDb) (cid : Nat) : Nat :=
  ((db.itemcontentRows.filter (fun r => r.content = cid)).map (fun r => r.size)).sum

/-- Consecutive `(itempos, size)` slices starting at `pos`: each slice
begins where the previous one ended. -/
def specsFrom : Nat → List Nat → List (Nat × Nat)
  | _, [] => []
  | pos, s :: rest => (pos, s) :: specsFrom (pos + s) rest

/-- The `(itempos, size)` pairs recorded for item `i`: flushed rows first
(in table order), then still-pending slices. -/
def itemSpecs (st : PackBuilder) (i : Nat) : List (Nat × Nat) :=
  (st.itemcontentRows.filter (fun r => r.item = i)).map (fun r => (r.itempos, r.size)) ++
  (st.contents.filter (fun s => s.item = i)).map (fun s => (s.itempos, s.size))

/-- A build consisting only of `add_directory` and `add_file` calls. -/
def noLinkOps (ops : List BuildOp) : Prop :=
  ∀ name target parent, BuildOp.linkOp name target parent ∉ ops

/-- Run a build sequence from a fresh builder and `finish` it. -/
def buildArchive (compress : List Nat → List Nat) (blobWrite : List Nat → Nat)
    (ops : List BuildOp) : Except Error ArchiveDb :=
  match runOps compress blobWrite ops PackBuilder.new with
  | Except.error e => Except.error e
  | Except.ok st =>
      match finish compress blobWrite st with
      | Except.error e => Except.error e
      | Except.ok st1 => Except.ok st1.db

/-- Sum of the pending slice sizes. -/
def sumPending (l : List IncomingContent) : Nat := (l.map (fun s => s.size)).sum

/-- Abbreviation for the pending slice `add_file`'s loop pushes. -/
def fileSlice (data : List Nat) (j ip cpos sz : Nat) : IncomingContent :=
  { data := data, kind := KIND_FILE, item := j, itempos := ip, contentpos := cpos, size := sz }

/-- Abbreviation for the pending slice `add_symlink` pushes. -/
def linkSlice (target : List Nat) (j cpos : Nat) : IncomingContent :=
  { data := target, kind := KIND_SYMLINK, item := j, itempos := 0, contentpos := cpos,
    size := target.length }

/-- The slice sizes `add_file`'s loop emits for a file of `size` bytes
entering a bundle whose cursor is at `cp`: head slices fill the bundle,
the final remainder is left pending. -/
def loopSizes (cp size : Nat) : List Nat :=
  if cp + size > BUNDLE_SIZE then
    (BUNDLE_SIZE - cp) :: loopSizes 0 (size - (BUNDLE_SIZE - cp))
  else [size]
termination_by 2 * size + (if cp = 0 then 0 else 1)
decreasing_by
  rename_i hover
  have hB : (0:Nat) < BUNDLE_SIZE := by decide
  simp only [if_true]
  by_cases hcp : cp = 0
  · simp only [hcp, if_pos rfl]
    omega
  · simp only [if_neg hcp]
    omega

/-- Every `itemcontent` row references an existing content row. -/
def rowsBounded (st : PackBuilder) : Prop :=
  ∀ r ∈ st.itemcontentRows, 1 ≤ r.content ∧ r.content ≤ st.contentRows.length

/-- Every recorded slice belongs to an already-inserted item. -/
def idsBounded (st : PackBuilder) : Prop :=
  (∀ r ∈ st.itemcontentRows, 1 ≤ r.item ∧ r.item ≤ st.items.length) ∧
  (∀ s ∈ st.contents, 1 ≤ s.item ∧ s.item ≤ st.items.length)

/-- The sanitized output path a scatter row writes to. -/
def rowPath : ScatterRow → List String
  | ScatterRow.nullRow _ p => sanitizeNames p
  | ScatterRow.dataRow _ _ _ _ _ p => sanitizeNames p

/-- Kind column of a scatter row. -/
def rowKind : ScatterRow → Nat
  | ScatterRow.nullRow k _ => k
  | ScatterRow.dataRow _ _ _ _ k _ => k

/-- Two scatter rows that write into the same file do not overlap (the
validity invariant of §3 of the spec: slice intervals of a file are
pairwise disjoint). -/
def rowsDisjoint (r1 r2 : ScatterRow) : Prop :=
  match r1, r2 with
  | ScatterRow.dataRow _ _ ip1 sz1 k1 p1, ScatterRow.dataRow _ _ ip2 sz2 k2 p2 =>
      k1 = KIND_FILE → k2 = KIND_FILE → sanitizeNames p1 = sanitizeNames p2 →
        ip1 + sz1 ≤ ip2 ∨ ip2 + sz2 ≤ ip1
  | _, _ => True

/-- The bundle-bound target of C2: every content row's referenced `size`
fields sum to at most `BUNDLE_SIZE`. -/
def bundlesBounded (db : ArchiveDb) : Prop :=
  ∀ cid, sumSizes db cid ≤ BUNDLE_SIZE

/-- Builder invariant giving the bundle bound: the cursor tracks the pending
sizes, stays within the bundle, rows reference existing content rows, and
all flushed bundles are bounded. -/
def c2Inv (st : PackBuilder) : Prop :=
  st.current_pos = sumPending st.contents ∧
  st.current_pos ≤ BUNDLE_SIZE ∧
  rowsBounded st ∧
  bundlesBounded st.db

/-- The builder state after the single oversized-symlink build (C2). -/
def c2LinkState : PackBuilder :=
  (add_symlink PackBuilder.new "l" (List.replicate (BUNDLE_SIZE + 1) 0) 0).1

/-- The builder state after `finish` flushes the oversized link slice (C2). -/
def c2LinkFinal : PackBuilder :=
  { c2LinkState with contentRows := c2LinkState.contentRows ++ [id (sliceBytes (linkSlice (List.replicate (BUNDLE_SIZE + 1) 0) 1 0))], itemcontentRows := c2LinkState.itemcontentRows ++ [flushRow (c2LinkState.contentRows.length + 1) (linkSlice (List.replicate (BUNDLE_SIZE + 1) 0) 1 0)], contents := [], current_pos := 0 }

/-- The archive tables after that build (C2). -/
def c2LinkDb : ArchiveDb := c2LinkFinal.db

/-- Key uniqueness of the written-files map (C8). -/
def uniqKeys (m : List (List String × List Nat)) : Prop := (m.map Prod.fst).Nodup

/-- Row `r` writes into file `p` at byte offset `x` (C8). -/
def rowWritesAt (r : ScatterRow) (p : List String) (x : Nat) : Prop :=
  match r with
  | ScatterRow.dataRow _ _ ip sz k q =>
      k = KIND_FILE ∧ sanitizeNames q = p ∧ ip ≤ x ∧ x < ip + sz
  | ScatterRow.nullRow _ _ => False

/-- After a pass of the scatter loop, the file named by a processed row
holds that row's segment at its `itempos` (C8). -/
def rowDone (d : List Nat → List Nat) (db : ArchiveDb) (fs : OutFS) : ScatterRow → Prop
  | ScatterRow.dataRow c cp ip sz k q =>
      k = KIND_FILE →
        ∃ F, List.lookup (sanitizeNames q) fs.files = some F ∧
          (sz > 0 →
            ip + (segmentOf (d ((blobOf db c).getD [])) cp sz).length ≤ F.length ∧
            ∀ j < (segmentOf (d ((blobOf db c).getD [])) cp sz).length,
              F[ip + j]? = (segmentOf (d ((blobOf db c).getD [])) cp sz)[j]?)
  | ScatterRow.nullRow _ _ => True

def rowEnd (d : List Nat → List Nat) (db : ArchiveDb) (p : List String) : ScatterRow → Nat
  | ScatterRow.dataRow c cp ip sz k q =>
      if k = KIND_FILE ∧ sanitizeNames q = p ∧ 0 < sz then
        ip + (segmentOf (d ((blobOf db c).getD [])) cp sz).length
      else 0
  | ScatterRow.nullRow _ _ => 0

def rowsLinks (d : List Nat → List Nat) (db : ArchiveDb) : List ScatterRow → List (List String × List Nat)
  | [] => []
  | ScatterRow.dataRow c cp _ sz k q :: rest =>
      if k = KIND_SYMLINK then
        (sanitizeNames q, segmentOf (d ((blobOf db c).getD [])) cp sz) :: rowsLinks d db rest
      else rowsLinks d db rest
  | ScatterRow.nullRow _ _ :: rest => rowsLinks d db rest

def linkSep (a b : ScatterRow) : Prop :=
  (rowKind a = KIND_SYMLINK ∨ rowKind b = KIND_SYMLINK) → rowPath a ≠ rowPath b

def rowBenign2 (db : ArchiveDb) (r : ScatterRow) : Prop :=
  match r with
  | ScatterRow.nullRow _ _ => False
  | ScatterRow.dataRow c _ _ _ k p =>
      (blobOf db c).isSome ∧ ((k = KIND_FILE ∨ k = KIND_SYMLINK) → sanitizeNames p ≠ [])

def idsSeq (items : List ItemRow) : Prop :=
  ∀ k, (h : k < items.length) → (items.get ⟨k, h⟩).id = k + 1

def parentLt (items : List ItemRow) : Prop := ∀ it ∈ items, it.parent < it.id

inductive Chain (items : List ItemRow) : ItemRow → List String → Nat → Prop where
  | root : ∀ {it : ItemRow}, it ∈ items → it.parent = 0 → Chain items it [it.name] 0
  | child : ∀ {pit it : ItemRow} {ppath : List String} {n : Nat},
      Chain items pit ppath n → pit.kind = KIND_DIRECTORY → it ∈ items →
      it.parent = pit.id → Chain items it (ppath ++ [it.name]) (n + 1)

def fitLevels (items : List ItemRow) : Nat → List FitRow
  | 0 => (items.filter (fun it => it.parent = 0)).map
      (fun it => { id := it.id, kind := it.kind, path := [it.name] })
  | k + 1 => fitLevel items (fitLevels items k)

def entryRowOK (d : List Nat → List Nat) (st : PackBuilder) (D : List Nat) (r : IcRow) : Prop :=
  ∃ B, st.contentRows[r.content - 1]? = some B ∧
    segmentOf (d B) r.contentpos r.size = (D.drop r.itempos).take r.size ∧
    r.itempos + r.size ≤ D.length

def entrySliceOK (D : List Nat) (kind : Nat) (s : IncomingContent) : Prop :=
  s.data = D ∧ s.kind = kind ∧ s.itempos + s.size ≤ D.length

def catBytes (d : List Nat → List Nat) (st : PackBuilder)
    (cat : List (Nat × EntryData)) : Prop :=
  ∀ je ∈ cat, match je.2 with
  | EntryData.fileE D =>
      (∀ r ∈ st.itemcontentRows, r.item = je.1 → entryRowOK d st D r) ∧
      (∀ s ∈ st.contents, s.item = je.1 → entrySliceOK D KIND_FILE s)
  | EntryData.linkE T =>
      (∀ r ∈ st.itemcontentRows, r.item = je.1 →
        entryRowOK d st T r ∧ r.itempos = 0 ∧ r.size = T.length) ∧
      (∀ s ∈ st.contents, s.item = je.1 →
        entrySliceOK T KIND_SYMLINK s ∧ s.itempos = 0 ∧ s.size = T.length)
  | EntryData.dirE =>
      (∀ r ∈ st.itemcontentRows, r.item ≠ je.1) ∧ (∀ s ∈ st.contents, s.item ≠ je.1)

def catSpecs (st : PackBuilder) (cat : List (Nat × EntryData)) : Prop :=
  ∀ je ∈ cat, match je.2 with
  | EntryData.fileE D =>
      ∃ sizes, sizes ≠ [] ∧ itemSpecs st je.1 = specsFrom 0 sizes ∧ sizes.sum = D.length
  | EntryData.linkE T => itemSpecs st je.1 = [(0, T.length)]
  | EntryData.dirE => itemSpecs st je.1 = []

def posW (l : List IncomingContent) : Prop :=
  (∀ i, (h : i < l.length) → (l.get ⟨i, h⟩).contentpos = sumPending (l.take i)) ∧
  (∀ s ∈ l, (sliceBytes s).length = s.size)

def posOK (st : PackBuilder) : Prop :=
  st.current_pos = sumPending st.contents ∧ posW st.contents

def flushedSt (c : List Nat → List Nat) (st : PackBuilder) : PackBuilder :=
  { st with contentRows := st.contentRows ++ [c (bundleBytes st.contents)], itemcontentRows := st.itemcontentRows ++ st.contents.map (flushRow (st.contentRows.length + 1)), contents := [], current_pos := 0 }

def kindMatches (k : Nat) : EntryData → Prop
  | EntryData.fileE _ => k = KIND_FILE
  | EntryData.dirE => k = KIND_DIRECTORY
  | EntryData.linkE _ => k = KIND_SYMLINK

def buildInv (d : List Nat → List Nat) (st : PackBuilder)
    (cat : List (Nat × EntryData)) : Prop :=
  idsSeq st.items ∧ parentLt st.items ∧ idsBounded st ∧ rowsBounded st ∧ posOK st ∧
  catBytes d st cat ∧ catSpecs st cat ∧
  (∀ je ∈ cat, 1 ≤ je.1 ∧ je.1 ≤ st.items.length)

/-! ## C1: the directory walk -/

/-- Every name in a path is a normal component. -/
def normalNames (P : List String) : Prop := ∀ nm ∈ P, isNormalName nm = true

/-- The id–path–payload catalog accumulated by the walk: every entry names
an existing item of matching kind whose root chain spells its (nonempty,
normal, duplicate-free) path, and every item is catalogued. -/
def pcatOK (st : PackBuilder) (pcat : List (Nat × List String × EntryData)) : Prop :=
  (∀ x ∈ pcat, ∃ it m, it ∈ st.items ∧ it.id = x.1 ∧ kindMatches it.kind x.2.2 ∧
    Chain st.items it x.2.1 m ∧ x.2.1 ≠ [] ∧ normalNames x.2.1) ∧
  (∀ it ∈ st.items, ∃ x ∈ pcat, x.1 = it.id) ∧
  (pcat.map (fun x => x.2.1)).Nodup

/-- Forget the paths of a catalog. -/
def pcatProj (pcat : List (Nat × List String × EntryData)) : List (Nat × EntryData) :=
  pcat.map (fun x => (x.1, x.2.2))

/-- Forget the ids of a catalog. -/
def pcatPP (pcat : List (Nat × List String × EntryData)) : List (List String × EntryData) :=
  pcat.map (fun x => (x.2.1, x.2.2))

/-- Full walk invariant: the builder invariant over the id-indexed catalog,
plus the path bookkeeping. -/
def walkInv (d : List Nat → List Nat) (st : PackBuilder)
    (pcat : List (Nat × List String × EntryData)) : Prop :=
  buildInv d st (pcatProj pcat) ∧ pcatOK st pcat

/-- A stack frame annotated with the path of the parent directory: the
parent id is justified (0 at the root, otherwise a catalogued directory
item whose chain spells the annotated path), the annotated path is normal,
and the frame's subtree is well-formed. -/
def frameOK (st : PackBuilder) (fr : List String × Nat × String × List FsNode) : Prop :=
  ((fr.2.1 = 0 ∧ fr.1 = []) ∨
    ∃ it m, it ∈ st.items ∧ it.id = fr.2.1 ∧ it.kind = KIND_DIRECTORY ∧
      Chain st.items it fr.1 m) ∧
  normalNames fr.1 ∧
  (FsNode.dir fr.2.2.1 fr.2.2.2).wf = true

/-- The entries a frame will contribute, with full paths. -/
def frameEntries (fr : List String × Nat × String × List FsNode) :
    List (List String × EntryData) :=
  (FsNode.dir fr.2.2.1 fr.2.2.2).entries.map (fun pe => (fr.1 ++ pe.1, pe.2))

/-- The annotated child frames: like `childFrames` but carrying the new
directory's path. -/
def childFramesA (P : List String) (pid : Nat) (children : List FsNode) :
    List (List String × Nat × String × List FsNode) :=
  children.foldl (fun acc ch => match ch with
    | FsNode.dir n cs => (P, pid, n, cs) :: acc
    | _ => acc) []

/-- The directory children as frames, in child order. -/
def dirFrames (P : List String) (pid : Nat) : List FsNode →
    List (List String × Nat × String × List FsNode)
  | [] => []
  | FsNode.dir n cs :: rest => (P, pid, n, cs) :: dirFrames P pid rest
  | _ :: rest => dirFrames P pid rest

/-- The non-directory direct children as entries at path prefix `P`. -/
def nonDirEntries (P : List String) : List FsNode → List (List String × EntryData)
  | [] => []
  | FsNode.file n dta :: rest => (P ++ [n], EntryData.fileE dta) :: nonDirEntries P rest
  | FsNode.symlink n t :: rest => (P ++ [n], EntryData.linkE t) :: nonDirEntries P rest
  | FsNode.dir _ _ :: rest => nonDirEntries P rest

/-- One item's rows in the LEFT JOIN output. -/
def blockOf (db : ArchiveDb) (f : FitRow) : List ScatterRow :=
  let rs := db.itemcontentRows.filter (fun r => r.item = f.id)
  if rs.isEmpty then [ScatterRow.nullRow f.kind f.path]
  else rs.map (fun r => ScatterRow.dataRow r.content r.contentpos r.itempos r.size f.kind f.path)

/-- The `kind` column an entry payload is stored with. -/
def kindOfE : EntryData → Nat
  | EntryData.fileE _ => KIND_FILE
  | EntryData.dirE => KIND_DIRECTORY
  | EntryData.linkE _ => KIND_SYMLINK

/-! ## Theorems -/

theorem foldl_pathJoin_normal (l : List Component) (acc : List Component)
    (h : ∀ c ∈ l, Component.isNormal c = true) : l.foldl pathJoin acc = acc ++ l := by
  induction l generalizing acc with
  | nil => simp
  | cons c rest ih =>
      have hc := h c (by simp)
      have hrest : ∀ x ∈ rest, Component.isNormal x = true := fun x hx => h x (by simp [hx])
      cases c with
      | normal s => rw [List.foldl_cons, ih _ hrest]; simp [pathJoin]
      | drive s => simp [Component.isNormal] at hc
      | rootDir => simp [Component.isNormal] at hc
      | curDir => simp [Component.isNormal] at hc
      | parentDir => simp [Component.isNormal] at hc

/-- C6: `sanitize_path` keeps exactly the `Normal` components of its input,
in their original order, and drops root, prefix, current-dir and parent-dir
components; the result consists of normal components only, hence is a
relative path. -/
theorem c6_sanitize_path_normal_components (dirty : List Component) :
    sanitize_path dirty = Except.ok (dirty.filter Component.isNormal) ∧
    (∀ c ∈ dirty.filter Component.isNormal, Component.isNormal c = true) ∧
    Component.rootDir ∉ dirty.filter Component.isNormal ∧
    (∀ s, Component.drive s ∉ dirty.filter Component.isNormal) := by
  have hall : ∀ c ∈ dirty.filter Component.isNormal, Component.isNormal c = true :=
    fun c hc => List.of_mem_filter hc
  refine ⟨?_, hall, ?_, ?_⟩
  · have hfold := foldl_pathJoin_normal (dirty.filter Component.isNormal) [] hall
    unfold sanitize_path
    simp [hfold]
  · intro hmem
    have := hall _ hmem
    simp [Component.isNormal] at this
  · intro s hmem
    have := hall _ hmem
    simp [Component.isNormal] at this

/-- C10: `sanitize_path` is total — it returns `Ok` on every input, and on
an input with no normal components (an empty path, a bare root, prefixes,
parent dirs) it returns the empty relative path. -/
theorem c10_sanitize_path_total (dirty : List Component) :
    (∃ out, sanitize_path dirty = Except.ok out) ∧
    ((∀ c ∈ dirty, Component.isNormal c = false) → sanitize_path dirty = Except.ok []) := by
  constructor
  · exact ⟨_, (c6_sanitize_path_normal_components dirty).1⟩
  · intro h
    have hnil : dirty.filter Component.isNormal = [] := by
      rw [List.filter_eq_nil]
      intro c hc
      simp [h c hc]
    unfold sanitize_path
    rw [hnil]
    simp

/-- Closed instance of C10: a path of only root and parent-dir components
sanitizes to the empty relative path. -/
theorem c10_sanitize_path_total_witness :
    sanitize_path [Component.rootDir, Component.parentDir, Component.curDir] = Except.ok [] :=
  (c10_sanitize_path_total _).2 (by decide)

/-- C5: behaviour of `is_pack_file`.  A regular file of at most 16 bytes is
rejected with `Ok(false)`; a mismatched 16-byte header yields `Ok(false)`;
a matching header with a missing `item` table yields `Ok(false)` (not an
error); in an error-free environment the result is `Ok(true)` exactly when
the file is regular, longer than 16 bytes, starts with the SQLite magic and
has a non-empty `item` table; and I/O failures surface as errors. -/
theorem c5_is_pack_file_spec (f : ProbeFile) :
    (f.metaOk = true → f.is_file = true → f.len ≤ 16 → is_pack_file f = Except.ok false) ∧
    (f.metaOk = true → f.readOk = true → f.first16 ≠ SQL_HEADER → is_pack_file f = Except.ok false) ∧
    (f.metaOk = true → f.readOk = true → f.connOk = true → f.prepareOk = false →
       is_pack_file f = Except.ok false) ∧
    (f.metaOk = true → f.readOk = true → f.connOk = true → f.existsOk = true →
       (is_pack_file f = Except.ok true ↔
         (f.is_file = true ∧ f.len > 16 ∧ f.first16 = SQL_HEADER ∧
          f.prepareOk = true ∧ f.itemNonempty = true))) ∧
    (f.metaOk = false → is_pack_file f = Except.error Error.ioError) ∧
    (f.metaOk = true → f.is_file = true → f.len > 16 → f.readOk = false →
       is_pack_file f = Except.error Error.ioError) := by
  obtain ⟨mo, isf, len, ro, f16, co, po, eo, ne⟩ := f
  dsimp only
  refine ⟨?_, ?_, ?_, ?_, ?_, ?_⟩
  · intro hmo hisf hlen
    subst hmo; subst hisf
    have : ¬(16 < len) := by omega
    simp [is_pack_file, this]
  · intro hmo hro hhdr
    subst hmo; subst hro
    by_cases hc : isf = true ∧ len > 16
    · simp [is_pack_file, hc, hhdr]
    · simp [is_pack_file, hc]
  · intro hmo hro hco hpo
    subst hmo; subst hro; subst hco; subst hpo
    by_cases hc : isf = true ∧ len > 16
    · by_cases hhdr : f16 = SQL_HEADER <;> simp [is_pack_file, hc, hhdr]
    · simp [is_pack_file, hc]
  · intro hmo hro hco heo
    subst hmo; subst hro; subst hco; subst heo
    constructor
    · intro h
      by_cases hc : isf = true ∧ len > 16
      · by_cases hhdr : f16 = SQL_HEADER
        · by_cases hpo : po = true
          · subst hpo
            simp [is_pack_file, hc, hhdr] at h
            exact ⟨hc.1, hc.2, hhdr, rfl, h⟩
          · have hpo2 : po = false := by revert hpo; cases po <;> simp
            subst hpo2
            simp [is_pack_file, hc, hhdr] at h
        · simp [is_pack_file, hc, hhdr] at h
      · simp [is_pack_file, hc] at h
    · rintro ⟨hisf, hlen, hhdr, hpo, hne⟩
      subst hisf; subst hpo; subst hne
      simp [is_pack_file, hhdr, hlen]
  · intro hmo
    subst hmo
    simp [is_pack_file]
  · intro hmo hisf hlen hro
    subst hmo; subst hisf; subst hro
    simp [is_pack_file, hlen]

/-- Closed instance of C5: a matching header over a missing `item` table
gives `Ok(false)`, and a fully valid pack probe gives `Ok(true)`. -/
theorem c5_is_pack_file_spec_witness :
    is_pack_file ⟨true, true, 100, true, SQL_HEADER, true, false, true, false⟩ = Except.ok false ∧
    is_pack_file ⟨true, true, 100, true, SQL_HEADER, true, true, true, true⟩ = Except.ok true := by
  constructor
  · exact (c5_is_pack_file_spec _).2.2.1 rfl rfl rfl rfl
  · exact ((c5_is_pack_file_spec _).2.2.2.1 rfl rfl rfl rfl).mpr
      ⟨rfl, by decide, rfl, rfl, rfl⟩

/-- C7: the bundle flush first inserts the content row as a zero blob of
exactly the compressed length and then overwrites it in place; a short
blob write fails the flush with `IncompleteBlobWrite` (before any
`itemcontent` row is inserted), and on a full write the `itemcontent` rows
of the pending slices are inserted referencing the new content id. -/
theorem c7_insert_content_blob_protocol (compress : List Nat → List Nat)
    (blobWrite : List Nat → Nat) (st : PackBuilder) :
    (blobWrite (compress (bundleBytes st.contents)) ≠ (compress (bundleBytes st.contents)).length →
       insert_content compress blobWrite st = Except.error Error.incompleteBlobWrite) ∧
    (blobWrite (compress (bundleBytes st.contents)) = (compress (bundleBytes st.contents)).length →
       insert_content compress blobWrite st = Except.ok { st with
         contentRows := st.contentRows ++ [compress (bundleBytes st.contents)],
         itemcontentRows := st.itemcontentRows ++ st.contents.map (fun s =>
           { item := s.item, itempos := s.itempos, content := st.contentRows.length + 1,
             contentpos := s.contentpos, size := s.size : IcRow }) }) ∧
    (List.replicate (compress (bundleBytes st.contents)).length (0 : Nat)).length =
      (compress (bundleBytes st.contents)).length := by
  refine ⟨?_, ?_, by simp⟩
  · intro h
    simp [insert_content, h]
  · intro h
    have hset : (st.contentRows ++ [List.replicate (compress (bundleBytes st.contents)).length 0]).set
        ((st.contentRows ++ [List.replicate (compress (bundleBytes st.contents)).length 0]).length - 1)
        (compress (bundleBytes st.contents)) = st.contentRows ++ [compress (bundleBytes st.contents)] := by
      rw [List.length_append]
      simp [List.set_append_right, Nat.le_refl]
    simp only [insert_content, h, if_neg (by simp [h] : ¬blobWrite (compress (bundleBytes st.contents)) ≠ (compress (bundleBytes st.contents)).length)]
    rw [hset]
    simp [List.length_append, flushRow]

/-- Closed instance of C7: flushing one pending slice with a full blob
write stores the compressed bundle and one `itemcontent` row. -/
theorem c7_insert_content_blob_protocol_witness :
    insert_content id List.length
      { items := [], contentRows := [], itemcontentRows := [], current_pos := 3,
        contents := [{ data := [5, 6, 7], kind := KIND_FILE, item := 1, itempos := 0,
                       contentpos := 0, size := 3 }] } =
      Except.ok { items := [], contentRows := [[5, 6, 7]],
                  itemcontentRows := [{ item := 1, itempos := 0, content := 1,
                                        contentpos := 0, size := 3 }],
                  current_pos := 3,
                  contents := [{ data := [5, 6, 7], kind := KIND_FILE, item := 1, itempos := 0,
                                 contentpos := 0, size := 3 }] } := by
  have h := (c7_insert_content_blob_protocol id List.length
    { items := [], contentRows := [], itemcontentRows := [], current_pos := 3,
      contents := [{ data := [5, 6, 7], kind := KIND_FILE, item := 1, itempos := 0,
                     contentpos := 0, size := 3 }] }).2.1 rfl
  simpa [bundleBytes, sliceBytes, KIND_FILE] using h

/-! ### Builder lemmas -/

theorem loopSizes_fit {cp size : Nat} (h : ¬ cp + size > BUNDLE_SIZE) :
    loopSizes cp size = [size] := by
  unfold loopSizes
  rw [if_neg h]

theorem loopSizes_split {cp size : Nat} (h : cp + size > BUNDLE_SIZE) :
    loopSizes cp size = (BUNDLE_SIZE - cp) :: loopSizes 0 (size - (BUNDLE_SIZE - cp)) := by
  conv_lhs => rw [loopSizes]
  rw [if_pos h]

theorem insert_content_ok {c : List Nat → List Nat} {b : List Nat → Nat}
    (hb : ∀ bs, b bs = bs.length) (st : PackBuilder) :
    insert_content c b st = Except.ok { st with
      contentRows := st.contentRows ++ [c (bundleBytes st.contents)],
      itemcontentRows := st.itemcontentRows ++ st.contents.map (flushRow (st.contentRows.length + 1)) } := by
  have h := hb (c (bundleBytes st.contents))
  have hset : (st.contentRows ++ [List.replicate (c (bundleBytes st.contents)).length 0]).set
      ((st.contentRows ++ [List.replicate (c (bundleBytes st.contents)).length 0]).length - 1)
      (c (bundleBytes st.contents)) = st.contentRows ++ [c (bundleBytes st.contents)] := by
    rw [List.length_append]
    simp [List.set_append_right, Nat.le_refl]
  simp only [insert_content, h,
    if_neg (by simp : ¬(c (bundleBytes st.contents)).length ≠ (c (bundleBytes st.contents)).length)]
  rw [hset]
  simp [List.length_append]

theorem process_contents_ok {c : List Nat → List Nat} {b : List Nat → Nat}
    (hb : ∀ bs, b bs = bs.length) (st : PackBuilder) :
    process_contents c b st = Except.ok { st with
      contentRows := st.contentRows ++ [c (bundleBytes st.contents)],
      itemcontentRows := st.itemcontentRows ++ st.contents.map (flushRow (st.contentRows.length + 1)),
      contents := [], current_pos := 0 } := by
  unfold process_contents
  rw [insert_content_ok hb]

theorem add_file_loop_fit {c : List Nat → List Nat} {b : List Nat → Nat}
    {data : List Nat} {j : Nat} {st : PackBuilder} {ip size : Nat}
    (h : ¬ st.current_pos + size > BUNDLE_SIZE) :
    add_file_loop c b data j st ip size = Except.ok { st with
      contents := st.contents ++ [fileSlice data j ip st.current_pos size],
      current_pos := st.current_pos + size } := by
  unfold add_file_loop
  rw [if_neg h]
  rfl

theorem add_file_loop_split {c : List Nat → List Nat} {b : List Nat → Nat}
    (hb : ∀ bs, b bs = bs.length) {data : List Nat} {j : Nat} {st : PackBuilder} {ip size : Nat}
    (h1 : st.current_pos + size > BUNDLE_SIZE) (h2 : ¬ BUNDLE_SIZE < st.current_pos) :
    add_file_loop c b data j st ip size =
      add_file_loop c b data j
        { st with
          contentRows := st.contentRows ++
            [c (bundleBytes (st.contents ++
              [fileSlice data j ip st.current_pos (BUNDLE_SIZE - st.current_pos)]))],
          itemcontentRows := st.itemcontentRows ++
            (st.contents ++ [fileSlice data j ip st.current_pos (BUNDLE_SIZE - st.current_pos)]).map
              (flushRow (st.contentRows.length + 1)),
          contents := [], current_pos := 0 }
        (ip + (BUNDLE_SIZE - st.current_pos)) (size - (BUNDLE_SIZE - st.current_pos)) := by
  conv_lhs => rw [add_file_loop]
  simp only [if_pos h1, if_neg h2]
  rw [insert_content_ok hb]
  rfl

theorem flushRow_specs (cid i : Nat) (L : List IncomingContent) :
    (((L.map (flushRow cid)).filter (fun r => r.item = i)).map (fun r => (r.itempos, r.size))) =
    ((L.filter (fun s => s.item = i)).map (fun s => (s.itempos, s.size))) := by
  induction L with
  | nil => rfl
  | cons s L ih => by_cases h : s.item = i <;> simp [flushRow, h, ih]

theorem itemSpecs_flushed (st : PackBuilder) (rows : List (List Nat)) (cid i : Nat) :
    itemSpecs { st with contentRows := rows,
                        itemcontentRows := st.itemcontentRows ++ st.contents.map (flushRow cid),
                        contents := [], current_pos := 0 } i = itemSpecs st i := by
  simp [itemSpecs, List.filter_append, List.map_append, flushRow_specs]

theorem itemSpecs_push (st : PackBuilder) (s : IncomingContent) (i : Nat) :
    itemSpecs { st with contents := st.contents ++ [s] } i =
      itemSpecs st i ++ (if s.item = i then [(s.itempos, s.size)] else []) := by
  by_cases h : s.item = i <;>
    simp [itemSpecs, List.filter_append, List.map_append, h, List.append_assoc]

theorem add_file_loop_spec {c : List Nat → List Nat} {b : List Nat → Nat}
    (hb : ∀ bs, b bs = bs.length) (data : List Nat) (j : Nat) :
    ∀ (st : PackBuilder) (ip size : Nat) (st2 : PackBuilder),
      add_file_loop c b data j st ip size = Except.ok st2 →
      (∀ i, itemSpecs st2 i = itemSpecs st i ++
        (if j = i then specsFrom ip (loopSizes st.current_pos size) else [])) ∧
      st2.items = st.items ∧
      st2.current_pos ≤ BUNDLE_SIZE ∧
      st.contentRows.length ≤ st2.contentRows.length := by
  intro st ip size
  induction st, ip, size using add_file_loop.induct c b data j with
  | case1 st ip size h1 h2 =>
      intro st2 heq
      unfold add_file_loop at heq
      rw [if_pos h1, if_pos h2] at heq
      cases heq
  | case2 st ip size h1 h2 rem st1 e heq =>
      intro st2 hrun
      rw [insert_content_ok hb] at heq
      cases heq
  | case3 st ip size h1 h2 rem st1 stf heq ih =>
      intro st2 hrun
      have hrun2 := (add_file_loop_split hb h1 h2).symm.trans hrun
      rw [insert_content_ok hb] at heq
      cases heq
      obtain ⟨hspec, hitems, hcp, hrows⟩ := ih st2 hrun2
      refine ⟨?_, ?_, hcp, ?_⟩
      · intro i
        rw [hspec i, loopSizes_split h1]
        by_cases hji : j = i
        · simp [itemSpecs, List.filter_append, List.map_append, flushRow_specs,
            fileSlice, flushRow, hji, specsFrom, List.append_assoc]
        · simp [itemSpecs, List.filter_append, List.map_append, flushRow_specs,
            fileSlice, flushRow, hji, List.append_assoc]
      · rw [hitems]
      · refine le_trans ?_ hrows
        simp
  | case4 st ip size h =>
      intro st2 heq
      rw [add_file_loop_fit h] at heq
      cases heq
      refine ⟨?_, rfl, ?_, le_refl _⟩
      · intro i
        rw [loopSizes_fit h]
        by_cases hji : j = i
        · simp [itemSpecs, List.filter_append, List.map_append, fileSlice, hji, specsFrom]
        · simp [itemSpecs, List.filter_append, List.map_append, fileSlice, hji]
      · show st.current_pos + size ≤ BUNDLE_SIZE
        omega

theorem filter_item_nil {L : List IcRow} {n j : Nat} (hL : ∀ r ∈ L, 1 ≤ r.item ∧ r.item ≤ n)
    (hj : n < j) : L.filter (fun r => r.item = j) = [] := by
  rw [List.filter_eq_nil_iff]
  intro r hr
  have := hL r hr
  simp only [decide_eq_true_eq]
  omega

theorem filter_slice_nil {L : List IncomingContent} {n j : Nat}
    (hL : ∀ s ∈ L, 1 ≤ s.item ∧ s.item ≤ n) (hj : n < j) :
    L.filter (fun s => s.item = j) = [] := by
  rw [List.filter_eq_nil_iff]
  intro s hs
  have := hL s hs
  simp only [decide_eq_true_eq]
  omega

/-- C9: `add_file` flushes only when `current_pos + remaining` strictly
exceeds `BUNDLE_SIZE`.  (A) A file that exactly fills the pending bundle is
left pending, with `current_pos = BUNDLE_SIZE` and no content row written.
(B) From a state whose pending bundle is exactly full, the next `add_file`
of a non-empty file first appends a size-0 slice (`itempos = 0`,
`contentpos = BUNDLE_SIZE`) to the full bundle, flushes that bundle (the
size-0 row included), and then starts a new bundle with the file's data —
so the non-empty file records a size-0 `itemcontent` row in addition to its
data-bearing row. -/
theorem c9_exact_fill_zero_slice (c : List Nat → List Nat) (b : List Nat → Nat)
    (hb : ∀ bs, b bs = bs.length) (st : PackBuilder) (hid : idsBounded st) :
    (∀ (n0 : String) (d0 : List Nat) (p0 : Nat),
       st.current_pos + d0.length = BUNDLE_SIZE →
       ∃ st1 i0, add_file c b st n0 d0 p0 = Except.ok (st1, i0) ∧
         st1.current_pos = BUNDLE_SIZE ∧
         st1.contentRows = st.contentRows ∧
         st1.contents = st.contents ++ [fileSlice d0 i0 0 st.current_pos d0.length]) ∧
    (st.current_pos = BUNDLE_SIZE →
     ∀ (n : String) (D : List Nat) (p : Nat), 0 < D.length → D.length ≤ BUNDLE_SIZE →
       ∃ st2 jj, add_file c b st n D p = Except.ok (st2, jj) ∧
         jj = st.items.length + 1 ∧
         st2.contentRows = st.contentRows ++
           [c (bundleBytes (st.contents ++ [fileSlice D jj 0 BUNDLE_SIZE 0]))] ∧
         st2.itemcontentRows = st.itemcontentRows ++
           (st.contents ++ [fileSlice D jj 0 BUNDLE_SIZE 0]).map
             (flushRow (st.contentRows.length + 1)) ∧
         st2.contents = [fileSlice D jj 0 0 D.length] ∧
         st2.current_pos = D.length ∧
         itemSpecs st2 jj = [(0, 0), (0, D.length)]) := by
  constructor
  · intro n0 d0 p0 hfill
    have hfit : ¬ ((({ st with items := st.items ++
        [{ id := st.items.length + 1, parent := p0, kind := KIND_FILE, name := n0 }] } :
        PackBuilder).current_pos) + d0.length > BUNDLE_SIZE) := by
      show ¬ (st.current_pos + d0.length > BUNDLE_SIZE)
      omega
    refine ⟨{ st with
        items := st.items ++ [{ id := st.items.length + 1, parent := p0, kind := KIND_FILE, name := n0 }],
        contents := st.contents ++ [fileSlice d0 (st.items.length + 1) 0 st.current_pos d0.length],
        current_pos := st.current_pos + d0.length },
      st.items.length + 1, ?_, ?_, rfl, rfl⟩
    · unfold add_file
      simp only [add_file_loop_fit hfit]
    · show st.current_pos + d0.length = BUNDLE_SIZE
      exact hfill
  · intro hcp n D p hD hDB
    have hover : ((({ st with items := st.items ++
        [{ id := st.items.length + 1, parent := p, kind := KIND_FILE, name := n }] } :
        PackBuilder).current_pos) + D.length > BUNDLE_SIZE) := by
      show st.current_pos + D.length > BUNDLE_SIZE
      omega
    have hnole : ¬ (BUNDLE_SIZE < (({ st with items := st.items ++
        [{ id := st.items.length + 1, parent := p, kind := KIND_FILE, name := n }] } :
        PackBuilder).current_pos)) := by
      show ¬ (BUNDLE_SIZE < st.current_pos)
      omega
    have hadd : add_file c b st n D p = Except.ok
        ({ st with
           items := st.items ++
             [{ id := st.items.length + 1, parent := p, kind := KIND_FILE, name := n }],
           contentRows := st.contentRows ++
             [c (bundleBytes (st.contents ++ [fileSlice D (st.items.length + 1) 0 st.current_pos (BUNDLE_SIZE - st.current_pos)]))],
           itemcontentRows := st.itemcontentRows ++
             (st.contents ++ [fileSlice D (st.items.length + 1) 0 st.current_pos (BUNDLE_SIZE - st.current_pos)]).map (flushRow (st.contentRows.length + 1)),
           contents := [fileSlice D (st.items.length + 1) (0 + (BUNDLE_SIZE - st.current_pos)) 0 (D.length - (BUNDLE_SIZE - st.current_pos))],
           current_pos := 0 + (D.length - (BUNDLE_SIZE - st.current_pos)) },
         st.items.length + 1) := by
      have hfit2 : ¬ ((({ st with
          items := st.items ++ [{ id := st.items.length + 1, parent := p, kind := KIND_FILE, name := n }],
          contentRows := st.contentRows ++ [c (bundleBytes (st.contents ++ [fileSlice D (st.items.length + 1) 0 st.current_pos (BUNDLE_SIZE - st.current_pos)]))],
          itemcontentRows := st.itemcontentRows ++ (st.contents ++ [fileSlice D (st.items.length + 1) 0 st.current_pos (BUNDLE_SIZE - st.current_pos)]).map (flushRow (st.contentRows.length + 1)),
          contents := ([] : List IncomingContent),
          current_pos := 0 } : PackBuilder).current_pos) +
          (D.length - (BUNDLE_SIZE - st.current_pos)) > BUNDLE_SIZE) := by
        show ¬ ((0:Nat) + (D.length - (BUNDLE_SIZE - st.current_pos)) > BUNDLE_SIZE)
        omega
      unfold add_file
      simp only [add_file_loop_split hb hover hnole, add_file_loop_fit hfit2]
      rfl
    rw [hcp] at hadd
    simp only [Nat.sub_self, Nat.add_zero, Nat.zero_add, Nat.sub_zero] at hadd
    refine ⟨_, st.items.length + 1, hadd, rfl, rfl, rfl, rfl, rfl, ?_⟩
    have hrows : st.itemcontentRows.filter (fun r => r.item = st.items.length + 1) = [] :=
      filter_item_nil hid.1 (by omega)
    have hpend : st.contents.filter (fun s => s.item = st.items.length + 1) = [] :=
      filter_slice_nil hid.2 (by omega)
    simp [itemSpecs, List.filter_append, List.map_append, flushRow_specs, hrows, hpend,
      fileSlice, flushRow]

/-- Closed instance of C9: from a builder state whose bundle is exactly
full, adding a one-byte file appends the size-0 slice to the full bundle,
flushes it, and leaves the data slice pending in a fresh bundle. -/
theorem c9_exact_fill_zero_slice_witness :
    ∃ st2 jj,
      add_file id List.length
        { items := [], contentRows := [], itemcontentRows := [],
          current_pos := BUNDLE_SIZE, contents := [] } "f" [7] 0 = Except.ok (st2, jj) ∧
      st2.contents = [fileSlice [7] jj 0 0 1] ∧
      itemSpecs st2 jj = [(0, 0), (0, 1)] := by
  obtain ⟨hA, hB⟩ := c9_exact_fill_zero_slice id List.length (fun bs => rfl)
    { items := [], contentRows := [], itemcontentRows := [],
      current_pos := BUNDLE_SIZE, contents := [] }
    ⟨(by intro r hr; cases hr), (by intro s hs; cases hs)⟩
  obtain ⟨st2, jj, h1, h2, h3, h4, h5, h6, h7⟩ := hB rfl "f" [7] 0 (by decide) (by decide)
  exact ⟨st2, jj, h1, h5, h7⟩

theorem loopSizes_sum : ∀ cp size, (loopSizes cp size).sum = size := by
  intro cp size
  induction cp, size using loopSizes.induct with
  | case1 cp size h ih =>
      rw [loopSizes_split h, List.sum_cons, ih]
      omega
  | case2 cp size h =>
      rw [loopSizes_fit h]
      simp

theorem loopSizes_le : ∀ cp size, ∀ s ∈ loopSizes cp size, s ≤ BUNDLE_SIZE := by
  intro cp size
  induction cp, size using loopSizes.induct with
  | case1 cp size h ih =>
      rw [loopSizes_split h]
      intro s hs
      rcases List.mem_cons.mp hs with h1 | h2
      · omega
      · exact ih s h2
  | case2 cp size h =>
      rw [loopSizes_fit h]
      intro s hs
      rcases List.mem_cons.mp hs with h1 | h2
      · omega
      · cases h2

theorem sum_le_length_mul (l : List Nat) (k : Nat) (h : ∀ s ∈ l, s ≤ k) :
    l.sum ≤ l.length * k := by
  induction l with
  | nil => simp
  | cons s rest ih =>
      have hs := h s (by simp)
      have hrest := ih (fun x hx => h x (by simp [hx]))
      rw [List.sum_cons, List.length_cons, Nat.succ_mul]
      omega

theorem ceil_le_of_sum {l : List Nat} {size : Nat} (hsum : l.sum = size)
    (hle : ∀ s ∈ l, s ≤ BUNDLE_SIZE) :
    (size + BUNDLE_SIZE - 1) / BUNDLE_SIZE ≤ l.length := by
  have hB : (0:Nat) < BUNDLE_SIZE := by decide
  have hmul : size ≤ l.length * BUNDLE_SIZE := hsum ▸ sum_le_length_mul l BUNDLE_SIZE hle
  have hlt : size + BUNDLE_SIZE - 1 < (l.length + 1) * BUNDLE_SIZE := by
    rw [Nat.succ_mul]
    omega
  have := (Nat.div_lt_iff_lt_mul hB).mpr hlt
  omega

theorem specsFrom_length : ∀ (sizes : List Nat) (pos : Nat),
    (specsFrom pos sizes).length = sizes.length := by
  intro sizes
  induction sizes with
  | nil => intro pos; rfl
  | cons s rest ih => intro pos; simp [specsFrom, ih]

theorem specsFrom_fst_ge : ∀ (sizes : List Nat) (pos : Nat) (q : Nat × Nat),
    q ∈ specsFrom pos sizes → pos ≤ q.1 ∧ q.1 + q.2 ≤ pos + sizes.sum := by
  intro sizes
  induction sizes with
  | nil => intro pos q hq; cases hq
  | cons s rest ih =>
      intro pos q hq
      rcases List.mem_cons.mp hq with h1 | h2
      · subst h1
        refine ⟨le_refl _, ?_⟩
        simp only [List.sum_cons]
        omega
      · obtain ⟨ha, hb2⟩ := ih (pos + s) q h2
        simp only [List.sum_cons]
        exact ⟨by omega, by omega⟩

theorem specsFrom_chain : ∀ (sizes : List Nat) (pos : Nat),
    List.Pairwise (fun a b : Nat × Nat => a.1 + a.2 ≤ b.1) (specsFrom pos sizes) := by
  intro sizes
  induction sizes with
  | nil => intro pos; exact List.Pairwise.nil
  | cons s rest ih =>
      intro pos
      rw [specsFrom]
      refine List.Pairwise.cons ?_ (ih (pos + s))
      intro q hq
      exact (specsFrom_fst_ge rest (pos + s) q hq).1

theorem specsFrom_cover : ∀ (sizes : List Nat) (pos x : Nat),
    (pos ≤ x ∧ x < pos + sizes.sum) ↔
      ∃ q ∈ specsFrom pos sizes, q.1 ≤ x ∧ x < q.1 + q.2 := by
  intro sizes
  induction sizes with
  | nil =>
      intro pos x
      constructor
      · rintro ⟨h1, h2⟩
        simp only [List.sum_nil] at h2
        omega
      · rintro ⟨q, hq, _⟩
        simp [specsFrom] at hq
  | cons s rest ih =>
      intro pos x
      rw [specsFrom]
      constructor
      · rintro ⟨h1, h2⟩
        by_cases hx : x < pos + s
        · exact ⟨(pos, s), by simp, h1, hx⟩
        · have := (ih (pos + s) x).mp ⟨by omega, by simp [List.sum_cons] at h2 ⊢; omega⟩
          obtain ⟨q, hq, hq2⟩ := this
          exact ⟨q, by simp [hq], hq2⟩
      · rintro ⟨q, hq, hle, hlt⟩
        rcases List.mem_cons.mp hq with h1 | h2
        · subst h1
          simp only [List.sum_cons]
          constructor
          · exact hle
          · omega
        · obtain ⟨ha, hb2⟩ := specsFrom_fst_ge rest (pos + s) q h2
          simp only [List.sum_cons]
          exact ⟨by omega, by omega⟩

theorem itemSpecs_add_directory (st : PackBuilder) (n : String) (p i : Nat) :
    itemSpecs (add_directory st n p).1 i = itemSpecs st i := rfl

theorem add_directory_items (st : PackBuilder) (n : String) (p : Nat) :
    (add_directory st n p).1.items.length = st.items.length + 1 := by
  simp [add_directory]

theorem itemSpecs_add_symlink (st : PackBuilder) (n : String) (t : List Nat) (p i : Nat)
    (h : ¬ (st.items.length + 1 = i)) :
    itemSpecs (add_symlink st n t p).1 i = itemSpecs st i := by
  simp [add_symlink, itemSpecs, List.filter_append, List.map_append, h]

theorem add_symlink_items (st : PackBuilder) (n : String) (t : List Nat) (p : Nat) :
    (add_symlink st n t p).1.items.length = st.items.length + 1 := by
  simp [add_symlink]

theorem add_file_ok {c : List Nat → List Nat} {b : List Nat → Nat}
    {st : PackBuilder} {n : String} {d : List Nat} {p : Nat} {st1 : PackBuilder} {j : Nat}
    (h : add_file c b st n d p = Except.ok (st1, j)) :
    j = st.items.length + 1 ∧
    add_file_loop c b d (st.items.length + 1)
      { st with items := st.items ++
          [{ id := st.items.length + 1, parent := p, kind := KIND_FILE, name := n }] }
      0 d.length = Except.ok st1 := by
  unfold add_file at h
  cases hl : add_file_loop c b d (st.items.length + 1)
      { st with items := st.items ++
          [{ id := st.items.length + 1, parent := p, kind := KIND_FILE, name := n }] }
      0 d.length with
  | error e =>
      simp only [hl] at h
      cases h
  | ok stx =>
      simp only [hl] at h
      cases h
      exact ⟨rfl, rfl⟩

theorem finish_spec {c : List Nat → List Nat} {b : List Nat → Nat}
    (hb : ∀ bs, b bs = bs.length) {st st4 : PackBuilder}
    (h : finish c b st = Except.ok st4) :
    (∀ i, itemSpecs st4 i = itemSpecs st i) ∧ st4.contents = [] ∧ st4.items = st.items := by
  unfold finish at h
  by_cases he : st.contents.isEmpty
  · rw [if_pos he] at h
    cases h
    refine ⟨fun i => rfl, ?_, rfl⟩
    exact List.isEmpty_iff.mp he
  · rw [if_neg he, process_contents_ok hb] at h
    cases h
    refine ⟨fun i => ?_, rfl, rfl⟩
    exact itemSpecs_flushed st _ _ i

theorem idsBounded_grow {st : PackBuilder} (hid : idsBounded st) (it : ItemRow) :
    idsBounded { st with items := st.items ++ [it] } := by
  constructor
  · intro r hr
    have := hid.1 r hr
    simp only [List.length_append, List.length_cons, List.length_nil]
    omega
  · intro s hs
    have := hid.2 s hs
    simp only [List.length_append, List.length_cons, List.length_nil]
    omega

theorem idsBounded_after_flush {st : PackBuilder} {s : IncomingContent}
    {rows : List (List Nat)} {cid : Nat}
    (hid : idsBounded st) (hs : 1 ≤ s.item ∧ s.item ≤ st.items.length) :
    idsBounded { st with
      contentRows := rows,
      itemcontentRows := st.itemcontentRows ++ (st.contents ++ [s]).map (flushRow cid),
      contents := [], current_pos := 0 } := by
  constructor
  · intro r hr
    rcases List.mem_append.mp hr with h | h
    · exact hid.1 r h
    · obtain ⟨x, hx, hxe⟩ := List.mem_map.mp h
      subst hxe
      rcases List.mem_append.mp hx with h2 | h2
      · have := hid.2 x h2
        simpa [flushRow] using this
      · have hxs : x = s := List.mem_singleton.mp h2
        subst hxs
        simpa [flushRow] using hs
  · intro x hx
    cases hx

theorem add_file_loop_ids {c : List Nat → List Nat} {b : List Nat → Nat}
    (hb : ∀ bs, b bs = bs.length) (data : List Nat) (j : Nat) :
    ∀ (st : PackBuilder) (ip size : Nat) (st2 : PackBuilder),
      add_file_loop c b data j st ip size = Except.ok st2 →
      idsBounded st → 1 ≤ j → j ≤ st.items.length → idsBounded st2 := by
  intro st ip size
  induction st, ip, size using add_file_loop.induct c b data j with
  | case1 st ip size h1 h2 =>
      intro st2 heq
      unfold add_file_loop at heq
      rw [if_pos h1, if_pos h2] at heq
      cases heq
  | case2 st ip size h1 h2 rem st1 e heq =>
      intro st2 hrun
      rw [insert_content_ok hb] at heq
      cases heq
  | case3 st ip size h1 h2 rem st1 stf heq ih =>
      intro st2 hrun hid hj1 hj2
      have hrun2 := (add_file_loop_split hb h1 h2).symm.trans hrun
      rw [insert_content_ok hb] at heq
      cases heq
      refine ih st2 hrun2 ?_ hj1 ?_
      · exact idsBounded_after_flush hid ⟨hj1, hj2⟩
      · exact hj2
  | case4 st ip size h =>
      intro st2 heq hid hj1 hj2
      rw [add_file_loop_fit h] at heq
      cases heq
      constructor
      · intro r hr
        exact hid.1 r hr
      · intro s hs
        rcases List.mem_append.mp hs with h2 | h2
        · exact hid.2 s h2
        · have hxs : s = fileSlice data j ip st.current_pos size := List.mem_singleton.mp h2
          subst hxs
          exact ⟨hj1, hj2⟩

theorem idsBounded_add_symlink {st : PackBuilder} (hid : idsBounded st)
    (n : String) (t : List Nat) (p : Nat) :
    idsBounded (add_symlink st n t p).1 := by
  constructor
  · intro r hr
    have := hid.1 r hr
    simp only [add_symlink, List.length_append, List.length_cons, List.length_nil]
    omega
  · intro s hs
    simp only [add_symlink] at hs
    rcases List.mem_append.mp hs with h2 | h2
    · have := hid.2 s h2
      simp only [add_symlink, List.length_append, List.length_cons, List.length_nil]
      omega
    · have hxs := List.mem_singleton.mp h2
      subst hxs
      simp only [add_symlink, List.length_append, List.length_cons, List.length_nil]
      omega

/-- Running further builder calls preserves id bounds, grows the item table,
and never touches the recorded slices of an already-present item. -/
theorem runOps_inv {c : List Nat → List Nat} {b : List Nat → Nat}
    (hb : ∀ bs, b bs = bs.length) :
    ∀ (ops : List BuildOp) (st st' : PackBuilder),
      runOps c b ops st = Except.ok st' → idsBounded st →
      idsBounded st' ∧ st.items.length ≤ st'.items.length ∧
      (∀ i ≤ st.items.length, itemSpecs st' i = itemSpecs st i) := by
  intro ops
  induction ops with
  | nil =>
      intro st st' h hid
      cases h
      exact ⟨hid, le_refl _, fun i _ => rfl⟩
  | cons op rest ih =>
      intro st st' h hid
      cases op with
      | dirOp n p =>
          have h1 : runOps c b rest (add_directory st n p).1 = Except.ok st' := h
          obtain ⟨hida, hlen, hspec⟩ := ih _ _ h1 (idsBounded_grow hid _)
          refine ⟨hida, ?_, ?_⟩
          · refine le_trans ?_ hlen
            simp [add_directory]
          · intro i hi
            rw [hspec i (by simp [add_directory]; omega)]
            exact itemSpecs_add_directory st n p i
      | fileOp n d p =>
          cases haf : add_file c b st n d p with
          | error e =>
              simp only [runOps, haf] at h
              cases h
          | ok pr =>
              obtain ⟨st1, j⟩ := pr
              simp only [runOps, haf] at h
              obtain ⟨hj, hloop⟩ := add_file_ok haf
              obtain ⟨hspec1, hitems1, hcp1, _⟩ :=
                add_file_loop_spec hb d (st.items.length + 1) _ 0 d.length st1 hloop
              have hids1 : idsBounded st1 := by
                refine add_file_loop_ids hb d (st.items.length + 1) _ 0 d.length st1 hloop
                  (idsBounded_grow hid _) (by omega) ?_
                simp [List.length_append]
              have hlen1 : st1.items.length = st.items.length + 1 := by
                rw [hitems1]
                simp [List.length_append]
              obtain ⟨hida, hlen, hspec⟩ := ih _ _ h hids1
              refine ⟨hida, by omega, ?_⟩
              intro i hi
              rw [hspec i (by omega)]
              rw [hspec1 i]
              rw [if_neg (by omega)]
              simp [itemSpecs]
      | linkOp n t p =>
          have h1 : runOps c b rest (add_symlink st n t p).1 = Except.ok st' := h
          obtain ⟨hida, hlen, hspec⟩ := ih _ _ h1 (idsBounded_add_symlink hid n t p)
          have hlen1 := add_symlink_items st n t p
          refine ⟨hida, by omega, ?_⟩
          intro i hi
          rw [hspec i (by omega)]
          exact itemSpecs_add_symlink st n t p i (by omega)

theorem idsBounded_new : idsBounded PackBuilder.new :=
  ⟨fun r hr => absurd hr (List.not_mem_nil r), fun s hs => absurd hs (List.not_mem_nil s)⟩

theorem itemSpecs_nil_of_fresh {st : PackBuilder} (hid : idsBounded st) {j : Nat}
    (hj : st.items.length < j) : itemSpecs st j = [] := by
  unfold itemSpecs
  rw [filter_item_nil hid.1 hj, filter_slice_nil hid.2 hj]
  rfl

/-- C3: any file of more than `BUNDLE_SIZE` bytes added by `add_file` during
a successful build has, in the finished archive, at least
`⌈len / BUNDLE_SIZE⌉` `itemcontent` rows; their `(itempos, size)` intervals
cover `[0, len)` with no gaps and no overlaps; and the rows appear in the
table in ascending `itempos` order. -/
theorem c3_splitting_correctness
    (c : List Nat → List Nat) (b : List Nat → Nat) (hb : ∀ bs, b bs = bs.length)
    (pre post : List BuildOp) (n : String) (D : List Nat) (p : Nat)
    (st1 st2 st3 st4 : PackBuilder) (j : Nat)
    (h1 : runOps c b pre PackBuilder.new = Except.ok st1)
    (h2 : add_file c b st1 n D p = Except.ok (st2, j))
    (h3 : runOps c b post st2 = Except.ok st3)
    (h4 : finish c b st3 = Except.ok st4)
    (hlen : D.length > BUNDLE_SIZE) :
    (rowsOf st4.db j).length ≥ (D.length + BUNDLE_SIZE - 1) / BUNDLE_SIZE ∧
    (∀ x, x < D.length ↔
      ∃ q ∈ (rowsOf st4.db j).map (fun r => (r.itempos, r.size)), q.1 ≤ x ∧ x < q.1 + q.2) ∧
    List.Pairwise (fun a b : Nat × Nat => a.1 + a.2 ≤ b.1)
      ((rowsOf st4.db j).map (fun r => (r.itempos, r.size))) ∧
    List.Pairwise (fun a b : Nat × Nat => a.1 ≤ b.1)
      ((rowsOf st4.db j).map (fun r => (r.itempos, r.size))) := by
  have hid1 : idsBounded st1 := (runOps_inv hb pre _ _ h1 idsBounded_new).1
  obtain ⟨hj, hloop⟩ := add_file_ok h2
  obtain ⟨hspec1, hitems1, hcp1, _⟩ :=
    add_file_loop_spec hb D (st1.items.length + 1) _ 0 D.length st2 hloop
  have hids2 : idsBounded st2 := by
    refine add_file_loop_ids hb D (st1.items.length + 1) _ 0 D.length st2 hloop
      (idsBounded_grow hid1 _) (by omega) ?_
    simp [List.length_append]
  have hfresh : itemSpecs st1 j = [] := by
    subst hj
    exact itemSpecs_nil_of_fresh hid1 (by omega)
  have hspec2 : itemSpecs st2 j = specsFrom 0 (loopSizes st1.current_pos D.length) := by
    rw [hspec1 j, if_pos hj.symm]
    have hgrow : itemSpecs { st1 with items := st1.items ++
        [{ id := st1.items.length + 1, parent := p, kind := KIND_FILE, name := n }] } j =
        itemSpecs st1 j := rfl
    rw [hgrow, hfresh]
    rfl
  have hlen2 : st2.items.length = st1.items.length + 1 := by
    rw [hitems1]
    simp [List.length_append]
  have hspec3 : itemSpecs st3 j = itemSpecs st2 j :=
    (runOps_inv hb post _ _ h3 hids2).2.2 j (by omega)
  obtain ⟨hspec4, hcont4, _⟩ := finish_spec hb h4
  have hfinal : (rowsOf st4.db j).map (fun r => (r.itempos, r.size)) =
      specsFrom 0 (loopSizes st1.current_pos D.length) := by
    have : itemSpecs st4 j = specsFrom 0 (loopSizes st1.current_pos D.length) := by
      rw [hspec4 j, hspec3, hspec2]
    unfold itemSpecs at this
    rw [hcont4] at this
    simpa [rowsOf, PackBuilder.db] using this
  have hsum := loopSizes_sum st1.current_pos D.length
  have hle := loopSizes_le st1.current_pos D.length
  refine ⟨?_, ?_, ?_, ?_⟩
  · have hlenmap : (rowsOf st4.db j).length =
        (loopSizes st1.current_pos D.length).length := by
      rw [← List.length_map (rowsOf st4.db j) (fun r => (r.itempos, r.size)), hfinal,
        specsFrom_length]
    rw [hlenmap]
    exact ceil_le_of_sum hsum hle
  · intro x
    rw [hfinal]
    have := specsFrom_cover (loopSizes st1.current_pos D.length) 0 x
    rw [hsum] at this
    constructor
    · intro hx
      exact this.mp ⟨by omega, by omega⟩
    · intro hx
      have := this.mpr hx
      omega
  · rw [hfinal]
    exact specsFrom_chain _ 0
  · rw [hfinal]
    refine List.Pairwise.imp ?_ (specsFrom_chain _ 0)
    intro a b h
    omega

/-- A file one-to-two-bundles long added to a flushed builder: one head row
of `BUNDLE_SIZE` bytes is flushed and the remainder is left pending. -/
theorem add_file_one_split {c : List Nat → List Nat} {b : List Nat → Nat}
    (hb : ∀ bs, b bs = bs.length) (st : PackBuilder) (n : String) (D : List Nat) (p : Nat)
    (hcp : st.current_pos = 0) (hpend : st.contents = [])
    (hlen1 : BUNDLE_SIZE < D.length) (hlen2 : D.length ≤ 2 * BUNDLE_SIZE) :
    add_file c b st n D p = Except.ok
      ({ st with
         items := st.items ++ [{ id := st.items.length + 1, parent := p, kind := KIND_FILE, name := n }],
         contentRows := st.contentRows ++ [c (D.take BUNDLE_SIZE)],
         itemcontentRows := st.itemcontentRows ++
           [flushRow (st.contentRows.length + 1) (fileSlice D (st.items.length + 1) 0 0 BUNDLE_SIZE)],
         contents := [fileSlice D (st.items.length + 1) BUNDLE_SIZE 0 (D.length - BUNDLE_SIZE)],
         current_pos := D.length - BUNDLE_SIZE },
       st.items.length + 1) := by
  obtain ⟨items, rows, ics, cp, pend⟩ := st
  dsimp only at hcp hpend
  subst hcp
  subst hpend
  have hover : (({ items := items ++ [{ id := items.length + 1, parent := p, kind := KIND_FILE, name := n }], contentRows := rows, itemcontentRows := ics, current_pos := 0, contents := [] } : PackBuilder)).current_pos + D.length > BUNDLE_SIZE := by
    show (0:Nat) + D.length > BUNDLE_SIZE
    omega
  have hnole : ¬ (BUNDLE_SIZE < (({ items := items ++ [{ id := items.length + 1, parent := p, kind := KIND_FILE, name := n }], contentRows := rows, itemcontentRows := ics, current_pos := 0, contents := [] } : PackBuilder)).current_pos) := by
    show ¬ (BUNDLE_SIZE < 0)
    omega
  unfold add_file
  dsimp only
  cases hl : add_file_loop c b D (items.length + 1) { items := items ++ [{ id := items.length + 1, parent := p, kind := KIND_FILE, name := n }], contentRows := rows, itemcontentRows := ics, current_pos := 0, contents := [] } 0 D.length with
  | error e =>
      exfalso
      have hstep := (add_file_loop_split hb hover hnole).symm.trans hl
      simp only [Nat.sub_zero, Nat.zero_add, List.nil_append, bundleBytes, List.foldl_cons,
        List.foldl_nil, sliceBytes, fileSlice, KIND_FILE, if_pos, List.drop_zero, List.map_cons,
        List.map_nil] at hstep
      have hfit2 : ¬ ((({ items := items ++ [{ id := items.length + 1, parent := p, kind := 0, name := n }], contentRows := rows ++ [c (List.take BUNDLE_SIZE D)], itemcontentRows := ics ++ [flushRow (rows.length + 1) { data := D, kind := 0, item := items.length + 1, itempos := 0, contentpos := 0, size := BUNDLE_SIZE }], current_pos := 0, contents := [] } : PackBuilder)).current_pos + (D.length - BUNDLE_SIZE) > BUNDLE_SIZE) := by
        show ¬ ((0:Nat) + (D.length - BUNDLE_SIZE) > BUNDLE_SIZE)
        omega
      rw [add_file_loop_fit hfit2] at hstep
      cases hstep
  | ok st1 =>
      have hstep := (add_file_loop_split hb hover hnole).symm.trans hl
      simp only [Nat.sub_zero, Nat.zero_add, List.nil_append, bundleBytes, List.foldl_cons,
        List.foldl_nil, sliceBytes, fileSlice, KIND_FILE, if_pos, List.drop_zero, List.map_cons,
        List.map_nil] at hstep
      have hfit2 : ¬ ((({ items := items ++ [{ id := items.length + 1, parent := p, kind := 0, name := n }], contentRows := rows ++ [c (List.take BUNDLE_SIZE D)], itemcontentRows := ics ++ [flushRow (rows.length + 1) { data := D, kind := 0, item := items.length + 1, itempos := 0, contentpos := 0, size := BUNDLE_SIZE }], current_pos := 0, contents := [] } : PackBuilder)).current_pos + (D.length - BUNDLE_SIZE) > BUNDLE_SIZE) := by
        show ¬ ((0:Nat) + (D.length - BUNDLE_SIZE) > BUNDLE_SIZE)
        omega
      rw [add_file_loop_fit hfit2] at hstep
      cases hstep
      simp only [List.nil_append, Nat.zero_add]
      rfl

/-- `finish` on a builder with exactly one pending slice flushes it as one
new content row. -/
theorem finish_pending_one {c : List Nat → List Nat} {b : List Nat → Nat}
    (hb : ∀ bs, b bs = bs.length) (st : PackBuilder) (s : IncomingContent)
    (hpend : st.contents = [s]) :
    finish c b st = Except.ok { st with
      contentRows := st.contentRows ++ [c (sliceBytes s)],
      itemcontentRows := st.itemcontentRows ++ [flushRow (st.contentRows.length + 1) s],
      contents := [], current_pos := 0 } := by
  unfold finish
  rw [hpend, if_neg (by simp)]
  rw [process_contents_ok hb, hpend]
  simp only [bundleBytes, List.foldl_cons, List.foldl_nil, List.nil_append,
    List.map_cons, List.map_nil]

set_option maxRecDepth 4000 in

/-- Closed instance of C3: a file of `BUNDLE_SIZE + 1` bytes in an otherwise
empty build gets at least two rows whose `(itempos, size)` ranges cover its
length exactly. -/
theorem c3_splitting_correctness_witness :
    ∃ st2 st4,
      add_file id List.length PackBuilder.new "big" (List.replicate (BUNDLE_SIZE + 1) 0) 0 =
        Except.ok (st2, 1) ∧
      finish id List.length st2 = Except.ok st4 ∧
      (rowsOf st4.db 1).length ≥ 2 ∧
      (∀ x, x < (List.replicate (BUNDLE_SIZE + 1) (0:Nat)).length ↔
        ∃ q ∈ (rowsOf st4.db 1).map (fun r => (r.itempos, r.size)), q.1 ≤ x ∧ x < q.1 + q.2) := by
  have hb : ∀ bs : List Nat, List.length bs = bs.length := fun bs => rfl
  have hD : (List.replicate (BUNDLE_SIZE + 1) (0:Nat)).length = BUNDLE_SIZE + 1 :=
    List.length_replicate _ _
  have hadd := @add_file_one_split id List.length hb PackBuilder.new "big"
    (List.replicate (BUNDLE_SIZE + 1) 0) 0 rfl rfl
    (by rw [hD]; omega)
    (by rw [hD]; show BUNDLE_SIZE + 1 ≤ 2 * BUNDLE_SIZE; decide)
  have hgt : (List.replicate (BUNDLE_SIZE + 1) (0:Nat)).length > BUNDLE_SIZE := by
    rw [hD]; omega
  have hc3 := c3_splitting_correctness id List.length hb [] [] "big"
    (List.replicate (BUNDLE_SIZE + 1) 0) 0 PackBuilder.new _ _ _ 1 rfl hadd rfl
    (finish_pending_one hb _ _ rfl) hgt
  have h2 : ((List.replicate (BUNDLE_SIZE + 1) (0:Nat)).length + BUNDLE_SIZE - 1) / BUNDLE_SIZE
      = 2 := by
    rw [hD]; decide
  exact ⟨_, _, hadd, finish_pending_one hb _ _ rfl, h2 ▸ hc3.1, fun x => hc3.2.1 x⟩

theorem sumPending_append (l : List IncomingContent) (s : IncomingContent) :
    sumPending (l ++ [s]) = sumPending l + s.size := by
  simp [sumPending]

theorem filter_content_nil {L : List IcRow} {n cid : Nat}
    (hL : ∀ r ∈ L, 1 ≤ r.content ∧ r.content ≤ n) (hc : n < cid) :
    L.filter (fun r => r.content = cid) = [] := by
  rw [List.filter_eq_nil_iff]
  intro r hr
  have := hL r hr
  simp only [decide_eq_true_eq]
  omega

theorem flush_c2 {c : List Nat → List Nat} (st : PackBuilder)
    (hrows : rowsBounded st) (hsum : sumPending st.contents ≤ BUNDLE_SIZE)
    (hbnd : bundlesBounded st.db) :
    c2Inv { st with
      contentRows := st.contentRows ++ [c (bundleBytes st.contents)],
      itemcontentRows := st.itemcontentRows ++
        st.contents.map (flushRow (st.contentRows.length + 1)),
      contents := [], current_pos := 0 } := by
  refine ⟨by simp [sumPending], Nat.zero_le _, ?_, ?_⟩
  · intro r hr
    simp only [List.mem_append] at hr
    rcases hr with hr | hr
    · have := hrows r hr
      simp only [List.length_append, List.length_cons, List.length_nil]
      omega
    · obtain ⟨s, _, rfl⟩ := List.mem_map.mp hr
      simp only [flushRow, List.length_append, List.length_cons, List.length_nil]
      omega
  · intro cid
    show ((((st.itemcontentRows ++
        st.contents.map (flushRow (st.contentRows.length + 1))).filter
        (fun r => r.content = cid)).map (fun r => r.size)).sum) ≤ BUNDLE_SIZE
    rw [List.filter_append, List.map_append, List.sum_append]
    by_cases hcid : cid = st.contentRows.length + 1
    · subst hcid
      rw [filter_content_nil hrows (by omega)]
      have hall : (st.contents.map (flushRow (st.contentRows.length + 1))).filter
          (fun r => r.content = st.contentRows.length + 1) =
          st.contents.map (flushRow (st.contentRows.length + 1)) := by
        rw [List.filter_eq_self]
        intro r hr
        obtain ⟨s, _, rfl⟩ := List.mem_map.mp hr
        simp [flushRow]
      rw [hall]
      have hsz : ((st.contents.map (flushRow (st.contentRows.length + 1))).map
          (fun r => r.size)).sum = sumPending st.contents := by
        rw [List.map_map]
        rfl
      rw [hsz]
      simpa using hsum
    · have hnone : (st.contents.map (flushRow (st.contentRows.length + 1))).filter
          (fun r => r.content = cid) = [] := by
        rw [List.filter_eq_nil_iff]
        intro r hr
        obtain ⟨s, _, rfl⟩ := List.mem_map.mp hr
        simp only [flushRow, decide_eq_true_eq]
        omega
      rw [hnone]
      simpa using hbnd cid

theorem add_file_loop_c2 {c : List Nat → List Nat} {b : List Nat → Nat}
    (hb : ∀ bs, b bs = bs.length) (data : List Nat) (j : Nat) :
    ∀ (st : PackBuilder) (ip size : Nat) (st2 : PackBuilder),
      add_file_loop c b data j st ip size = Except.ok st2 →
      c2Inv st → c2Inv st2 := by
  intro st ip size
  induction st, ip, size using add_file_loop.induct c b data j with
  | case1 st ip size h1 h2 =>
      intro st2 heq _
      unfold add_file_loop at heq
      rw [if_pos h1, if_pos h2] at heq
      cases heq
  | case2 st ip size h1 h2 rem st1 e heq =>
      intro st2 hrun hinv
      rw [insert_content_ok hb] at heq
      cases heq
  | case3 st ip size h1 h2 rem st1 stf heq ih =>
      intro st2 hrun hinv
      have hrun2 := (add_file_loop_split hb h1 h2).symm.trans hrun
      rw [insert_content_ok hb] at heq
      cases heq
      obtain ⟨hcp, hle, hrows, hbnd⟩ := hinv
      refine ih st2 hrun2 ?_
      have hsum1 : sumPending (st.contents ++
          [fileSlice data j ip st.current_pos (BUNDLE_SIZE - st.current_pos)]) ≤ BUNDLE_SIZE := by
        rw [sumPending_append]
        rw [← hcp]
        show st.current_pos + (BUNDLE_SIZE - st.current_pos) ≤ BUNDLE_SIZE
        omega
      have := @flush_c2 c
        { st with contents := st.contents ++
          [fileSlice data j ip st.current_pos (BUNDLE_SIZE - st.current_pos)] }
        hrows hsum1 hbnd
      exact this
  | case4 st ip size h =>
      intro st2 heq hinv
      rw [add_file_loop_fit h] at heq
      cases heq
      obtain ⟨hcp, hle, hrows, hbnd⟩ := hinv
      refine ⟨?_, ?_, hrows, hbnd⟩
      · show st.current_pos + size = sumPending (st.contents ++ [fileSlice data j ip st.current_pos size])
        rw [sumPending_append, ← hcp]
        rfl
      · show st.current_pos + size ≤ BUNDLE_SIZE
        omega

theorem add_file_c2 {c : List Nat → List Nat} {b : List Nat → Nat}
    (hb : ∀ bs, b bs = bs.length) {st : PackBuilder} {n : String} {d : List Nat} {p : Nat}
    {st1 : PackBuilder} {j : Nat}
    (h : add_file c b st n d p = Except.ok (st1, j)) (hinv : c2Inv st) : c2Inv st1 := by
  obtain ⟨-, hloop⟩ := add_file_ok h
  exact add_file_loop_c2 hb d (st.items.length + 1) _ 0 d.length st1 hloop hinv

theorem runOps_c2 {c : List Nat → List Nat} {b : List Nat → Nat}
    (hb : ∀ bs, b bs = bs.length) :
    ∀ (ops : List BuildOp), noLinkOps ops →
    ∀ (st st' : PackBuilder), runOps c b ops st = Except.ok st' → c2Inv st → c2Inv st' := by
  intro ops
  induction ops with
  | nil =>
      intro _ st st' h hinv
      cases h
      exact hinv
  | cons op rest ih =>
      intro hops st st' h hinv
      have hrest : noLinkOps rest := by
        intro nm tg pa hmem
        exact hops nm tg pa (List.mem_cons_of_mem _ hmem)
      cases op with
      | dirOp n p =>
          exact ih hrest _ _ h hinv
      | fileOp n d p =>
          cases haf : add_file c b st n d p with
          | error e =>
              simp only [runOps, haf] at h
              cases h
          | ok pr =>
              obtain ⟨stm, jm⟩ := pr
              simp only [runOps, haf] at h
              exact ih hrest _ _ h (add_file_c2 hb haf hinv)
      | linkOp n t p =>
          exact absurd (List.mem_cons_self _ _) (fun hm => hops n t p hm)

theorem c2Inv_new : c2Inv PackBuilder.new :=
  ⟨rfl, Nat.zero_le _, fun r hr => absurd hr (List.not_mem_nil r), fun _ => Nat.zero_le _⟩

theorem finish_c2 {c : List Nat → List Nat} {b : List Nat → Nat}
    (hb : ∀ bs, b bs = bs.length) {st st4 : PackBuilder}
    (h : finish c b st = Except.ok st4) (hinv : c2Inv st) : bundlesBounded st4.db := by
  unfold finish at h
  by_cases he : st.contents.isEmpty
  · rw [if_pos he] at h
    cases h
    exact hinv.2.2.2
  · rw [if_neg he, process_contents_ok hb] at h
    cases h
    obtain ⟨hcp, hle, hrows, hbnd⟩ := hinv
    exact (@flush_c2 c st hrows (by rw [← hcp]; exact hle) hbnd).2.2.2

/-- C2 amended: in a build with no `add_symlink` call, every content row
obeys the bundle bound. -/
theorem c2_bundle_bound {c : List Nat → List Nat} {b : List Nat → Nat}
    (hb : ∀ bs, b bs = bs.length) (ops : List BuildOp) (hops : noLinkOps ops)
    (db : ArchiveDb) (h : buildArchive c b ops = Except.ok db) :
    ∀ cid, sumSizes db cid ≤ BUNDLE_SIZE := by
  cases hr : runOps c b ops PackBuilder.new with
  | error e =>
      simp only [buildArchive, hr] at h
      cases h
  | ok st =>
      cases hf : finish c b st with
      | error e =>
          simp only [buildArchive, hr, hf] at h
          cases h
      | ok st1 =>
          simp only [buildArchive, hr, hf] at h
          cases h
          exact finish_c2 hb hf (runOps_c2 hb ops hops _ _ hr c2Inv_new)

theorem c2_bundle_bound_witness :
    noLinkOps [BuildOp.dirOp "d" 0] ∧
    ∃ db, buildArchive id List.length [BuildOp.dirOp "d" 0] = Except.ok db ∧
      ∀ cid, sumSizes db cid ≤ BUNDLE_SIZE := by
  have hops : noLinkOps [BuildOp.dirOp "d" 0] := by
    intro nm tg pa hm
    simp at hm
  refine ⟨hops, ?_⟩
  have hb2 : buildArchive id List.length [BuildOp.dirOp "d" 0] = Except.ok
      { items := [{ id := 1, parent := 0, kind := KIND_DIRECTORY, name := "d" }],
        contentRows := [], itemcontentRows := [] } := rfl
  exact ⟨_, hb2, c2_bundle_bound (fun bs => rfl) _ hops _ hb2⟩

/-- The oversized-symlink build, before `finish`. -/
theorem c2LinkState_run : runOps id List.length
      [BuildOp.linkOp "l" (List.replicate (BUNDLE_SIZE + 1) 0) 0] PackBuilder.new =
      Except.ok c2LinkState := rfl

/-- `finish` flushes the oversized link slice into one content row. -/
theorem c2LinkState_finish : finish id List.length c2LinkState = Except.ok c2LinkFinal :=
  @finish_pending_one id List.length (fun bs => rfl) c2LinkState
    (linkSlice (List.replicate (BUNDLE_SIZE + 1) 0) 1 0) rfl

theorem buildArchive_ok {c : List Nat → List Nat} {b : List Nat → Nat}
    {ops : List BuildOp} {st st1 : PackBuilder}
    (h1 : runOps c b ops PackBuilder.new = Except.ok st)
    (h2 : finish c b st = Except.ok st1) :
    buildArchive c b ops = Except.ok st1.db := by
  unfold buildArchive
  rw [h1]
  show (match finish c b st with
    | Except.error e => Except.error e
    | Except.ok stx => Except.ok stx.db) = Except.ok st1.db
  rw [h2]

/-- The full oversized-symlink archive. -/
theorem c2LinkDb_arch : buildArchive id List.length
      [BuildOp.linkOp "l" (List.replicate (BUNDLE_SIZE + 1) 0) 0] = Except.ok c2LinkDb :=
  buildArchive_ok c2LinkState_run c2LinkState_finish

/-- The single content row of that archive sums above the bound. -/
theorem c2LinkDb_sum : sumSizes c2LinkDb 1 = BUNDLE_SIZE + 1 := by
  simp [c2LinkDb, c2LinkFinal, c2LinkState, PackBuilder.db, PackBuilder.new, add_symlink,
    sumSizes, flushRow, linkSlice]

/-- C2 counterexample: `add_symlink` appends the link target to the pending
bundle without any capacity check, so a single oversized symlink yields a
content row whose `size` sum exceeds `BUNDLE_SIZE`. -/
theorem c2_bundle_bound_counterexample :
    ∃ db, buildArchive id List.length
        [BuildOp.linkOp "l" (List.replicate (BUNDLE_SIZE + 1) 0) 0] = Except.ok db ∧
      ¬ sumSizes db 1 ≤ BUNDLE_SIZE := by
  refine ⟨c2LinkDb, c2LinkDb_arch, ?_⟩
  rw [c2LinkDb_sum]
  omega

/-- C4 amended: the reader accepts the `size = 0` single-row representation
of an empty file and creates the empty file for it. -/
theorem c4_empty_file_tolerance (d : List Nat → List Nat) (n : String)
    (hn : isNormalName n = true) (blob : List Nat) :
    extract_all d
      { items := [{ id := 1, parent := 0, kind := KIND_FILE, name := n }],
        contentRows := [blob],
        itemcontentRows := [{ item := 1, itempos := 0, content := 1, contentpos := 0, size := 0 }] }
      { dirs := [], files := [], links := [] } =
    ({ dirs := [], files := [([n], [])], links := [] }, Except.ok 1) := by
  simp [extract_all, extract_go, processRow, joinRows, indexedFiles, fitRows, fitAux, fitLevel,
    childrenRows, ensure_all_directories, dirRows, sanitizeNames, blobOf, upsert, hn,
    KIND_FILE, KIND_DIRECTORY, segmentOf, writeChunk]

/-- Closed instance of the amended C4: one empty file named `f`, stored as a
single `size = 0` row, extracts to the empty file. -/
theorem c4_empty_file_tolerance_witness :
    isNormalName "f" = true ∧
    extract_all id
      { items := [{ id := 1, parent := 0, kind := KIND_FILE, name := "f" }],
        contentRows := [[]],
        itemcontentRows := [{ item := 1, itempos := 0, content := 1, contentpos := 0, size := 0 }] }
      { dirs := [], files := [], links := [] } =
    ({ dirs := [], files := [(["f"], [])], links := [] }, Except.ok 1) :=
  ⟨by decide, c4_empty_file_tolerance id "f" (by decide) []⟩

/-- C4 counterexample: the no-rows representation of an empty file is NOT
tolerated.  The LEFT JOIN emits a row with NULL `content`, row decoding
fails, and `extract_all` returns an SQL error instead of creating the file. -/
theorem c4_empty_file_tolerance_counterexample :
    (extract_all id
      { items := [{ id := 1, parent := 0, kind := KIND_FILE, name := "f" }],
        contentRows := [], itemcontentRows := [] }
      { dirs := [], files := [], links := [] }).2 = Except.error Error.sqlError := by
  rfl

theorem writeChunk_length (cur : List Nat) (ip : Nat) (seg : List Nat) :
    (writeChunk cur ip seg).length = max cur.length (ip + seg.length) := by
  unfold writeChunk
  by_cases h : cur.length < ip
  · rw [if_pos h]
    simp only [List.length_append, List.length_take, List.length_drop, List.length_replicate]
    omega
  · rw [if_neg h]
    simp only [List.length_append, List.length_take, List.length_drop]
    omega

theorem writeChunk_get_lt {cur : List Nat} {ip : Nat} {seg : List Nat} {x : Nat}
    (hx : x < ip) (hc : x < cur.length) :
    (writeChunk cur ip seg)[x]? = cur[x]? := by
  unfold writeChunk
  by_cases h : cur.length < ip
  · rw [if_pos h]
    rw [List.getElem?_append_left (by
      simp only [List.length_append, List.length_take, List.length_replicate]
      omega)]
    rw [List.getElem?_append_left (by
      simp only [List.length_take, List.length_append, List.length_replicate]
      omega)]
    rw [List.getElem?_take_of_lt hx]
    rw [List.getElem?_append_left hc]
  · rw [if_neg h]
    rw [List.getElem?_append_left (by
      simp only [List.length_append, List.length_take]
      omega)]
    rw [List.getElem?_append_left (by
      simp only [List.length_take]
      omega)]
    rw [List.getElem?_take_of_lt hx]

theorem writeChunk_get_in {cur : List Nat} {ip : Nat} {seg : List Nat} {j : Nat}
    (hj : j < seg.length) :
    (writeChunk cur ip seg)[ip + j]? = seg[j]? := by
  unfold writeChunk
  by_cases h : cur.length < ip
  · rw [if_pos h]
    rw [List.getElem?_append_left (by
      simp only [List.length_append, List.length_take, List.length_replicate]
      omega)]
    rw [List.getElem?_append_right (by
      simp only [List.length_take, List.length_append, List.length_replicate]
      omega)]
    simp only [List.length_take, List.length_append, List.length_replicate]
    congr 1
    omega
  · rw [if_neg h]
    rw [List.getElem?_append_left (by
      simp only [List.length_append, List.length_take]
      omega)]
    rw [List.getElem?_append_right (by
      simp only [List.length_take]
      omega)]
    simp only [List.length_take]
    congr 1
    omega

theorem writeChunk_get_ge {cur : List Nat} {ip : Nat} {seg : List Nat} {x : Nat}
    (hx : ip + seg.length ≤ x) (hc : x < cur.length) :
    (writeChunk cur ip seg)[x]? = cur[x]? := by
  unfold writeChunk
  rw [if_neg (by omega)]
  rw [List.getElem?_append_right (by
    simp only [List.length_append, List.length_take]
    omega)]
  rw [List.getElem?_drop]
  simp only [List.length_append, List.length_take]
  congr 1
  omega

theorem lookup_map_self {m : List (List String × List Nat)} {k : List String}
    {v : List Nat} (h : (List.lookup k m).isSome) :
    List.lookup k (m.map (fun kv => if kv.1 = k then (k, v) else kv)) = some v := by
  induction m with
  | nil => simp at h
  | cons a t ih =>
      obtain ⟨a1, a2⟩ := a
      by_cases hak : a1 = k
      · subst hak
        simp only [List.map_cons, if_pos rfl]
        rw [List.lookup_cons]
        simp
      · simp only [List.map_cons, if_neg hak]
        rw [List.lookup_cons]
        rw [show (k == a1) = false from beq_eq_false_iff_ne.mpr (fun hv => hak hv.symm)]
        refine ih ?_
        rw [List.lookup_cons] at h
        rw [show (k == a1) = false from beq_eq_false_iff_ne.mpr (fun hv => hak hv.symm)] at h
        exact h

theorem lookup_map_ne {m : List (List String × List Nat)} {k p : List String}
    {v : List Nat} (hp : p ≠ k) :
    List.lookup p (m.map (fun kv => if kv.1 = k then (k, v) else kv)) = List.lookup p m := by
  induction m with
  | nil => rfl
  | cons a t ih =>
      obtain ⟨a1, a2⟩ := a
      by_cases hak : a1 = k
      · subst hak
        rw [List.map_cons, if_pos (show ((a1, a2) : List String × List Nat).1 = a1 from rfl)]
        rw [List.lookup_cons, List.lookup_cons]
        rw [show (p == a1) = false from beq_eq_false_iff_ne.mpr hp]
        exact ih
      · simp only [List.map_cons, if_neg hak]
        rw [List.lookup_cons, List.lookup_cons]
        cases hpa : (p == a1)
        · simp only [hpa]
          exact ih
        · simp only [hpa]

theorem lookup_upsert_self {m : List (List String × List Nat)} {k : List String}
    {v : List Nat} : List.lookup k (upsert m k v) = some v := by
  unfold upsert
  by_cases h : (List.lookup k m).isSome
  · rw [if_pos h]
    exact lookup_map_self h
  · rw [if_neg h]
    rw [List.lookup_append]
    rw [Option.not_isSome_iff_eq_none.mp h]
    simp

theorem lookup_upsert_ne {m : List (List String × List Nat)} {k p : List String}
    {v : List Nat} (hp : p ≠ k) : List.lookup p (upsert m k v) = List.lookup p m := by
  unfold upsert
  by_cases h : (List.lookup k m).isSome
  · rw [if_pos h]
    exact lookup_map_ne hp
  · rw [if_neg h]
    rw [List.lookup_append]
    have hnone : List.lookup p [(k, v)] = none := by
      rw [List.lookup_cons]
      rw [show (p == k) = false from beq_eq_false_iff_ne.mpr hp]
      rfl
    rw [hnone]
    exact Option.or_none

theorem uniqKeys_upsert {m : List (List String × List Nat)} {k : List String}
    {v : List Nat} (huniq : uniqKeys m) : uniqKeys (upsert m k v) := by
  unfold upsert
  by_cases h : (List.lookup k m).isSome
  · rw [if_pos h]
    unfold uniqKeys
    rw [List.map_map]
    have hfun : (Prod.fst ∘ fun kv : List String × List Nat =>
        if kv.1 = k then (k, v) else kv) = Prod.fst := by
      funext kv
      by_cases hk : kv.1 = k
      · simp [hk]
      · simp [hk]
    rw [hfun]
    exact huniq
  · rw [if_neg h]
    unfold uniqKeys
    rw [List.map_append]
    simp only [List.map_cons, List.map_nil]
    rw [List.nodup_append]
    refine ⟨huniq, List.nodup_singleton _, ?_⟩
    intro a ha hb
    simp only [List.mem_singleton] at hb
    subst hb
    obtain ⟨kv, hkv, hfst⟩ := List.mem_map.mp ha
    have := List.lookup_eq_none_iff.mp (Option.not_isSome_iff_eq_none.mp h) kv hkv
    rw [← hfst] at this
    simp at this

theorem segmentOf_length_le (b : List Nat) (cp sz : Nat) : (segmentOf b cp sz).length ≤ sz := by
  simp [segmentOf]

theorem processRow_file_pos {d : List Nat → List Nat} {db : ArchiveDb} {fs : OutFS} {fc : Nat}
    {c cp ip sz k : Nat} {q : List String} {blob : List Nat}
    (hb : blobOf db c = some blob) (hk : k = KIND_FILE)
    (hp : ¬ sanitizeNames q = []) (hsz : sz > 0) :
    processRow d db fs fc (ScatterRow.dataRow c cp ip sz k q) =
      Except.ok ({ fs with files := upsert fs.files (sanitizeNames q) (writeChunk ((List.lookup (sanitizeNames q) fs.files).getD []) ip (segmentOf (d blob) cp sz)) },
        if ((List.lookup (sanitizeNames q) fs.files).getD []).length = 0 then fc + 1 else fc) := by
  subst hk
  simp only [processRow, hb]
  rw [if_pos trivial, if_neg hp, if_pos hsz]

theorem processRow_file_zero {d : List Nat → List Nat} {db : ArchiveDb} {fs : OutFS} {fc : Nat}
    {c cp ip sz k : Nat} {q : List String} {blob : List Nat}
    (hb : blobOf db c = some blob) (hk : k = KIND_FILE)
    (hp : ¬ sanitizeNames q = []) (hsz : ¬ sz > 0) :
    processRow d db fs fc (ScatterRow.dataRow c cp ip sz k q) =
      Except.ok ({ fs with files := upsert fs.files (sanitizeNames q) ((List.lookup (sanitizeNames q) fs.files).getD []) },
        if ((List.lookup (sanitizeNames q) fs.files).getD []).length = 0 then fc + 1 else fc) := by
  subst hk
  simp only [processRow, hb]
  rw [if_pos trivial, if_neg hp, if_neg hsz]

theorem processRow_other {d : List Nat → List Nat} {db : ArchiveDb} {fs : OutFS} {fc : Nat}
    {c cp ip sz k : Nat} {q : List String} {blob : List Nat}
    (hb : blobOf db c = some blob) (hk : ¬ k = KIND_FILE) (hk2 : ¬ k = KIND_SYMLINK) :
    processRow d db fs fc (ScatterRow.dataRow c cp ip sz k q) = Except.ok (fs, fc) := by
  simp only [processRow, hb]
  rw [if_neg hk, if_neg hk2]

theorem extract_go_cons_ok {d : List Nat → List Nat} {db : ArchiveDb} {r : ScatterRow}
    {rows : List ScatterRow} {fs : OutFS} {fc : Nat} {fs1 : OutFS} {fc1 : Nat}
    (h : processRow d db fs fc r = Except.ok (fs1, fc1)) :
    extract_go d db (r :: rows) fs fc = extract_go d db rows fs1 fc1 := by
  show (match processRow d db fs fc r with
    | Except.error e => (fs, Except.error e)
    | Except.ok (fs2, fc2) => extract_go d db rows fs2 fc2) = extract_go d db rows fs1 fc1
  rw [h]

theorem rowsDisjoint_symm {a b : ScatterRow} (h : rowsDisjoint a b) : rowsDisjoint b a := by
  cases a with
  | nullRow k q =>
      cases b with
      | nullRow k2 q2 => trivial
      | dataRow c2 cp2 ip2 sz2 k2 q2 => trivial
  | dataRow c1 cp1 ip1 sz1 k1 q1 =>
      cases b with
      | nullRow k2 q2 => trivial
      | dataRow c2 cp2 ip2 sz2 k2 q2 =>
          intro h2 h1 hpq
          exact (h h1 h2 hpq.symm).symm

theorem processRow_link {d : List Nat → List Nat} {db : ArchiveDb} {fs : OutFS} {fc : Nat}
    {c cp ip sz k : Nat} {q : List String} {blob : List Nat}
    (hb : blobOf db c = some blob) (hk : k = KIND_SYMLINK)
    (hp : ¬ sanitizeNames q = [])
    (hnl : ¬ ((List.lookup (sanitizeNames q) fs.links).isSome ∨
      (List.lookup (sanitizeNames q) fs.files).isSome ∨ sanitizeNames q ∈ fs.dirs)) :
    processRow d db fs fc (ScatterRow.dataRow c cp ip sz k q) =
      Except.ok ({ fs with links := fs.links ++ [(sanitizeNames q, segmentOf (d blob) cp sz)] }, fc) := by
  subst hk
  simp only [processRow, hb]
  rw [if_neg (by decide), if_pos trivial, if_neg hp, if_neg hnl]

theorem isSome_lookup_upsert {m : List (List String × List Nat)} {k p : List String}
    {v : List Nat} (h : (List.lookup p (upsert m k v)).isSome) :
    p = k ∨ (List.lookup p m).isSome := by
  by_cases hpk : p = k
  · exact Or.inl hpk
  · right
    rw [lookup_upsert_ne hpk] at h
    exact h

theorem extract_go_run {d : List Nat → List Nat} {db : ArchiveDb} :
    ∀ (rows : List ScatterRow) (fs : OutFS) (fc : Nat),
      (∀ r ∈ rows, rowBenign2 db r) →
      List.Pairwise rowsDisjoint rows →
      List.Pairwise linkSep rows →
      (∀ r ∈ rows, rowKind r = KIND_SYMLINK →
        List.lookup (rowPath r) fs.links = none ∧
        List.lookup (rowPath r) fs.files = none ∧ rowPath r ∉ fs.dirs) →
      uniqKeys fs.files →
      ∃ fs' fc', extract_go d db rows fs fc = (fs', Except.ok fc') ∧
        uniqKeys fs'.files ∧ fs'.dirs = fs.dirs ∧
        fs'.links = fs.links ++ rowsLinks d db rows ∧
        (∀ p F, List.lookup p fs.files = some F →
          ∃ F', List.lookup p fs'.files = some F' ∧ F.length ≤ F'.length ∧
            ∀ x, x < F.length → (∀ r ∈ rows, ¬ rowWritesAt r p x) → F'[x]? = F[x]?) ∧
        (∀ p, (List.lookup p fs'.files).isSome →
          (List.lookup p fs.files).isSome ∨
          ∃ r ∈ rows, rowKind r = KIND_FILE ∧ rowPath r = p) ∧
        (∀ p F', List.lookup p fs'.files = some F' → ∀ B,
          ((List.lookup p fs.files).getD []).length ≤ B →
          (∀ r ∈ rows, rowEnd d db p r ≤ B) → F'.length ≤ B) ∧
        (∀ r ∈ rows, rowDone d db fs' r) := by
  intro rows
  induction rows with
  | nil =>
      intro fs fc _ _ _ _ hu
      refine ⟨fs, fc, rfl, hu, rfl, by simp [rowsLinks], ?_, ?_, ?_, ?_⟩
      · exact fun p F hF => ⟨F, hF, le_refl _, fun x _ _ => rfl⟩
      · exact fun p h => Or.inl h
      · intro p F' hF' B hB _
        rw [hF'] at hB
        exact hB
      · exact fun r hr => absurd hr (List.not_mem_nil r)
  | cons r rest ih =>
      intro fs fc hben hdis hsep hcol hu
      have hbr := hben r (List.mem_cons_self r rest)
      have hbrest : ∀ r' ∈ rest, rowBenign2 db r' :=
        fun r' hr' => hben r' (List.mem_cons_of_mem r hr')
      have hdrest : List.Pairwise rowsDisjoint rest := (List.pairwise_cons.mp hdis).2
      have hdhead : ∀ r' ∈ rest, rowsDisjoint r r' := (List.pairwise_cons.mp hdis).1
      have hsrest : List.Pairwise linkSep rest := (List.pairwise_cons.mp hsep).2
      have hshead : ∀ r' ∈ rest, linkSep r r' := (List.pairwise_cons.mp hsep).1
      cases r with
      | nullRow k q => exact absurd hbr (by simp [rowBenign2])
      | dataRow c cp ip sz k q =>
          obtain ⟨hbsome, hkfp⟩ := hbr
          obtain ⟨blob, hblob⟩ := Option.isSome_iff_exists.mp hbsome
          by_cases hk : k = KIND_FILE
          · have hp : ¬ sanitizeNames q = [] := hkfp (Or.inl hk)
            have hcol2 : ∀ r' ∈ rest, rowKind r' = KIND_SYMLINK →
                List.lookup (rowPath r') fs.links = none ∧
                List.lookup (rowPath r') fs.files = none ∧ rowPath r' ∉ fs.dirs :=
              fun r' hr' hks => hcol r' (List.mem_cons_of_mem _ hr') hks
            by_cases hsz : sz > 0
            · have hpr := @processRow_file_pos d db fs fc c cp ip sz k q blob hblob hk hp hsz
              have hcol3 : ∀ r' ∈ rest, rowKind r' = KIND_SYMLINK →
                  List.lookup (rowPath r') ({ fs with files := upsert fs.files (sanitizeNames q) (writeChunk ((List.lookup (sanitizeNames q) fs.files).getD []) ip (segmentOf (d blob) cp sz)) } : OutFS).links = none ∧
                  List.lookup (rowPath r') ({ fs with files := upsert fs.files (sanitizeNames q) (writeChunk ((List.lookup (sanitizeNames q) fs.files).getD []) ip (segmentOf (d blob) cp sz)) } : OutFS).files = none ∧
                  rowPath r' ∉ ({ fs with files := upsert fs.files (sanitizeNames q) (writeChunk ((List.lookup (sanitizeNames q) fs.files).getD []) ip (segmentOf (d blob) cp sz)) } : OutFS).dirs := by
                intro r' hr' hks
                obtain ⟨h1, h2, h3⟩ := hcol2 r' hr' hks
                refine ⟨h1, ?_, h3⟩
                have hne : rowPath r' ≠ sanitizeNames q := by
                  have := hshead r' hr' (Or.inr hks)
                  exact fun hcontra => this (by rw [rowPath, hcontra])
                show List.lookup (rowPath r') (upsert fs.files (sanitizeNames q) _) = none
                rw [lookup_upsert_ne hne]
                exact h2
              obtain ⟨fs2, fc2, heq2, hu2, hd2, hlk2, hpres2, hprov2, hbnd2, hdone2⟩ :=
                ih ({ fs with files := upsert fs.files (sanitizeNames q) (writeChunk ((List.lookup (sanitizeNames q) fs.files).getD []) ip (segmentOf (d blob) cp sz)) })
                  (if ((List.lookup (sanitizeNames q) fs.files).getD []).length = 0 then fc + 1 else fc)
                  hbrest hdrest hsrest hcol3 (uniqKeys_upsert hu)
              refine ⟨fs2, fc2, ?_, hu2, hd2, ?_, ?_, ?_, ?_, ?_⟩
              · rw [@extract_go_cons_ok d db _ rest fs fc _ _ hpr]
                exact heq2
              · rw [hlk2]
                show fs.links ++ rowsLinks d db rest = _
                rw [rowsLinks, if_neg (by rw [hk]; decide)]
              · intro p F hF
                by_cases hpq : p = sanitizeNames q
                · have hcur : (List.lookup p fs.files).getD [] = F := by rw [hF]; rfl
                  have hlk1 : List.lookup p (upsert fs.files (sanitizeNames q) (writeChunk ((List.lookup (sanitizeNames q) fs.files).getD []) ip (segmentOf (d blob) cp sz))) = some (writeChunk F ip (segmentOf (d blob) cp sz)) := by
                    rw [← hpq, hcur]
                    exact lookup_upsert_self
                  obtain ⟨F', hF', hlen', hpt'⟩ := hpres2 p _ hlk1
                  refine ⟨F', hF', ?_, ?_⟩
                  · refine le_trans ?_ hlen'
                    rw [writeChunk_length]
                    exact Nat.le_max_left _ _
                  · intro x hx hnw
                    have hhead := hnw (ScatterRow.dataRow c cp ip sz k q) (List.mem_cons_self _ _)
                    simp only [rowWritesAt, hk, ← hpq, eq_self_iff_true, true_and, not_and,
                      not_lt] at hhead
                    have hxw : x < (writeChunk F ip (segmentOf (d blob) cp sz)).length := by
                      rw [writeChunk_length]
                      exact lt_of_lt_of_le hx (Nat.le_max_left _ _)
                    have hrest' : ∀ r' ∈ rest, ¬ rowWritesAt r' p x :=
                      fun r' hr' => hnw r' (List.mem_cons_of_mem _ hr')
                    rw [hpt' x hxw hrest']
                    by_cases hxip : x < ip
                    · exact writeChunk_get_lt hxip hx
                    · have hge : ip + sz ≤ x := hhead (by omega)
                      have hsegle := segmentOf_length_le (d blob) cp sz
                      exact writeChunk_get_ge (by omega) hx
                · have hlk1 : List.lookup p (upsert fs.files (sanitizeNames q) (writeChunk ((List.lookup (sanitizeNames q) fs.files).getD []) ip (segmentOf (d blob) cp sz))) = some F := by
                    rw [lookup_upsert_ne hpq]
                    exact hF
                  obtain ⟨F', hF', hlen', hpt'⟩ := hpres2 p F hlk1
                  exact ⟨F', hF', hlen', fun x hx hnw =>
                    hpt' x hx (fun r' hr' => hnw r' (List.mem_cons_of_mem _ hr'))⟩
              · intro p hps
                rcases hprov2 p hps with h1 | ⟨r', hr', hk', hp'⟩
                · rcases isSome_lookup_upsert h1 with h2 | h2
                  · exact Or.inr ⟨ScatterRow.dataRow c cp ip sz k q, List.mem_cons_self _ _,
                      hk, h2.symm⟩
                  · exact Or.inl h2
                · exact Or.inr ⟨r', List.mem_cons_of_mem _ hr', hk', hp'⟩
              · intro p F' hF' B hB hrows
                refine hbnd2 p F' hF' B ?_ (fun r' hr' => hrows r' (List.mem_cons_of_mem _ hr'))
                by_cases hpq : p = sanitizeNames q
                · have hlk1 : List.lookup p (upsert fs.files (sanitizeNames q) (writeChunk ((List.lookup (sanitizeNames q) fs.files).getD []) ip (segmentOf (d blob) cp sz))) = some (writeChunk ((List.lookup (sanitizeNames q) fs.files).getD []) ip (segmentOf (d blob) cp sz)) := by
                    rw [← hpq]
                    exact lookup_upsert_self
                  rw [hlk1]
                  show (writeChunk ((List.lookup (sanitizeNames q) fs.files).getD []) ip (segmentOf (d blob) cp sz)).length ≤ B
                  rw [writeChunk_length]
                  have hend := hrows (ScatterRow.dataRow c cp ip sz k q) (List.mem_cons_self _ _)
                  rw [rowEnd, if_pos ⟨hk, hpq.symm, hsz⟩] at hend
                  rw [hblob] at hend
                  have hBc : ((List.lookup p fs.files).getD []).length ≤ B := hB
                  rw [hpq] at hBc
                  exact Nat.max_le.mpr ⟨hBc, hend⟩
                · have hlk1 : List.lookup p (upsert fs.files (sanitizeNames q) (writeChunk ((List.lookup (sanitizeNames q) fs.files).getD []) ip (segmentOf (d blob) cp sz))) = List.lookup p fs.files := lookup_upsert_ne hpq
                  rw [hlk1]
                  exact hB
              · intro r' hr'
                rcases List.mem_cons.mp hr' with h | h
                · subst h
                  intro hkf
                  simp only [hblob, Option.getD_some]
                  have hlk1 : List.lookup (sanitizeNames q) (upsert fs.files (sanitizeNames q) (writeChunk ((List.lookup (sanitizeNames q) fs.files).getD []) ip (segmentOf (d blob) cp sz))) = some (writeChunk ((List.lookup (sanitizeNames q) fs.files).getD []) ip (segmentOf (d blob) cp sz)) :=
                    lookup_upsert_self
                  obtain ⟨F', hF', hlen', hpt'⟩ := hpres2 _ _ hlk1
                  refine ⟨F', hF', fun _ => ⟨?_, ?_⟩⟩
                  · refine le_trans ?_ hlen'
                    rw [writeChunk_length]
                    exact Nat.le_max_right _ _
                  · intro j hj
                    have hxw : ip + j < (writeChunk ((List.lookup (sanitizeNames q) fs.files).getD []) ip (segmentOf (d blob) cp sz)).length := by
                      rw [writeChunk_length]
                      have := Nat.le_max_right (((List.lookup (sanitizeNames q) fs.files).getD []).length) (ip + (segmentOf (d blob) cp sz).length)
                      omega
                    have hrest' : ∀ r2 ∈ rest, ¬ rowWritesAt r2 (sanitizeNames q) (ip + j) := by
                      intro r2 hr2 hw
                      have hdisj := hdhead r2 hr2
                      cases r2 with
                      | nullRow k2 q2 => exact hw
                      | dataRow c2 cp2 ip2 sz2 k2 q2 =>
                          obtain ⟨hk2, hpath2, hx1, hx2⟩ := hw
                          have hdj := hdisj hk hk2 hpath2.symm
                          have hsegle := segmentOf_length_le (d blob) cp sz
                          omega
                    rw [hpt' (ip + j) hxw hrest']
                    exact writeChunk_get_in hj
                · exact hdone2 r' h
            · have hpr := @processRow_file_zero d db fs fc c cp ip sz k q blob hblob hk hp hsz
              have hcol3 : ∀ r' ∈ rest, rowKind r' = KIND_SYMLINK →
                  List.lookup (rowPath r') ({ fs with files := upsert fs.files (sanitizeNames q) ((List.lookup (sanitizeNames q) fs.files).getD []) } : OutFS).links = none ∧
                  List.lookup (rowPath r') ({ fs with files := upsert fs.files (sanitizeNames q) ((List.lookup (sanitizeNames q) fs.files).getD []) } : OutFS).files = none ∧
                  rowPath r' ∉ ({ fs with files := upsert fs.files (sanitizeNames q) ((List.lookup (sanitizeNames q) fs.files).getD []) } : OutFS).dirs := by
                intro r' hr' hks
                obtain ⟨h1, h2, h3⟩ := hcol2 r' hr' hks
                refine ⟨h1, ?_, h3⟩
                have hne : rowPath r' ≠ sanitizeNames q := by
                  have := hshead r' hr' (Or.inr hks)
                  exact fun hcontra => this (by rw [rowPath, hcontra])
                show List.lookup (rowPath r') (upsert fs.files (sanitizeNames q) _) = none
                rw [lookup_upsert_ne hne]
                exact h2
              obtain ⟨fs2, fc2, heq2, hu2, hd2, hlk2, hpres2, hprov2, hbnd2, hdone2⟩ :=
                ih ({ fs with files := upsert fs.files (sanitizeNames q) ((List.lookup (sanitizeNames q) fs.files).getD []) })
                  (if ((List.lookup (sanitizeNames q) fs.files).getD []).length = 0 then fc + 1 else fc)
                  hbrest hdrest hsrest hcol3 (uniqKeys_upsert hu)
              refine ⟨fs2, fc2, ?_, hu2, hd2, ?_, ?_, ?_, ?_, ?_⟩
              · rw [@extract_go_cons_ok d db _ rest fs fc _ _ hpr]
                exact heq2
              · rw [hlk2]
                show fs.links ++ rowsLinks d db rest = _
                rw [rowsLinks, if_neg (by rw [hk]; decide)]
              · intro p F hF
                by_cases hpq : p = sanitizeNames q
                · have hcur : (List.lookup p fs.files).getD [] = F := by rw [hF]; rfl
                  have hlk1 : List.lookup p (upsert fs.files (sanitizeNames q) ((List.lookup (sanitizeNames q) fs.files).getD [])) = some F := by
                    rw [← hpq, hcur]
                    exact lookup_upsert_self
                  obtain ⟨F', hF', hlen', hpt'⟩ := hpres2 p F hlk1
                  exact ⟨F', hF', hlen', fun x hx hnw =>
                    hpt' x hx (fun r' hr' => hnw r' (List.mem_cons_of_mem _ hr'))⟩
                · have hlk1 : List.lookup p (upsert fs.files (sanitizeNames q) ((List.lookup (sanitizeNames q) fs.files).getD [])) = some F := by
                    rw [lookup_upsert_ne hpq]
                    exact hF
                  obtain ⟨F', hF', hlen', hpt'⟩ := hpres2 p F hlk1
                  exact ⟨F', hF', hlen', fun x hx hnw =>
                    hpt' x hx (fun r' hr' => hnw r' (List.mem_cons_of_mem _ hr'))⟩
              · intro p hps
                rcases hprov2 p hps with h1 | ⟨r', hr', hk', hp'⟩
                · rcases isSome_lookup_upsert h1 with h2 | h2
                  · exact Or.inr ⟨ScatterRow.dataRow c cp ip sz k q, List.mem_cons_self _ _,
                      hk, h2.symm⟩
                  · exact Or.inl h2
                · exact Or.inr ⟨r', List.mem_cons_of_mem _ hr', hk', hp'⟩
              · intro p F' hF' B hB hrows
                refine hbnd2 p F' hF' B ?_ (fun r' hr' => hrows r' (List.mem_cons_of_mem _ hr'))
                by_cases hpq : p = sanitizeNames q
                · have hlk1 : List.lookup p (upsert fs.files (sanitizeNames q) ((List.lookup (sanitizeNames q) fs.files).getD [])) = some ((List.lookup (sanitizeNames q) fs.files).getD []) := by
                    rw [← hpq]
                    exact lookup_upsert_self
                  rw [hlk1]
                  show ((List.lookup (sanitizeNames q) fs.files).getD []).length ≤ B
                  rw [← hpq]
                  exact hB
                · rw [lookup_upsert_ne hpq]
                  exact hB
              · intro r' hr'
                rcases List.mem_cons.mp hr' with h | h
                · subst h
                  intro hkf
                  have hlk1 : List.lookup (sanitizeNames q) (upsert fs.files (sanitizeNames q) ((List.lookup (sanitizeNames q) fs.files).getD [])) = some ((List.lookup (sanitizeNames q) fs.files).getD []) :=
                    lookup_upsert_self
                  obtain ⟨F', hF', hlen', hpt'⟩ := hpres2 _ _ hlk1
                  exact ⟨F', hF', fun hsz2 => absurd hsz2 hsz⟩
                · exact hdone2 r' h
          · by_cases hks : k = KIND_SYMLINK
            · have hp : ¬ sanitizeNames q = [] := hkfp (Or.inr hks)
              obtain ⟨hl1, hl2, hl3⟩ := hcol (ScatterRow.dataRow c cp ip sz k q)
                (List.mem_cons_self _ _) hks
              have hnl : ¬ ((List.lookup (sanitizeNames q) fs.links).isSome ∨
                  (List.lookup (sanitizeNames q) fs.files).isSome ∨ sanitizeNames q ∈ fs.dirs) := by
                rw [show rowPath (ScatterRow.dataRow c cp ip sz k q) = sanitizeNames q from rfl]
                  at hl1 hl2 hl3
                rw [hl1, hl2]
                simp [hl3]
              have hpr := @processRow_link d db fs fc c cp ip sz k q blob hblob hks hp hnl
              have hcol3 : ∀ r' ∈ rest, rowKind r' = KIND_SYMLINK →
                  List.lookup (rowPath r') ({ fs with links := fs.links ++ [(sanitizeNames q, segmentOf (d blob) cp sz)] } : OutFS).links = none ∧
                  List.lookup (rowPath r') ({ fs with links := fs.links ++ [(sanitizeNames q, segmentOf (d blob) cp sz)] } : OutFS).files = none ∧
                  rowPath r' ∉ ({ fs with links := fs.links ++ [(sanitizeNames q, segmentOf (d blob) cp sz)] } : OutFS).dirs := by
                intro r' hr' hks'
                obtain ⟨h1, h2, h3⟩ := hcol r' (List.mem_cons_of_mem _ hr') hks'
                refine ⟨?_, h2, h3⟩
                have hne : rowPath r' ≠ sanitizeNames q := by
                  have := hshead r' hr' (Or.inl hks)
                  exact fun hcontra => (this (by rw [rowPath, hcontra])).elim
                show List.lookup (rowPath r') (fs.links ++ [(sanitizeNames q, segmentOf (d blob) cp sz)]) = none
                rw [List.lookup_append, h1]
                have hsing : List.lookup (rowPath r') [(sanitizeNames q, segmentOf (d blob) cp sz)] = none := by
                  rw [List.lookup_cons]
                  rw [show (rowPath r' == sanitizeNames q) = false from beq_eq_false_iff_ne.mpr hne]
                  rfl
                rw [hsing]
                rfl
              obtain ⟨fs2, fc2, heq2, hu2, hd2, hlk2, hpres2, hprov2, hbnd2, hdone2⟩ :=
                ih ({ fs with links := fs.links ++ [(sanitizeNames q, segmentOf (d blob) cp sz)] })
                  fc hbrest hdrest hsrest hcol3 hu
              refine ⟨fs2, fc2, ?_, hu2, hd2, ?_, ?_, ?_, ?_, ?_⟩
              · rw [@extract_go_cons_ok d db _ rest fs fc _ _ hpr]
                exact heq2
              · rw [hlk2]
                show (fs.links ++ [(sanitizeNames q, segmentOf (d blob) cp sz)]) ++ rowsLinks d db rest = _
                rw [rowsLinks, if_pos hks]
                rw [hblob]
                simp [List.append_assoc]
              · intro p F hF
                obtain ⟨F', hF', hlen', hpt'⟩ := hpres2 p F hF
                exact ⟨F', hF', hlen', fun x hx hnw =>
                  hpt' x hx (fun r' hr' => hnw r' (List.mem_cons_of_mem _ hr'))⟩
              · intro p hps
                rcases hprov2 p hps with h1 | ⟨r', hr', hk', hp'⟩
                · exact Or.inl h1
                · exact Or.inr ⟨r', List.mem_cons_of_mem _ hr', hk', hp'⟩
              · intro p F' hF' B hB hrows
                exact hbnd2 p F' hF' B hB (fun r' hr' => hrows r' (List.mem_cons_of_mem _ hr'))
              · intro r' hr'
                rcases List.mem_cons.mp hr' with h | h
                · subst h
                  intro hkf
                  exact absurd hkf hk
                · exact hdone2 r' h
            · have hpr := @processRow_other d db fs fc c cp ip sz k q blob hblob hk hks
              obtain ⟨fs2, fc2, heq2, hu2, hd2, hlk2, hpres2, hprov2, hbnd2, hdone2⟩ :=
                ih fs fc hbrest hdrest hsrest
                  (fun r' hr' hks' => hcol r' (List.mem_cons_of_mem _ hr') hks') hu
              refine ⟨fs2, fc2, ?_, hu2, hd2, ?_, ?_, ?_, ?_, ?_⟩
              · rw [@extract_go_cons_ok d db _ rest fs fc _ _ hpr]
                exact heq2
              · rw [hlk2]
                show fs.links ++ rowsLinks d db rest = _
                rw [rowsLinks, if_neg hks]
              · intro p F hF
                obtain ⟨F', hF', hlen', hpt'⟩ := hpres2 p F hF
                exact ⟨F', hF', hlen', fun x hx hnw =>
                  hpt' x hx (fun r' hr' => hnw r' (List.mem_cons_of_mem _ hr'))⟩
              · intro p hps
                rcases hprov2 p hps with h1 | ⟨r', hr', hk', hp'⟩
                · exact Or.inl h1
                · exact Or.inr ⟨r', List.mem_cons_of_mem _ hr', hk', hp'⟩
              · intro p F' hF' B hB hrows
                exact hbnd2 p F' hF' B hB (fun r' hr' => hrows r' (List.mem_cons_of_mem _ hr'))
              · intro r' hr'
                rcases List.mem_cons.mp hr' with h | h
                · subst h
                  intro hkf
                  exact absurd hkf hk
                · exact hdone2 r' h

theorem file_restored {d : List Nat → List Nat} {db : ArchiveDb} {fs' : OutFS}
    {R : List ScatterRow} {P : List String} {D : List Nat}
    (hdone : ∀ r ∈ R, rowDone d db fs' r)
    (hbnd : ∀ F', List.lookup P fs'.files = some F' → ∀ B,
      (∀ r ∈ R, rowEnd d db P r ≤ B) → F'.length ≤ B)
    (hbytes : ∀ c cp ip sz q, ScatterRow.dataRow c cp ip sz KIND_FILE q ∈ R →
      sanitizeNames q = P →
      ip + sz ≤ D.length ∧ segmentOf (d ((blobOf db c).getD [])) cp sz = (D.drop ip).take sz)
    (hcov : ∀ x, x < D.length → ∃ c cp ip sz q,
      ScatterRow.dataRow c cp ip sz KIND_FILE q ∈ R ∧ sanitizeNames q = P ∧ ip ≤ x ∧ x < ip + sz)
    (hone : ∃ c cp ip sz q, ScatterRow.dataRow c cp ip sz KIND_FILE q ∈ R ∧ sanitizeNames q = P) :
    List.lookup P fs'.files = some D := by
  obtain ⟨c0, cp0, ip0, sz0, q0, hmem0, hq0⟩ := hone
  obtain ⟨F, hF, hFseg⟩ := hdone _ hmem0 rfl
  rw [hq0] at hF
  have hbound : ∀ r ∈ R, rowEnd d db P r ≤ D.length := by
    intro r hr
    cases r with
    | nullRow k q => exact Nat.zero_le _
    | dataRow c cp ip sz k q =>
        rw [rowEnd]
        by_cases hcond : k = KIND_FILE ∧ sanitizeNames q = P ∧ 0 < sz
        · rw [if_pos hcond]
          obtain ⟨hk, hpq, hsz⟩ := hcond
          subst hk
          obtain ⟨hle, hseq⟩ := hbytes c cp ip sz q hr hpq
          rw [hseq]
          simp only [List.length_take, List.length_drop]
          omega
        · rw [if_neg hcond]
          exact Nat.zero_le _
  have hlenle : F.length ≤ D.length := hbnd F hF D.length hbound
  have hlenge : D.length ≤ F.length := by
    rcases Nat.eq_zero_or_pos D.length with hD0 | hDpos
    · omega
    · obtain ⟨c1, cp1, ip1, sz1, q1, hmem1, hq1, hx1, hx2⟩ := hcov (D.length - 1) (by omega)
      obtain ⟨hle1, hseq1⟩ := hbytes c1 cp1 ip1 sz1 q1 hmem1 hq1
      obtain ⟨F2, hF2, hFseg2⟩ := hdone _ hmem1 rfl
      rw [hq1, hF] at hF2
      cases hF2
      obtain ⟨hlen2, _⟩ := hFseg2 (by omega)
      rw [hseq1] at hlen2
      simp only [List.length_take, List.length_drop] at hlen2
      omega
  have hext : F = D := by
    apply List.ext_getElem?
    intro n
    by_cases hn : n < D.length
    · obtain ⟨c1, cp1, ip1, sz1, q1, hmem1, hq1, hx1, hx2⟩ := hcov n hn
      obtain ⟨hle1, hseq1⟩ := hbytes c1 cp1 ip1 sz1 q1 hmem1 hq1
      obtain ⟨F2, hF2, hFseg2⟩ := hdone _ hmem1 rfl
      rw [hq1, hF] at hF2
      cases hF2
      obtain ⟨hlen2, hpt2⟩ := hFseg2 (by omega)
      have hsegl : (segmentOf (d ((blobOf db c1).getD [])) cp1 sz1).length = sz1 := by
        rw [hseq1]
        simp only [List.length_take, List.length_drop]
        omega
      have hj : n - ip1 < (segmentOf (d ((blobOf db c1).getD [])) cp1 sz1).length := by
        rw [hsegl]
        omega
      have := hpt2 (n - ip1) hj
      rw [show ip1 + (n - ip1) = n from by omega] at this
      rw [this, hseq1]
      rw [List.getElem?_take_of_lt (by omega), List.getElem?_drop]
      congr 1
      omega
    · rw [List.getElem?_eq_none (by omega), List.getElem?_eq_none (by omega)]
  rw [hext] at hF
  exact hF

theorem link_restored {d : List Nat → List Nat} {db : ArchiveDb} :
    ∀ {R : List ScatterRow} {P : List String} {T : List Nat},
      List.Pairwise linkSep R →
      (∃ c cp ip sz q, ScatterRow.dataRow c cp ip sz KIND_SYMLINK q ∈ R ∧
        sanitizeNames q = P ∧ segmentOf (d ((blobOf db c).getD [])) cp sz = T) →
      List.lookup P (rowsLinks d db R) = some T := by
  intro R
  induction R with
  | nil =>
      intro P T _ hex
      obtain ⟨_, _, _, _, _, hmem, _, _⟩ := hex
      exact absurd hmem (List.not_mem_nil _)
  | cons r rest ih =>
      intro P T hsep hex
      obtain ⟨c, cp, ip, sz, q, hmem, hq, hseg⟩ := hex
      have hshead : ∀ r' ∈ rest, linkSep r r' := (List.pairwise_cons.mp hsep).1
      have hsrest : List.Pairwise linkSep rest := (List.pairwise_cons.mp hsep).2
      rcases List.mem_cons.mp hmem with h | h
      · rw [← h]
        rw [rowsLinks, if_pos rfl]
        rw [List.lookup_cons]
        rw [show (P == sanitizeNames q) = true from beq_iff_eq.mpr hq.symm]
        simp only [hseg]
      · cases r with
        | nullRow k2 q2 =>
            rw [rowsLinks]
            exact ih hsrest ⟨c, cp, ip, sz, q, h, hq, hseg⟩
        | dataRow c2 cp2 ip2 sz2 k2 q2 =>
            rw [rowsLinks]
            by_cases hk2 : k2 = KIND_SYMLINK
            · rw [if_pos hk2]
              have hne : sanitizeNames q2 ≠ P := by
                have := hshead _ h (Or.inl (by rw [rowKind]; exact hk2))
                rw [show rowPath (ScatterRow.dataRow c2 cp2 ip2 sz2 k2 q2) = sanitizeNames q2
                  from rfl] at this
                rw [show rowPath (ScatterRow.dataRow c cp ip sz KIND_SYMLINK q) = sanitizeNames q
                  from rfl] at this
                rw [hq] at this
                exact this
              rw [List.lookup_cons]
              rw [show (P == sanitizeNames q2) = false from
                beq_eq_false_iff_ne.mpr (fun hc => hne hc.symm)]
              exact ih hsrest ⟨c, cp, ip, sz, q, h, hq, hseg⟩
            · rw [if_neg hk2]
              exact ih hsrest ⟨c, cp, ip, sz, q, h, hq, hseg⟩

theorem items_ids_map (items : List ItemRow) (hseq : idsSeq items) :
    items.map (fun it => it.id) = (List.range items.length).map (fun k => k + 1) := by
  refine List.ext_getElem (by simp) ?_
  intro i h1 h2
  simp only [List.getElem_map, List.getElem_range]
  have := hseq i (by simpa using h1)
  simpa using this

theorem items_ids_nodup (items : List ItemRow) (hseq : idsSeq items) :
    (items.map (fun it => it.id)).Nodup := by
  rw [items_ids_map items hseq]
  have hinj : Function.Injective (fun k : Nat => k + 1) := fun a b h => Nat.succ_injective h
  exact List.Nodup.map hinj (List.nodup_range _)

theorem id_mem_index {items : List ItemRow} (hseq : idsSeq items) {it : ItemRow}
    (h : it ∈ items) : 1 ≤ it.id ∧ it.id ≤ items.length := by
  obtain ⟨k, hget⟩ := List.mem_iff_get.mp h
  have := hseq k.1 k.2
  rw [show (⟨k.1, k.2⟩ : Fin items.length) = k from rfl, hget] at this
  omega

theorem id_inj {items : List ItemRow} (hseq : idsSeq items) {it1 it2 : ItemRow}
    (h1 : it1 ∈ items) (h2 : it2 ∈ items) (hid : it1.id = it2.id) : it1 = it2 := by
  obtain ⟨k1, hg1⟩ := List.mem_iff_get.mp h1
  obtain ⟨k2, hg2⟩ := List.mem_iff_get.mp h2
  have e1 := hseq k1.1 k1.2
  have e2 := hseq k2.1 k2.2
  rw [show (⟨k1.1, k1.2⟩ : Fin items.length) = k1 from rfl, hg1] at e1
  rw [show (⟨k2.1, k2.2⟩ : Fin items.length) = k2 from rfl, hg2] at e2
  have hkk : k1.1 = k2.1 := by omega
  rw [← hg1, ← hg2]
  congr 1
  exact Fin.ext hkk

theorem chain_lt {items : List ItemRow} (hseq : idsSeq items) (hplt : parentLt items)
    {it : ItemRow} {P : List String} {n : Nat} (h : Chain items it P n) : n < it.id := by
  induction h with
  | root hmem hpar => exact (id_mem_index hseq hmem).1
  | child hch hkind hmem hpar ih =>
      rename_i pit it2 ppath n2
      have := hplt it2 hmem
      omega

theorem chain_det {items : List ItemRow} (hseq : idsSeq items)
    {it : ItemRow} {P : List String} {n : Nat} (h : Chain items it P n) :
    ∀ {P' : List String} {n' : Nat}, Chain items it P' n' → P = P' ∧ n = n' := by
  induction h with
  | root hmem hpar =>
      intro P' n' h2
      cases h2 with
      | root hmem2 hpar2 => exact ⟨rfl, rfl⟩
      | child hch2 hkind2 hmem2 hpar2 =>
          rename_i pit ppath n2
          have := (id_mem_index hseq (by
            cases hch2 with
            | root hm hp => exact hm
            | child hc hk hm hp => exact hm)).1
          omega
  | child hch hkind hmem hpar ih =>
      rename_i pit it2 ppath n2
      intro P' n' h2
      cases h2 with
      | root hmem2 hpar2 =>
          have := (id_mem_index hseq (by
            cases hch with
            | root hm hp => exact hm
            | child hc hk hm hp => exact hm)).1
          omega
      | child hch2 hkind2 hmem2 hpar2 =>
          rename_i pit2 ppath2 n3
          have hpiteq : pit2 = pit := by
            refine id_inj hseq ?_ ?_ (by omega)
            · cases hch2 with
              | root hm hp => exact hm
              | child hc hk hm hp => exact hm
            · cases hch with
              | root hm hp => exact hm
              | child hc hk hm hp => exact hm
          subst hpiteq
          obtain ⟨hp, hn⟩ := ih hch2
          exact ⟨by rw [hp], by rw [hn]⟩

theorem fitLevel_eq_flatten (items : List ItemRow) (L : List FitRow) :
    fitLevel items L = (L.map (childrenRows items)).flatten := by
  induction L with
  | nil => rfl
  | cons r t ih =>
      show childrenRows items r ++ fitLevel items t = _
      rw [ih]
      simp

theorem filter_map_ids_nodup (items : List ItemRow) (hseq : idsSeq items)
    (p : ItemRow → Bool) : ((items.filter p).map (fun it => it.id)).Nodup := by
  have hsub : (items.filter p).map (fun it => it.id) |>.Sublist (items.map (fun it => it.id)) :=
    (List.filter_sublist items).map _
  exact (items_ids_nodup items hseq).sublist hsub

theorem mem_children_ids {items : List ItemRow} {row : FitRow} {j : Nat}
    (h : j ∈ (childrenRows items row).map (fun r => r.id)) :
    ∃ it ∈ items, it.id = j ∧ it.parent = row.id := by
  unfold childrenRows at h
  by_cases hkd : row.kind = KIND_DIRECTORY
  · rw [if_pos hkd] at h
    rw [List.map_map] at h
    obtain ⟨it, hitf, hite⟩ := List.mem_map.mp h
    obtain ⟨hm, hp⟩ := List.mem_filter.mp hitf
    exact ⟨it, hm, hite, by simpa using hp⟩
  · rw [if_neg hkd] at h
    simp at h

theorem fitLevels_spec (items : List ItemRow) (hseq : idsSeq items) :
    ∀ k, (∀ r ∈ fitLevels items k, ∃ it, it ∈ items ∧ Chain items it r.path k ∧
        r.id = it.id ∧ r.kind = it.kind) ∧
      (∀ it P, Chain items it P k →
        ({ id := it.id, kind := it.kind, path := P } : FitRow) ∈ fitLevels items k) ∧
      ((fitLevels items k).map (fun r => r.id)).Nodup := by
  intro k
  induction k with
  | zero =>
      refine ⟨?_, ?_, ?_⟩
      · intro r hr
        simp only [fitLevels, List.mem_map, List.mem_filter] at hr
        obtain ⟨it, ⟨hmem, hpar⟩, hre⟩ := hr
        refine ⟨it, hmem, ?_, by rw [← hre], by rw [← hre]⟩
        rw [← hre]
        exact Chain.root hmem (by simpa using hpar)
      · intro it P hch
        cases hch with
        | root hmem hpar =>
            simp only [fitLevels, List.mem_map, List.mem_filter]
            exact ⟨it, ⟨hmem, by simpa using hpar⟩, rfl⟩
      · show ((((items.filter (fun it => it.parent = 0))).map
            (fun it => ({ id := it.id, kind := it.kind, path := [it.name] } : FitRow))).map
            (fun r => r.id)).Nodup
        rw [List.map_map]
        exact filter_map_ids_nodup items hseq _
  | succ k ih =>
      obtain ⟨ih1, ih2, ih3⟩ := ih
      have hflat : fitLevels items (k + 1) = ((fitLevels items k).map (childrenRows items)).flatten := by
        show fitLevel items (fitLevels items k) = _
        exact fitLevel_eq_flatten items _
      refine ⟨?_, ?_, ?_⟩
      · intro r hr
        rw [hflat, List.mem_flatten] at hr
        obtain ⟨l, hl, hrl⟩ := hr
        obtain ⟨row, hrow, hle⟩ := List.mem_map.mp hl
        subst hle
        obtain ⟨pit, hpmem, hpch, hpid, hpkind⟩ := ih1 row hrow
        unfold childrenRows at hrl
        by_cases hkd : row.kind = KIND_DIRECTORY
        · rw [if_pos hkd] at hrl
          obtain ⟨it, hitf, hite⟩ := List.mem_map.mp hrl
          obtain ⟨hitmem, hitpar⟩ := List.mem_filter.mp hitf
          refine ⟨it, hitmem, ?_, by rw [← hite], by rw [← hite]⟩
          rw [← hite]
          show Chain items it (row.path ++ [it.name]) (k + 1)
          exact Chain.child hpch (by rw [← hpkind]; exact hkd) hitmem
            (by rw [hpid] at hitpar; simpa using hitpar)
        · rw [if_neg hkd] at hrl
          exact absurd hrl (List.not_mem_nil r)
      · intro it P hch
        cases hch with
        | child hpch hpkind hitmem hitpar =>
            rename_i pit ppath
            rw [hflat, List.mem_flatten]
            refine ⟨childrenRows items { id := pit.id, kind := pit.kind, path := ppath }, ?_, ?_⟩
            · exact List.mem_map_of_mem _ (ih2 pit ppath hpch)
            · unfold childrenRows
              rw [if_pos (by simpa using hpkind)]
              refine List.mem_map.mpr ⟨it, ?_, rfl⟩
              refine List.mem_filter.mpr ⟨hitmem, by simpa using hitpar⟩
      · rw [hflat]
        rw [List.map_flatten]
        rw [List.nodup_flatten]
        constructor
        · intro l hl
          rw [List.map_map] at hl
          obtain ⟨row, hrow, hle⟩ := List.mem_map.mp hl
          subst hle
          show ((childrenRows items row).map (fun r => r.id)).Nodup
          unfold childrenRows
          by_cases hkd : row.kind = KIND_DIRECTORY
          · rw [if_pos hkd]
            rw [List.map_map]
            exact filter_map_ids_nodup items hseq _
          · rw [if_neg hkd]
            exact List.nodup_nil
        · rw [List.map_map]
          refine List.pairwise_map.mpr ?_
          have hpw : List.Pairwise (fun a b : FitRow => a.id ≠ b.id) (fitLevels items k) :=
            List.pairwise_map.mp ih3
          refine hpw.imp ?_
          intro a b hab j hja hjb
          obtain ⟨it1, hm1, hi1, hp1⟩ := mem_children_ids hja
          obtain ⟨it2, hm2, hi2, hp2⟩ := mem_children_ids hjb
          have heq : it1 = it2 := id_inj hseq hm1 hm2 (by omega)
          exact hab (by rw [← hp1, ← hp2, heq])

theorem fitAux_levels (items : List ItemRow) :
    ∀ (n k0 : Nat), fitAux items n (fitLevels items k0) =
      ((List.range n).map (fun i => fitLevels items (k0 + i))).flatten := by
  intro n
  induction n with
  | zero => intro k0; rfl
  | succ n ih =>
      intro k0
      show fitLevels items k0 ++ fitAux items n (fitLevel items (fitLevels items k0)) = _
      rw [show fitLevel items (fitLevels items k0) = fitLevels items (k0 + 1) from rfl]
      rw [ih (k0 + 1)]
      rw [List.range_succ_eq_map]
      rw [List.map_cons, List.flatten_cons, List.map_map]
      have hfun : ((fun i => fitLevels items (k0 + i)) ∘ Nat.succ) =
          fun i => fitLevels items (k0 + 1 + i) := by
        funext i
        show fitLevels items (k0 + (i + 1)) = fitLevels items (k0 + 1 + i)
        congr 1
        omega
      rw [hfun]
      congr 1

theorem fitRows_eq (items : List ItemRow) :
    fitRows items = ((List.range (items.length + 1)).map (fitLevels items)).flatten := by
  have h := fitAux_levels items (items.length + 1) 0
  have hseed : fitRows items = fitAux items (items.length + 1) (fitLevels items 0) := rfl
  rw [hseed, h]
  congr 1
  refine List.map_congr_left ?_
  intro i _
  congr 1
  omega

theorem fitRows_mem_of_chain {items : List ItemRow} (hseq : idsSeq items)
    (hplt : parentLt items) {it : ItemRow} {P : List String} {n : Nat}
    (hch : Chain items it P n) (hmem : it ∈ items) :
    ({ id := it.id, kind := it.kind, path := P } : FitRow) ∈ fitRows items := by
  rw [fitRows_eq, List.mem_flatten]
  refine ⟨fitLevels items n, ?_, (fitLevels_spec items hseq n).2.1 it P hch⟩
  refine List.mem_map_of_mem _ ?_
  rw [List.mem_range]
  have h1 := chain_lt hseq hplt hch
  have h2 := (id_mem_index hseq hmem).2
  omega

theorem fitRows_mem {items : List ItemRow} (hseq : idsSeq items) {r : FitRow}
    (hr : r ∈ fitRows items) :
    ∃ it n, it ∈ items ∧ Chain items it r.path n ∧ r.id = it.id ∧ r.kind = it.kind := by
  rw [fitRows_eq, List.mem_flatten] at hr
  obtain ⟨l, hl, hrl⟩ := hr
  obtain ⟨i, hi, hle⟩ := List.mem_map.mp hl
  subst hle
  obtain ⟨it, hm, hch, hid, hkind⟩ := (fitLevels_spec items hseq i).1 r hrl
  exact ⟨it, i, hm, hch, hid, hkind⟩

theorem mem_level_ids {items : List ItemRow} (hseq : idsSeq items) {k j : Nat}
    (h : j ∈ (fitLevels items k).map (fun r => r.id)) :
    ∃ it P, it ∈ items ∧ Chain items it P k ∧ it.id = j := by
  obtain ⟨r, hr, hre⟩ := List.mem_map.mp h
  obtain ⟨it, hm, hch, hid, _⟩ := (fitLevels_spec items hseq k).1 r hr
  exact ⟨it, r.path, hm, hch, by omega⟩

theorem fitRows_ids_nodup {items : List ItemRow} (hseq : idsSeq items) :
    ((fitRows items).map (fun r => r.id)).Nodup := by
  rw [fitRows_eq, List.map_flatten, List.nodup_flatten]
  constructor
  · intro l hl
    rw [List.map_map] at hl
    obtain ⟨i, hi, hle⟩ := List.mem_map.mp hl
    subst hle
    exact (fitLevels_spec items hseq i).2.2
  · rw [List.map_map]
    refine List.pairwise_map.mpr ?_
    have hlt : List.Pairwise (fun a b : Nat => a < b) (List.range (items.length + 1)) :=
      List.pairwise_lt_range _
    refine hlt.imp ?_
    intro a b hab j hja hjb
    obtain ⟨it1, P1, hm1, hch1, hi1⟩ := mem_level_ids hseq hja
    obtain ⟨it2, P2, hm2, hch2, hi2⟩ := mem_level_ids hseq hjb
    have heq : it1 = it2 := id_inj hseq hm1 hm2 (by omega)
    subst heq
    obtain ⟨_, hn⟩ := chain_det hseq hch1 hch2
    omega

theorem bundleBytes_flatten (l : List IncomingContent) :
    bundleBytes l = (l.map sliceBytes).flatten := by
  have hgen : ∀ (l : List IncomingContent) (acc : List Nat),
      l.foldl (fun acc s => acc ++ sliceBytes s) acc = acc ++ (l.map sliceBytes).flatten := by
    intro l
    induction l with
    | nil => intro acc; simp
    | cons s t ih =>
        intro acc
        rw [List.foldl_cons, ih]
        simp
  have := hgen l []
  simpa [bundleBytes] using this

theorem sumPending_bytes (l : List IncomingContent)
    (hlen : ∀ s ∈ l, (sliceBytes s).length = s.size) :
    (bundleBytes l).length = sumPending l := by
  rw [bundleBytes_flatten]
  induction l with
  | nil => rfl
  | cons s t ih =>
      simp only [List.map_cons, List.flatten_cons, List.length_append]
      rw [hlen s (List.mem_cons_self s t), ih (fun x hx => hlen x (List.mem_cons_of_mem s hx))]
      rfl

theorem bundle_segment_split (l1 l2 : List IncomingContent) (s : IncomingContent)
    (hlen1 : ∀ x ∈ l1, (sliceBytes x).length = x.size)
    (hs : (sliceBytes s).length = s.size) :
    segmentOf (bundleBytes (l1 ++ s :: l2)) (sumPending l1) s.size = sliceBytes s := by
  rw [bundleBytes_flatten, List.map_append, List.flatten_append]
  unfold segmentOf
  have hplen : ((l1.map sliceBytes).flatten).length = sumPending l1 := by
    rw [← bundleBytes_flatten]
    exact sumPending_bytes _ hlen1
  rw [List.drop_left' hplen]
  simp only [List.map_cons, List.flatten_cons]
  rw [List.take_left' hs]

theorem bundle_segment_mem (l : List IncomingContent)
    (hlen : ∀ x ∈ l, (sliceBytes x).length = x.size)
    (hpos : ∀ i, (h : i < l.length) → (l.get ⟨i, h⟩).contentpos = sumPending (l.take i)) :
    ∀ s ∈ l, segmentOf (bundleBytes l) s.contentpos s.size = sliceBytes s := by
  intro s hs
  obtain ⟨⟨i, hi⟩, hget⟩ := List.mem_iff_get.mp hs
  have hsplit : l = l.take i ++ s :: l.drop (i + 1) := by
    conv_lhs => rw [← List.take_append_drop i l]
    congr 1
    rw [← hget]
    exact (List.getElem_cons_drop l i hi).symm
  have hcp : s.contentpos = sumPending (l.take i) := by
    rw [← hget]
    exact hpos i hi
  rw [hcp, congrArg bundleBytes hsplit]
  exact bundle_segment_split _ _ _
    (fun x hx => hlen x (List.mem_of_mem_take hx)) (hlen s hs)

theorem posOK_flushed (c : List Nat → List Nat) (st : PackBuilder) : posOK (flushedSt c st) := by
  refine ⟨by simp [flushedSt, sumPending], ?_, ?_⟩
  · intro i h
    simp [flushedSt] at h
  · intro s hs
    simp [flushedSt] at hs

theorem rowsBounded_flushed (c : List Nat → List Nat) {st : PackBuilder}
    (hrb : rowsBounded st) : rowsBounded (flushedSt c st) := by
  intro r hr
  simp only [flushedSt, List.mem_append] at hr
  rcases hr with hr | hr
  · have := hrb r hr
    simp only [flushedSt, List.length_append, List.length_cons, List.length_nil]
    omega
  · obtain ⟨s, _, rfl⟩ := List.mem_map.mp hr
    simp only [flushRow, flushedSt, List.length_append, List.length_cons, List.length_nil]
    omega

theorem segment_flushed {c d : List Nat → List Nat} (hd : ∀ bs, d (c bs) = bs)
    {st : PackBuilder} (hw : posW st.contents) {s : IncomingContent} (hs : s ∈ st.contents) :
    segmentOf (d (c (bundleBytes st.contents))) s.contentpos s.size = sliceBytes s := by
  rw [hd]
  exact bundle_segment_mem st.contents hw.2 hw.1 s hs

theorem newBlob_at {c : List Nat → List Nat} (st : PackBuilder) :
    (st.contentRows ++ [c (bundleBytes st.contents)])[st.contentRows.length + 1 - 1]? =
      some (c (bundleBytes st.contents)) := by
  rw [Nat.add_sub_cancel]
  rw [List.getElem?_append_right (le_refl _)]
  simp

theorem oldBlob_at {c : List Nat → List Nat} {st : PackBuilder} {r : IcRow} {B : List Nat}
    (hrb : rowsBounded st) (hr : r ∈ st.itemcontentRows)
    (hB : st.contentRows[r.content - 1]? = some B) :
    (st.contentRows ++ [c (bundleBytes st.contents)])[r.content - 1]? = some B := by
  have := hrb r hr
  rw [List.getElem?_append_left (by omega)]
  exact hB

theorem insert_content_cat {c d : List Nat → List Nat}
    (hd : ∀ bs, d (c bs) = bs) {st : PackBuilder} {cat : List (Nat × EntryData)}
    (hw : posW st.contents) (hrb : rowsBounded st) (hcb : catBytes d st cat) :
    catBytes d (flushedSt c st) cat := by
  intro je hje
  have hcbje := hcb je hje
  cases hje2 : je.2 with
  | fileE D =>
      rw [hje2] at hcbje
      obtain ⟨hrows, hslices⟩ := hcbje
      refine ⟨?_, ?_⟩
      · intro r hr hitem
        simp only [flushedSt, List.mem_append] at hr
        rcases hr with hr | hr
        · obtain ⟨B, hB, hseg, hle⟩ := hrows r hr hitem
          exact ⟨B, oldBlob_at hrb hr hB, hseg, hle⟩
        · obtain ⟨s, hsmem, rfl⟩ := List.mem_map.mp hr
          obtain ⟨hdata, hkind, hle⟩ := hslices s hsmem (by simpa [flushRow] using hitem)
          refine ⟨c (bundleBytes st.contents), ?_, ?_, ?_⟩
          · show (st.contentRows ++ [c (bundleBytes st.contents)])[st.contentRows.length + 1 - 1]? = _
            exact newBlob_at st
          · show segmentOf (d (c (bundleBytes st.contents))) s.contentpos s.size =
              (D.drop s.itempos).take s.size
            rw [segment_flushed hd hw hsmem]
            unfold sliceBytes
            rw [if_pos hkind, hdata]
          · show s.itempos + s.size ≤ D.length
            exact hle
      · intro s hs
        simp [flushedSt] at hs
  | linkE T =>
      rw [hje2] at hcbje
      obtain ⟨hrows, hslices⟩ := hcbje
      refine ⟨?_, ?_⟩
      · intro r hr hitem
        simp only [flushedSt, List.mem_append] at hr
        rcases hr with hr | hr
        · obtain ⟨⟨B, hB, hseg, hle⟩, hip, hsz⟩ := hrows r hr hitem
          exact ⟨⟨B, oldBlob_at hrb hr hB, hseg, hle⟩, hip, hsz⟩
        · obtain ⟨s, hsmem, rfl⟩ := List.mem_map.mp hr
          obtain ⟨⟨hdata, hkind, hle⟩, hip, hsz⟩ := hslices s hsmem (by simpa [flushRow] using hitem)
          refine ⟨⟨c (bundleBytes st.contents), ?_, ?_, ?_⟩, ?_, ?_⟩
          · show (st.contentRows ++ [c (bundleBytes st.contents)])[st.contentRows.length + 1 - 1]? = _
            exact newBlob_at st
          · show segmentOf (d (c (bundleBytes st.contents))) s.contentpos s.size =
              (T.drop s.itempos).take s.size
            rw [segment_flushed hd hw hsmem]
            unfold sliceBytes
            rw [if_neg (by rw [hkind]; decide), if_pos hkind, hdata, hip]
            rw [hsz, List.drop_zero, List.take_length]
          · show s.itempos + s.size ≤ T.length
            exact hle
          · show s.itempos = 0
            exact hip
          · show s.size = T.length
            exact hsz
      · intro s hs
        simp [flushedSt] at hs
  | dirE =>
      rw [hje2] at hcbje
      obtain ⟨hrows, hslices⟩ := hcbje
      refine ⟨?_, ?_⟩
      · intro r hr
        simp only [flushedSt, List.mem_append] at hr
        rcases hr with hr | hr
        · exact hrows r hr
        · obtain ⟨s, hsmem, rfl⟩ := List.mem_map.mp hr
          have := hslices s hsmem
          simpa [flushRow] using this
      · intro s hs
        simp [flushedSt] at hs

theorem catBytes_push {d : List Nat → List Nat} {st : PackBuilder}
    {cat : List (Nat × EntryData)} {s : IncomingContent} {X : Nat}
    (hcb : catBytes d st cat)
    (hok : ∀ e, (s.item, e) ∈ cat →
      (e = EntryData.fileE s.data ∧ s.kind = KIND_FILE ∧ s.itempos + s.size ≤ s.data.length) ∨
      (e = EntryData.linkE s.data ∧ s.kind = KIND_SYMLINK ∧ s.itempos = 0 ∧
        s.size = s.data.length)) :
    catBytes d { st with contents := st.contents ++ [s], current_pos := X } cat := by
  intro je hje
  have h0 := hcb je hje
  cases hje2 : je.2 with
  | fileE D =>
      rw [hje2] at h0
      obtain ⟨hrows, hslices⟩ := h0
      refine ⟨hrows, ?_⟩
      intro s' hs' hitem
      rcases List.mem_append.mp hs' with hs' | hs'
      · exact hslices s' hs' hitem
      · rw [List.mem_singleton] at hs'
        subst hs'
        have hin : (s'.item, je.2) ∈ cat := by
          rw [hitem]
          simpa using hje
        rcases hok je.2 hin with ⟨he, hk, hle⟩ | ⟨he, _, _, _⟩
        · rw [hje2] at he
          cases he
          exact ⟨rfl, hk, hle⟩
        · rw [hje2] at he
          cases he
  | linkE T =>
      rw [hje2] at h0
      obtain ⟨hrows, hslices⟩ := h0
      refine ⟨hrows, ?_⟩
      intro s' hs' hitem
      rcases List.mem_append.mp hs' with hs' | hs'
      · exact hslices s' hs' hitem
      · rw [List.mem_singleton] at hs'
        subst hs'
        have hin : (s'.item, je.2) ∈ cat := by
          rw [hitem]
          simpa using hje
        rcases hok je.2 hin with ⟨he, _, _⟩ | ⟨he, hk, hip, hsz⟩
        · rw [hje2] at he
          cases he
        · rw [hje2] at he
          cases he
          exact ⟨⟨rfl, hk, by omega⟩, hip, hsz⟩
  | dirE =>
      rw [hje2] at h0
      obtain ⟨hrows, hslices⟩ := h0
      refine ⟨hrows, ?_⟩
      intro s' hs'
      rcases List.mem_append.mp hs' with hs' | hs'
      · exact hslices s' hs'
      · rw [List.mem_singleton] at hs'
        subst hs'
        intro hitem
        have hin : (s'.item, je.2) ∈ cat := by
          rw [hitem]
          simpa using hje
        rcases hok je.2 hin with ⟨he, _, _⟩ | ⟨he, _, _, _⟩
        · rw [hje2] at he
          cases he
        · rw [hje2] at he
          cases he

theorem posW_push {l : List IncomingContent} {s : IncomingContent}
    (hw : posW l) (hcp : s.contentpos = sumPending l)
    (hlen : (sliceBytes s).length = s.size) : posW (l ++ [s]) := by
  obtain ⟨h2, h3⟩ := hw
  refine ⟨?_, ?_⟩
  · intro i h
    have hlt : i < l.length + 1 := by simpa using h
    show ((l ++ [s]).get ⟨i, by simp; omega⟩).contentpos = sumPending ((l ++ [s]).take i)
    by_cases hi : i < l.length
    · have hget : (l ++ [s]).get ⟨i, by simp; omega⟩ = l.get ⟨i, hi⟩ :=
        List.get_append i hi
      rw [hget]
      have htake : (l ++ [s]).take i = l.take i := by
        rw [List.take_append_eq_append_take]
        rw [Nat.sub_eq_zero_of_le (le_of_lt hi)]
        simp
      rw [htake]
      exact h2 i hi
    · have hieq : i = l.length := by omega
      subst hieq
      have hget : (l ++ [s]).get ⟨l.length, by simp⟩ = s := by
        rw [List.get_append_right] <;> simp
      rw [hget]
      rw [List.take_left]
      exact hcp
  · intro s' hs'
    rcases List.mem_append.mp hs' with hs3 | hs3
    · exact h3 s' hs3
    · rw [List.mem_singleton] at hs3
      subst hs3
      exact hlen

theorem posOK_push {st : PackBuilder} {s : IncomingContent}
    (hpos : posOK st) (hcp : s.contentpos = st.current_pos)
    (hlen : (sliceBytes s).length = s.size) :
    posOK { st with contents := st.contents ++ [s], current_pos := st.current_pos + s.size } := by
  obtain ⟨h1, hwp⟩ := hpos
  refine ⟨?_, posW_push hwp (by rw [hcp, h1]) hlen⟩
  show st.current_pos + s.size = sumPending (st.contents ++ [s])
  rw [sumPending_append, h1]

theorem add_file_loop_cat {c d : List Nat → List Nat} {b : List Nat → Nat}
    (hb : ∀ bs, b bs = bs.length) (hd : ∀ bs, d (c bs) = bs)
    (D : List Nat) (j : Nat) (cat : List (Nat × EntryData))
    (hj : ∀ e, (j, e) ∈ cat → e = EntryData.fileE D) :
    ∀ (st : PackBuilder) (ip size : Nat) (st2 : PackBuilder),
      add_file_loop c b D j st ip size = Except.ok st2 →
      ip + size = D.length →
      posOK st → rowsBounded st → catBytes d st cat →
      posOK st2 ∧ rowsBounded st2 ∧ catBytes d st2 cat := by
  intro st ip size
  induction st, ip, size using add_file_loop.induct c b D j with
  | case1 st ip size h1 h2 =>
      intro st2 heq _ _ _ _
      unfold add_file_loop at heq
      rw [if_pos h1, if_pos h2] at heq
      cases heq
  | case2 st ip size h1 h2 rem st1 e heq =>
      intro st2 hrun _ _ _ _
      rw [insert_content_ok hb] at heq
      cases heq
  | case3 st ip size h1 h2 rem st1 stf heq ih =>
      intro st2 hrun hlen hpos hrb hcb
      have hrun2 := (add_file_loop_split hb h1 h2).symm.trans hrun
      rw [insert_content_ok hb] at heq
      cases heq
      have hsz : BUNDLE_SIZE - st.current_pos ≤ size := by omega
      have hle1 : ip + (BUNDLE_SIZE - st.current_pos) ≤ D.length := by omega
      have hslice : (sliceBytes (fileSlice D j ip st.current_pos
          (BUNDLE_SIZE - st.current_pos))).length =
          (fileSlice D j ip st.current_pos (BUNDLE_SIZE - st.current_pos)).size := by
        show ((D.drop ip).take (BUNDLE_SIZE - st.current_pos)).length = BUNDLE_SIZE - st.current_pos
        simp only [List.length_take, List.length_drop]
        omega
      have hw1 : posW (st.contents ++ [fileSlice D j ip st.current_pos
          (BUNDLE_SIZE - st.current_pos)]) :=
        posW_push hpos.2 (by rw [← hpos.1]; rfl) hslice
      have hcb1 : catBytes d ({ st with contents := st.contents ++ [fileSlice D j ip st.current_pos (BUNDLE_SIZE - st.current_pos)], current_pos := st.current_pos } : PackBuilder) cat := by
        refine catBytes_push hcb ?_
        intro e he
        left
        have := hj e he
        refine ⟨by rw [this]; rfl, rfl, ?_⟩
        show ip + (BUNDLE_SIZE - st.current_pos) ≤ D.length
        exact hle1
      have hcb1' : catBytes d ({ st with contents := st.contents ++ [fileSlice D j ip st.current_pos (BUNDLE_SIZE - st.current_pos)] } : PackBuilder) cat := hcb1
      have hflush := @insert_content_cat c d hd
        ({ st with contents := st.contents ++ [fileSlice D j ip st.current_pos (BUNDLE_SIZE - st.current_pos)] }) cat hw1 hrb hcb1'
      refine ih st2 hrun2 (by omega)
        (posOK_flushed c ({ st with contents := st.contents ++ [fileSlice D j ip st.current_pos (BUNDLE_SIZE - st.current_pos)] }))
        (@rowsBounded_flushed c ({ st with contents := st.contents ++ [fileSlice D j ip st.current_pos (BUNDLE_SIZE - st.current_pos)] }) hrb) hflush
  | case4 st ip size h =>
      intro st2 heq hlen hpos hrb hcb
      rw [add_file_loop_fit h] at heq
      cases heq
      have hslice : (sliceBytes (fileSlice D j ip st.current_pos size)).length =
          (fileSlice D j ip st.current_pos size).size := by
        show ((D.drop ip).take size).length = size
        simp only [List.length_take, List.length_drop]
        omega
      refine ⟨posOK_push hpos rfl hslice, hrb, ?_⟩
      refine catBytes_push hcb ?_
      intro e he
      left
      have := hj e he
      refine ⟨by rw [this]; rfl, rfl, ?_⟩
      show ip + size ≤ D.length
      omega

theorem chain_mono {items : List ItemRow} {ext : List ItemRow} {it : ItemRow}
    {P : List String} {n : Nat} (h : Chain items it P n) : Chain (items ++ ext) it P n := by
  induction h with
  | root hmem hpar => exact Chain.root (List.mem_append_left _ hmem) hpar
  | child hch hkind hmem hpar ih =>
      exact Chain.child ih hkind (List.mem_append_left _ hmem) hpar

theorem idsSeq_append {items : List ItemRow} (hseq : idsSeq items) (it : ItemRow)
    (hid : it.id = items.length + 1) : idsSeq (items ++ [it]) := by
  intro k h
  simp only [List.length_append, List.length_cons, List.length_nil] at h
  by_cases hk : k < items.length
  · have : (items ++ [it]).get ⟨k, by simp; omega⟩ = items.get ⟨k, hk⟩ := List.get_append k hk
    rw [this]
    exact hseq k hk
  · have hke : k = items.length := by omega
    subst hke
    have : (items ++ [it]).get ⟨items.length, by simp⟩ = it := by
      rw [List.get_append_right] <;> simp
    rw [this]
    exact hid

theorem parentLt_append {items : List ItemRow} (hplt : parentLt items) (it : ItemRow)
    (hid : it.parent < it.id) : parentLt (items ++ [it]) := by
  intro x hx
  rcases List.mem_append.mp hx with hx | hx
  · exact hplt x hx
  · rw [List.mem_singleton] at hx
    subst hx
    exact hid

theorem catBytes_items_irrel {d : List Nat → List Nat} {st : PackBuilder}
    {cat : List (Nat × EntryData)} (hcb : catBytes d st cat) (its : List ItemRow) :
    catBytes d { st with items := its } cat := hcb

theorem catSpecs_grow_dir {st : PackBuilder} {cat : List (Nat × EntryData)}
    (hcs : catSpecs st cat) (its : List ItemRow) :
    catSpecs { st with items := its } cat := hcs

theorem add_directory_cat {d : List Nat → List Nat} {st : PackBuilder}
    {cat : List (Nat × EntryData)} (hinv : buildInv d st cat)
    (n : String) (p : Nat) (hp : p ≤ st.items.length) :
    buildInv d (add_directory st n p).1 (cat ++ [(st.items.length + 1, EntryData.dirE)]) ∧
    (add_directory st n p).1.items = st.items ++
      [{ id := st.items.length + 1, parent := p, kind := KIND_DIRECTORY, name := n }] ∧
    (add_directory st n p).2 = st.items.length + 1 := by
  obtain ⟨hseq, hplt, hids, hrb, hpos, hcb, hcs, hcatids⟩ := hinv
  refine ⟨⟨?_, ?_, ?_, hrb, hpos, ?_, ?_, ?_⟩, rfl, rfl⟩
  · exact idsSeq_append hseq _ rfl
  · exact parentLt_append hplt _ (by show p < st.items.length + 1; omega)
  · exact idsBounded_grow hids _
  · intro je hje
    rcases List.mem_append.mp hje with hje | hje
    · exact hcb je hje
    · rw [List.mem_singleton] at hje
      subst hje
      refine ⟨?_, ?_⟩
      · intro r hr hitem
        have := hids.1 r hr
        omega
      · intro s hs hitem
        have := hids.2 s hs
        omega
  · intro je hje
    rcases List.mem_append.mp hje with hje | hje
    · have := hcs je hje
      cases hje2 : je.2 with
      | fileE D => rw [hje2] at this; exact this
      | linkE T => rw [hje2] at this; exact this
      | dirE => rw [hje2] at this; exact this
    · rw [List.mem_singleton] at hje
      subst hje
      show itemSpecs (add_directory st n p).1 (st.items.length + 1) = []
      rw [itemSpecs_add_directory]
      exact itemSpecs_nil_of_fresh hids (by omega)
  · intro je hje
    rcases List.mem_append.mp hje with hje | hje
    · have := hcatids je hje
      simp only [add_directory, List.length_append, List.length_cons, List.length_nil]
      omega
    · rw [List.mem_singleton] at hje
      subst hje
      simp only [add_directory, List.length_append, List.length_cons, List.length_nil]
      omega

theorem loopSizes_ne_nil : ∀ cp size, loopSizes cp size ≠ [] := by
  intro cp size
  induction cp, size using loopSizes.induct with
  | case1 cp size h ih =>
      rw [loopSizes_split h]
      exact List.cons_ne_nil _ _
  | case2 cp size h =>
      rw [loopSizes_fit h]
      exact List.cons_ne_nil _ _

theorem add_symlink_cat {d : List Nat → List Nat} {st : PackBuilder}
    {cat : List (Nat × EntryData)} (hinv : buildInv d st cat)
    (n : String) (T : List Nat) (p : Nat) (hp : p ≤ st.items.length) :
    buildInv d (add_symlink st n T p).1 (cat ++ [(st.items.length + 1, EntryData.linkE T)]) ∧
    (add_symlink st n T p).1.items = st.items ++
      [{ id := st.items.length + 1, parent := p, kind := KIND_SYMLINK, name := n }] ∧
    (add_symlink st n T p).2 = st.items.length + 1 := by
  obtain ⟨hseq, hplt, hids, hrb, hpos, hcb, hcs, hcatids⟩ := hinv
  have hslicelen : (sliceBytes (linkSlice T (st.items.length + 1) st.current_pos)).length =
      (linkSlice T (st.items.length + 1) st.current_pos).size := by
    show (sliceBytes (linkSlice T (st.items.length + 1) st.current_pos)).length = T.length
    simp [sliceBytes, linkSlice, KIND_SYMLINK, KIND_FILE]
  have hproj : (linkSlice T (st.items.length + 1) st.current_pos).item = st.items.length + 1 ∧ (linkSlice T (st.items.length + 1) st.current_pos).data = T ∧ (linkSlice T (st.items.length + 1) st.current_pos).kind = KIND_SYMLINK ∧ (linkSlice T (st.items.length + 1) st.current_pos).itempos = 0 ∧ (linkSlice T (st.items.length + 1) st.current_pos).size = T.length := ⟨rfl, rfl, rfl, rfl, rfl⟩
  have hcb0 : catBytes d ({ st with items := st.items ++ [{ id := st.items.length + 1, parent := p, kind := KIND_SYMLINK, name := n }] } : PackBuilder) (cat ++ [(st.items.length + 1, EntryData.linkE T)]) := by
    intro je hje
    rcases List.mem_append.mp hje with hje | hje
    · exact hcb je hje
    · rw [List.mem_singleton] at hje
      subst hje
      refine ⟨?_, ?_⟩
      · intro r hr hitem
        have := hids.1 r hr
        omega
      · intro s hs hitem
        have := hids.2 s hs
        omega
  refine ⟨⟨?_, ?_, ?_, hrb, ?_, ?_, ?_, ?_⟩, rfl, rfl⟩
  · exact idsSeq_append hseq _ rfl
  · exact parentLt_append hplt _ (by show p < st.items.length + 1; omega)
  · exact idsBounded_add_symlink hids n T p
  · show posOK (add_symlink st n T p).1
    have := @posOK_push ({ st with items := st.items ++ [{ id := st.items.length + 1, parent := p, kind := KIND_SYMLINK, name := n }] } : PackBuilder) (linkSlice T (st.items.length + 1) st.current_pos) hpos rfl hslicelen
    exact this
  · show catBytes d (add_symlink st n T p).1 _
    have := @catBytes_push d ({ st with items := st.items ++ [{ id := st.items.length + 1, parent := p, kind := KIND_SYMLINK, name := n }] } : PackBuilder) (cat ++ [(st.items.length + 1, EntryData.linkE T)]) (linkSlice T (st.items.length + 1) st.current_pos) (st.current_pos + T.length) hcb0 ?_
    · exact this
    · intro e he
      rcases List.mem_append.mp he with he | he
      · have h1 := (hcatids _ he).2
        have h2 := hproj.1
        exfalso
        omega
      · rw [List.mem_singleton] at he
        have he2 : e = EntryData.linkE T := congrArg Prod.snd he
        right
        refine ⟨?_, hproj.2.2.1, hproj.2.2.2.1, ?_⟩
        · rw [he2, hproj.2.1]
        · rw [hproj.2.2.2.2, hproj.2.1]
  · intro je hje
    rcases List.mem_append.mp hje with hje | hje
    · have hcsje := hcs je hje
      have hne : ¬ (st.items.length + 1 = je.1) := by
        have := hcatids je hje
        omega
      have heqspecs : itemSpecs (add_symlink st n T p).1 je.1 = itemSpecs st je.1 :=
        itemSpecs_add_symlink st n T p je.1 hne
      cases hje2 : je.2 with
      | fileE D =>
          rw [hje2] at hcsje
          obtain ⟨sizes, h1, h2, h3⟩ := hcsje
          exact ⟨sizes, h1, by rw [heqspecs]; exact h2, h3⟩
      | linkE T2 =>
          rw [hje2] at hcsje
          show itemSpecs (add_symlink st n T p).1 je.1 = [(0, T2.length)]
          rw [heqspecs]
          exact hcsje
      | dirE =>
          rw [hje2] at hcsje
          show itemSpecs (add_symlink st n T p).1 je.1 = []
          rw [heqspecs]
          exact hcsje
    · rw [List.mem_singleton] at hje
      subst hje
      show itemSpecs (add_symlink st n T p).1 (st.items.length + 1) = [(0, T.length)]
      have heq : itemSpecs (add_symlink st n T p).1 (st.items.length + 1) =
          itemSpecs ({ ({ st with items := st.items ++ [{ id := st.items.length + 1, parent := p, kind := KIND_SYMLINK, name := n }] } : PackBuilder) with contents := st.contents ++ [linkSlice T (st.items.length + 1) st.current_pos] } : PackBuilder) (st.items.length + 1) := rfl
      rw [heq, itemSpecs_push]
      have hfresh : itemSpecs ({ st with items := st.items ++ [{ id := st.items.length + 1, parent := p, kind := KIND_SYMLINK, name := n }] } : PackBuilder) (st.items.length + 1) = [] := by
        show itemSpecs st (st.items.length + 1) = []
        exact itemSpecs_nil_of_fresh hids (by omega)
      rw [hfresh, List.nil_append, if_pos hproj.1]
      rw [hproj.2.2.2.1, hproj.2.2.2.2]
  · intro je hje
    rcases List.mem_append.mp hje with hje | hje
    · have := hcatids je hje
      rw [add_symlink_items]
      omega
    · rw [List.mem_singleton] at hje
      subst hje
      rw [add_symlink_items]
      omega

theorem add_file_cat {c d : List Nat → List Nat} {b : List Nat → Nat}
    (hb : ∀ bs, b bs = bs.length) (hd : ∀ bs, d (c bs) = bs)
    {st : PackBuilder} {cat : List (Nat × EntryData)} (hinv : buildInv d st cat)
    (n : String) (D : List Nat) (p : Nat) (hp : p ≤ st.items.length)
    {st1 : PackBuilder} {j : Nat}
    (hadd : add_file c b st n D p = Except.ok (st1, j)) :
    buildInv d st1 (cat ++ [(st.items.length + 1, EntryData.fileE D)]) ∧
    st1.items = st.items ++
      [{ id := st.items.length + 1, parent := p, kind := KIND_FILE, name := n }] ∧
    j = st.items.length + 1 := by
  obtain ⟨hseq, hplt, hids, hrb, hpos, hcb, hcs, hcatids⟩ := hinv
  obtain ⟨hjeq, hloop⟩ := add_file_ok hadd
  have hpos0 : posOK ({ st with items := st.items ++ [{ id := st.items.length + 1, parent := p, kind := KIND_FILE, name := n }] } : PackBuilder) := hpos
  have hrb0 : rowsBounded ({ st with items := st.items ++ [{ id := st.items.length + 1, parent := p, kind := KIND_FILE, name := n }] } : PackBuilder) := hrb
  have hcb2 : catBytes d ({ st with items := st.items ++ [{ id := st.items.length + 1, parent := p, kind := KIND_FILE, name := n }] } : PackBuilder) (cat ++ [(st.items.length + 1, EntryData.fileE D)]) := by
    intro je hje
    rcases List.mem_append.mp hje with hje | hje
    · exact hcb je hje
    · rw [List.mem_singleton] at hje
      subst hje
      refine ⟨?_, ?_⟩
      · intro r hr hitem
        have := hids.1 r hr
        exact absurd hitem (by omega)
      · intro s hs hitem
        have := hids.2 s hs
        exact absurd hitem (by omega)
  have hjcat : ∀ e, (st.items.length + 1, e) ∈ cat ++ [(st.items.length + 1, EntryData.fileE D)] → e = EntryData.fileE D := by
    intro e he
    rcases List.mem_append.mp he with he | he
    · have h2 : st.items.length + 1 ≤ st.items.length := (hcatids _ he).2
      exact absurd h2 (by omega)
    · rw [List.mem_singleton] at he
      exact congrArg Prod.snd he
  have hloopcat := add_file_loop_cat hb hd D (st.items.length + 1) (cat ++ [(st.items.length + 1, EntryData.fileE D)]) hjcat ({ st with items := st.items ++ [{ id := st.items.length + 1, parent := p, kind := KIND_FILE, name := n }] } : PackBuilder) 0 D.length st1 hloop (by omega) hpos0 hrb0 hcb2
  obtain ⟨hpos1, hrb1, hcb1⟩ := hloopcat
  obtain ⟨hsp, hitems1, hcple, hcrows⟩ := add_file_loop_spec hb D (st.items.length + 1) ({ st with items := st.items ++ [{ id := st.items.length + 1, parent := p, kind := KIND_FILE, name := n }] } : PackBuilder) 0 D.length st1 hloop
  have hids1 : idsBounded st1 := by
    refine add_file_loop_ids hb D (st.items.length + 1) ({ st with items := st.items ++ [{ id := st.items.length + 1, parent := p, kind := KIND_FILE, name := n }] } : PackBuilder) 0 D.length st1 hloop (idsBounded_grow hids _) (by omega) ?_
    show st.items.length + 1 ≤ (st.items ++ [({ id := st.items.length + 1, parent := p, kind := KIND_FILE, name := n } : ItemRow)]).length
    simp
  have hlen1 : st1.items.length = st.items.length + 1 := by
    rw [hitems1]
    show (st.items ++ [({ id := st.items.length + 1, parent := p, kind := KIND_FILE, name := n } : ItemRow)]).length = st.items.length + 1
    simp
  refine ⟨⟨?_, ?_, hids1, hrb1, hpos1, hcb1, ?_, ?_⟩, hitems1, hjeq⟩
  · rw [hitems1]
    exact idsSeq_append hseq _ rfl
  · rw [hitems1]
    exact parentLt_append hplt _ (by show p < st.items.length + 1; omega)
  · intro je hje
    rcases List.mem_append.mp hje with hje | hje
    · have hcsje := hcs je hje
      have hne : ¬ (st.items.length + 1 = je.1) := by
        have := hcatids je hje
        omega
      have heqspecs : itemSpecs st1 je.1 = itemSpecs st je.1 := by
        rw [hsp je.1, if_neg hne, List.append_nil]
        rfl
      cases hje2 : je.2 with
      | fileE D2 =>
          rw [hje2] at hcsje
          obtain ⟨sizes, h1, h2, h3⟩ := hcsje
          exact ⟨sizes, h1, by rw [heqspecs]; exact h2, h3⟩
      | linkE T2 =>
          rw [hje2] at hcsje
          show itemSpecs st1 je.1 = [(0, T2.length)]
          rw [heqspecs]
          exact hcsje
      | dirE =>
          rw [hje2] at hcsje
          show itemSpecs st1 je.1 = []
          rw [heqspecs]
          exact hcsje
    · rw [List.mem_singleton] at hje
      subst hje
      show ∃ sizes, sizes ≠ [] ∧ itemSpecs st1 (st.items.length + 1) = specsFrom 0 sizes ∧ sizes.sum = D.length
      refine ⟨loopSizes st.current_pos D.length, loopSizes_ne_nil _ _, ?_, loopSizes_sum _ _⟩
      rw [hsp (st.items.length + 1), if_pos rfl]
      have hfresh : itemSpecs ({ st with items := st.items ++ [{ id := st.items.length + 1, parent := p, kind := KIND_FILE, name := n }] } : PackBuilder) (st.items.length + 1) = [] := by
        show itemSpecs st (st.items.length + 1) = []
        exact itemSpecs_nil_of_fresh hids (by omega)
      rw [hfresh, List.nil_append]
  · intro je hje
    rcases List.mem_append.mp hje with hje | hje
    · have := hcatids je hje
      omega
    · rw [List.mem_singleton] at hje
      subst hje
      show 1 ≤ st.items.length + 1 ∧ st.items.length + 1 ≤ st1.items.length
      omega

theorem idsBounded_flushed (c : List Nat → List Nat) {st : PackBuilder}
    (hid : idsBounded st) : idsBounded (flushedSt c st) := by
  constructor
  · intro r hr
    simp only [flushedSt, List.mem_append] at hr
    rcases hr with hr | hr
    · exact hid.1 r hr
    · obtain ⟨x, hx, rfl⟩ := List.mem_map.mp hr
      have := hid.2 x hx
      simp only [flushRow, flushedSt]
      exact this
  · intro x hx
    simp [flushedSt] at hx

theorem finish_cat {c d : List Nat → List Nat} {b : List Nat → Nat}
    (hb : ∀ bs, b bs = bs.length) (hd : ∀ bs, d (c bs) = bs)
    {st : PackBuilder} {cat : List (Nat × EntryData)} (hinv : buildInv d st cat) :
    ∃ st2, finish c b st = Except.ok st2 ∧ buildInv d st2 cat ∧
      st2.items = st.items ∧ st2.contents = [] := by
  obtain ⟨hseq, hplt, hids, hrb, hpos, hcb, hcs, hcatids⟩ := hinv
  by_cases hemp : st.contents.isEmpty
  · refine ⟨st, ?_, ⟨hseq, hplt, hids, hrb, hpos, hcb, hcs, hcatids⟩, rfl, ?_⟩
    · unfold finish
      rw [if_pos hemp]
    · exact List.isEmpty_iff.mp hemp
  · have hfin : finish c b st = Except.ok (flushedSt c st) := by
      unfold finish
      rw [if_neg hemp]
      exact process_contents_ok hb st
    refine ⟨flushedSt c st, hfin, ⟨hseq, hplt, idsBounded_flushed c hids,
      rowsBounded_flushed c hrb, posOK_flushed c st,
      insert_content_cat hd hpos.2 hrb hcb, ?_, ?_⟩, rfl, rfl⟩
    · intro je hje
      have hcsje := hcs je hje
      have heqspecs : itemSpecs (flushedSt c st) je.1 = itemSpecs st je.1 :=
        itemSpecs_flushed st (st.contentRows ++ [c (bundleBytes st.contents)])
          (st.contentRows.length + 1) je.1
      cases hje2 : je.2 with
      | fileE D =>
          rw [hje2] at hcsje
          obtain ⟨sizes, h1, h2, h3⟩ := hcsje
          exact ⟨sizes, h1, by rw [heqspecs]; exact h2, h3⟩
      | linkE T =>
          rw [hje2] at hcsje
          show itemSpecs (flushedSt c st) je.1 = [(0, T.length)]
          rw [heqspecs]
          exact hcsje
      | dirE =>
          rw [hje2] at hcsje
          show itemSpecs (flushedSt c st) je.1 = []
          rw [heqspecs]
          exact hcsje
    · intro je hje
      exact hcatids je hje

theorem weight_pos : ∀ t : FsNode, 1 ≤ t.weight := by
  intro t
  cases t with
  | file n d => simp [FsNode.weight]
  | symlink n t => simp [FsNode.weight]
  | dir n cs => simp [FsNode.weight]

theorem mem_weight_le {cs : List FsNode} {x : FsNode} (h : x ∈ cs) :
    x.weight ≤ weightList cs := by
  induction cs with
  | nil => exact absurd h (List.not_mem_nil _)
  | cons y rest ih =>
      rcases List.mem_cons.mp h with h | h
      · subst h
        simp [weightList]
      · have := ih h
        simp [weightList]
        omega

theorem nodupB_nodup : ∀ l : List String, nodupB l = true → l.Nodup := by
  intro l
  induction l with
  | nil => intro _; exact List.nodup_nil
  | cons x xs ih =>
      intro h
      rw [nodupB, Bool.and_eq_true, Bool.not_eq_true'] at h
      refine List.nodup_cons.mpr ⟨?_, ih h.2⟩
      intro hmem
      rw [List.contains_eq_any_beq] at h
      have : xs.any (x == ·) = true := by
        rw [List.any_eq_true]
        exact ⟨x, hmem, by simp⟩
      rw [this] at h
      exact absurd h.1 (by simp)

theorem entries_head : ∀ (x : FsNode), ∀ pe ∈ x.entries, ∃ tl, pe.1 = x.name :: tl := by
  intro x pe hpe
  cases x with
  | file n dta =>
      rw [FsNode.entries, List.mem_singleton] at hpe
      subst hpe
      exact ⟨[], rfl⟩
  | symlink n t =>
      rw [FsNode.entries, List.mem_singleton] at hpe
      subst hpe
      exact ⟨[], rfl⟩
  | dir n cs =>
      rw [FsNode.entries] at hpe
      rcases List.mem_cons.mp hpe with h | h
      · subst h
        exact ⟨[], rfl⟩
      · obtain ⟨q, _, hqe⟩ := List.mem_map.mp h
        subst hqe
        exact ⟨q.1, rfl⟩

theorem entriesList_mem_node : ∀ (cs : List FsNode), ∀ pe ∈ entriesList cs,
    ∃ x ∈ cs, pe ∈ x.entries := by
  intro cs
  induction cs with
  | nil => intro pe hpe; exact absurd hpe (by simp [entriesList])
  | cons x rest ih =>
      intro pe hpe
      rw [entriesList] at hpe
      rcases List.mem_append.mp hpe with h | h
      · exact ⟨x, List.mem_cons_self _ _, h⟩
      · obtain ⟨y, hy, hpe2⟩ := ih pe h
        exact ⟨y, List.mem_cons_of_mem _ hy, hpe2⟩

theorem wfList_mem {cs : List FsNode} (h : wfList cs = true) {x : FsNode} (hx : x ∈ cs) :
    x.wf = true := by
  induction cs with
  | nil => exact absurd hx (List.not_mem_nil _)
  | cons y rest ih =>
      rw [wfList, Bool.and_eq_true] at h
      rcases List.mem_cons.mp hx with hx | hx
      · subst hx; exact h.1
      · exact ih h.2 hx

theorem entriesList_wf_props : ∀ N : Nat, ∀ cs : List FsNode, weightList cs ≤ N →
    wfList cs = true → (childNames cs).Nodup →
    ((entriesList cs).map Prod.fst).Nodup ∧
    (∀ pe ∈ entriesList cs, pe.1 ≠ [] ∧ normalNames pe.1) := by
  intro N
  induction N with
  | zero =>
      intro cs hw _ _
      cases cs with
      | nil => exact ⟨by simp [entriesList], by simp [entriesList]⟩
      | cons x rest =>
          have := weight_pos x
          simp [weightList] at hw
          omega
  | succ N ih =>
      intro cs
      induction cs with
      | nil => intro _ _ _; exact ⟨by simp [entriesList], by simp [entriesList]⟩
      | cons x rest ihr =>
          intro hw hwf hnd
          rw [wfList, Bool.and_eq_true] at hwf
          have hnd2 : (childNames rest).Nodup ∧ x.name ∉ childNames rest := by
            have : (x.name :: childNames rest).Nodup := hnd
            rw [List.nodup_cons] at this
            exact ⟨this.2, this.1⟩
          have hwle : weightList rest ≤ N + 1 := by
            have := weight_pos x
            simp [weightList] at hw
            omega
          obtain ⟨hndA, hokA⟩ := ihr hwle hwf.2 hnd2.1
          have hxprops : ((FsNode.entries x).map Prod.fst).Nodup ∧
              (∀ pe ∈ FsNode.entries x, pe.1 ≠ [] ∧ normalNames pe.1) := by
            cases x with
            | file n dta =>
                refine ⟨by simp [FsNode.entries], ?_⟩
                intro pe hpe
                rw [FsNode.entries, List.mem_singleton] at hpe
                subst hpe
                refine ⟨by simp, ?_⟩
                intro nm hnm
                rw [List.mem_singleton] at hnm
                subst hnm
                exact hwf.1
            | symlink n t =>
                refine ⟨by simp [FsNode.entries], ?_⟩
                intro pe hpe
                rw [FsNode.entries, List.mem_singleton] at hpe
                subst hpe
                refine ⟨by simp, ?_⟩
                intro nm hnm
                rw [List.mem_singleton] at hnm
                subst hnm
                exact hwf.1
            | dir n cs2 =>
                have hwfd : FsNode.wf (FsNode.dir n cs2) = true := hwf.1
                rw [FsNode.wf, Bool.and_eq_true, Bool.and_eq_true] at hwfd
                have hw2 : weightList cs2 ≤ N := by
                  have : FsNode.weight (FsNode.dir n cs2) ≤ weightList (FsNode.dir n cs2 :: rest) :=
                    mem_weight_le (List.mem_cons_self _ _)
                  rw [FsNode.weight] at this
                  omega
                obtain ⟨hndI, hokI⟩ := ih cs2 hw2 hwfd.2 (nodupB_nodup _ hwfd.1.2)
                constructor
                · rw [FsNode.entries, List.map_cons, List.map_map]
                  refine List.nodup_cons.mpr ⟨?_, ?_⟩
                  · intro hmem
                    obtain ⟨q, hq, hqe⟩ := List.mem_map.mp hmem
                    have hne := (hokI q hq).1
                    have : q.1 = [] := by
                      have := congrArg List.tail hqe
                      simpa using this
                    exact hne this
                  · have hinj : Function.Injective (fun P : List String => n :: P) := by
                      intro a b h
                      simpa using h
                    have heq : (List.map (Prod.fst ∘ fun pe : List String × EntryData => (n :: pe.1, pe.2)) (entriesList cs2)) = List.map ((fun P => n :: P) ∘ Prod.fst) (entriesList cs2) := by
                      refine List.map_congr_left ?_
                      intro pe _
                      rfl
                    rw [heq, ← List.map_map]
                    exact List.Nodup.map hinj hndI
                · intro pe hpe
                  rw [FsNode.entries] at hpe
                  rcases List.mem_cons.mp hpe with h | h
                  · subst h
                    refine ⟨by simp, ?_⟩
                    intro nm hnm
                    rw [List.mem_singleton] at hnm
                    subst hnm
                    exact hwfd.1.1
                  · obtain ⟨q, hq, hqe⟩ := List.mem_map.mp h
                    subst hqe
                    refine ⟨by simp, ?_⟩
                    intro nm hnm
                    rcases List.mem_cons.mp hnm with h2 | h2
                    · subst h2; exact hwfd.1.1
                    · exact (hokI q hq).2 nm h2
          refine ⟨?_, ?_⟩
          · rw [entriesList, List.map_append]
            refine List.Nodup.append hxprops.1 hndA ?_
            intro P hP1 hP2
            obtain ⟨pe1, hpe1, hpe1e⟩ := List.mem_map.mp hP1
            obtain ⟨pe2, hpe2, hpe2e⟩ := List.mem_map.mp hP2
            obtain ⟨tl1, ht1⟩ := entries_head x pe1 hpe1
            obtain ⟨y, hy, hpe2y⟩ := entriesList_mem_node rest pe2 hpe2
            obtain ⟨tl2, ht2⟩ := entries_head y pe2 hpe2y
            have hname : x.name = y.name := by
              have h1 : P = x.name :: tl1 := by rw [← hpe1e, ht1]
              have h2 : P = y.name :: tl2 := by rw [← hpe2e, ht2]
              rw [h1] at h2
              exact (List.cons.injEq _ _ _ _ ▸ h2).1
            exact hnd2.2 (hname ▸ List.mem_map_of_mem FsNode.name hy)
          · intro pe hpe
            rw [entriesList] at hpe
            rcases List.mem_append.mp hpe with h | h
            · exact hxprops.2 pe h
            · exact hokA pe h

theorem childFramesA_eq (P : List String) (pid : Nat) (children : List FsNode) :
    childFramesA P pid children = (dirFrames P pid children).reverse := by
  have hgen : ∀ (cs : List FsNode) (acc : List (List String × Nat × String × List FsNode)),
      cs.foldl (fun acc ch => match ch with
        | FsNode.dir n cs2 => (P, pid, n, cs2) :: acc
        | _ => acc) acc = (dirFrames P pid cs).reverse ++ acc := by
    intro cs
    induction cs with
    | nil => intro acc; simp [dirFrames]
    | cons x rest ih =>
        intro acc
        cases x with
        | file n d =>
            rw [List.foldl_cons]
            show List.foldl _ acc rest = _
            rw [ih acc]
            rfl
        | symlink n t =>
            rw [List.foldl_cons]
            show List.foldl _ acc rest = _
            rw [ih acc]
            rfl
        | dir n cs2 =>
            rw [List.foldl_cons]
            show List.foldl _ ((P, pid, n, cs2) :: acc) rest = _
            rw [ih ((P, pid, n, cs2) :: acc)]
            rw [show dirFrames P pid (FsNode.dir n cs2 :: rest) = (P, pid, n, cs2) :: dirFrames P pid rest from rfl]
            simp
  have := hgen children []
  rw [childFramesA, this, List.append_nil]

theorem dirFrames_raw (P : List String) (pid : Nat) : ∀ children : List FsNode,
    (childFramesA P pid children).map (fun fr => fr.2) = childFrames pid children := by
  have hgen : ∀ (cs : List FsNode) (accA : List (List String × Nat × String × List FsNode))
      (acc : List (Nat × String × List FsNode)), accA.map (fun fr => fr.2) = acc →
      (cs.foldl (fun acc ch => match ch with
        | FsNode.dir n cs2 => (P, pid, n, cs2) :: acc
        | _ => acc) accA).map (fun fr => fr.2) = cs.foldl (childFramesStep pid) acc := by
    intro cs
    induction cs with
    | nil => intro accA acc h; simpa using h
    | cons x rest ih =>
        intro accA acc h
        cases x with
        | file n d =>
            rw [List.foldl_cons, List.foldl_cons]
            exact ih accA acc h
        | symlink n t =>
            rw [List.foldl_cons, List.foldl_cons]
            exact ih accA acc h
        | dir n cs2 =>
            rw [List.foldl_cons, List.foldl_cons]
            refine ih ((P, pid, n, cs2) :: accA) ((pid, n, cs2) :: acc) ?_
            rw [List.map_cons, h]
  intro children
  exact hgen children [] [] rfl

theorem entries_decompose (P : List String) (pid : Nat) : ∀ children : List FsNode,
    List.Perm ((entriesList children).map (fun pe => (P ++ pe.1, pe.2)))
      (nonDirEntries P children ++ ((dirFrames P pid children).map frameEntries).flatten) := by
  intro children
  induction children with
  | nil => simp [entriesList, nonDirEntries, dirFrames]
  | cons x rest ih =>
      rw [entriesList, List.map_append]
      cases x with
      | file n dta =>
          rw [show FsNode.entries (FsNode.file n dta) = [([n], EntryData.fileE dta)] from rfl]
          rw [show nonDirEntries P (FsNode.file n dta :: rest) = (P ++ [n], EntryData.fileE dta) :: nonDirEntries P rest from rfl]
          rw [show dirFrames P pid (FsNode.file n dta :: rest) = dirFrames P pid rest from rfl]
          rw [List.map_singleton]
          exact List.Perm.cons _ ih
      | symlink n t =>
          rw [show FsNode.entries (FsNode.symlink n t) = [([n], EntryData.linkE t)] from rfl]
          rw [show nonDirEntries P (FsNode.symlink n t :: rest) = (P ++ [n], EntryData.linkE t) :: nonDirEntries P rest from rfl]
          rw [show dirFrames P pid (FsNode.symlink n t :: rest) = dirFrames P pid rest from rfl]
          rw [List.map_singleton]
          exact List.Perm.cons _ ih
      | dir n cs2 =>
          rw [show nonDirEntries P (FsNode.dir n cs2 :: rest) = nonDirEntries P rest from rfl]
          rw [show dirFrames P pid (FsNode.dir n cs2 :: rest) = (P, pid, n, cs2) :: dirFrames P pid rest from rfl]
          rw [List.map_cons, List.flatten_cons]
          have hfe : (FsNode.entries (FsNode.dir n cs2)).map (fun pe => (P ++ pe.1, pe.2)) =
              frameEntries (P, pid, n, cs2) := rfl
          rw [hfe]
          refine List.Perm.trans (List.Perm.append_left (frameEntries (P, pid, n, cs2)) ih) ?_
          rw [← List.append_assoc, ← List.append_assoc]
          exact List.Perm.append_right _ List.perm_append_comm

theorem chain_prefix {items : List ItemRow} (hseq : idsSeq items) (hplt : parentLt items) :
    ∀ {it : ItemRow} {P : List String} {m : Nat}, Chain items it P m →
      ∀ k, 1 ≤ k → k ≤ P.length →
        ∃ it2 m2, it2 ∈ items ∧ Chain items it2 (P.take k) m2 ∧
          (k < P.length → it2.kind = KIND_DIRECTORY) ∧ (k = P.length → it2 = it) := by
  intro it P m hch
  induction hch with
  | root hmem hpar =>
      intro k hk1 hk2
      rename_i it0
      simp only [List.length_cons, List.length_nil] at hk2
      have hke : k = 1 := by omega
      subst hke
      refine ⟨it0, 0, hmem, ?_, by intro h; simp at h, fun _ => rfl⟩
      rw [show ([it0.name] : List String).take 1 = [it0.name] from rfl]
      exact Chain.root hmem hpar
  | child hch2 hkind hmem hpar ih =>
      intro k hk1 hk2
      rename_i pit it0 ppath n0
      by_cases hk : k ≤ ppath.length
      · obtain ⟨it2, m2, hmem2, hch3, hdir, hlast⟩ := ih k hk1 hk
        refine ⟨it2, m2, hmem2, ?_, fun _ => ?_, fun hke => ?_⟩
        · rw [List.take_append_of_le_length hk]
          exact hch3
        · by_cases hkl : k < ppath.length
          · exact hdir hkl
          · have hke : k = ppath.length := by omega
            rw [hlast hke]
            exact hkind
        · rw [List.length_append, List.length_cons, List.length_nil] at hke
          omega
      · have hke : k = ppath.length + 1 := by
          rw [List.length_append, List.length_cons, List.length_nil] at hk2
          omega
        refine ⟨it0, n0 + 1, hmem, ?_, by intro h; rw [List.length_append] at h; simp at h; omega, fun _ => rfl⟩
        rw [hke, show ppath.length + 1 = (ppath ++ [it0.name]).length by simp, List.take_length]
        exact Chain.child hch2 hkind hmem hpar

theorem nodup_append_one {α : Type} {l : List α} {p : α} (h : l.Nodup) (hp : p ∉ l) :
    (l ++ [p]).Nodup := by
  rw [List.nodup_append_comm]
  exact List.nodup_cons.mpr ⟨hp, h⟩

theorem pcatOK_extend {st st1 : PackBuilder} {pcat : List (Nat × List String × EntryData)}
    {it : ItemRow} {Pn : List String} {e : EntryData} {m : Nat}
    (hok : pcatOK st pcat) (heq : st1.items = st.items ++ [it])
    (hkm : kindMatches it.kind e) (hch : Chain st1.items it Pn m)
    (hne : Pn ≠ []) (hnorm : normalNames Pn)
    (hfresh : Pn ∉ pcat.map (fun y => y.2.1)) :
    pcatOK st1 (pcat ++ [(it.id, Pn, e)]) := by
  obtain ⟨hall, hcomp, hnd⟩ := hok
  refine ⟨?_, ?_, ?_⟩
  · intro x hx
    rcases List.mem_append.mp hx with hx | hx
    · obtain ⟨it0, m0, hmem0, hid0, hkm0, hch0, hne0, hn0⟩ := hall x hx
      refine ⟨it0, m0, ?_, hid0, hkm0, ?_, hne0, hn0⟩
      · rw [heq]; exact List.mem_append_left _ hmem0
      · rw [heq]; exact chain_mono hch0
    · rw [List.mem_singleton] at hx
      subst hx
      exact ⟨it, m, by rw [heq]; exact List.mem_append_right _ (List.mem_singleton_self it),
        rfl, hkm, hch, hne, hnorm⟩
  · intro it0 hit0
    rw [heq] at hit0
    rcases List.mem_append.mp hit0 with h | h
    · obtain ⟨x, hx, hxe⟩ := hcomp it0 h
      exact ⟨x, List.mem_append_left _ hx, hxe⟩
    · rw [List.mem_singleton] at h
      subst h
      exact ⟨(it0.id, Pn, e), List.mem_append_right _ (by simp), rfl⟩
  · rw [List.map_append]
    exact nodup_append_one hnd hfresh

theorem append_one_inj {P : List String} {a b : String} (h : P ++ [a] = P ++ [b]) :
    a = b := by
  have := List.append_cancel_left h
  simpa using this

theorem add_entries_cat {c d : List Nat → List Nat} {b : List Nat → Nat}
    (hb : ∀ bs, b bs = bs.length) (hd : ∀ bs, d (c bs) = bs) (P : List String) (j : Nat) :
    ∀ (ns : List FsNode) (st : PackBuilder) (fc : Nat)
      (pcat : List (Nat × List String × EntryData)) (st1 : PackBuilder) (fc1 : Nat),
      add_entries c b ns j st fc = Except.ok (st1, fc1) →
      walkInv d st pcat →
      (∃ it m, it ∈ st.items ∧ it.id = j ∧ it.kind = KIND_DIRECTORY ∧ Chain st.items it P m) →
      P ≠ [] → normalNames P →
      wfList ns = true →
      (childNames ns).Nodup →
      (∀ x ∈ ns, (P ++ [x.name]) ∉ pcat.map (fun y => y.2.1)) →
      ∃ ext extItems, walkInv d st1 (pcat ++ ext) ∧
        pcatPP ext = nonDirEntries P ns ∧
        st1.items = st.items ++ extItems := by
  intro ns
  induction ns with
  | nil =>
      intro st fc pcat st1 fc1 heq hinv _ _ _ _ _ _
      rw [add_entries] at heq
      obtain ⟨h1, h2⟩ := Prod.mk.injEq _ _ _ _ ▸ Except.ok.inj heq
      subst h1
      exact ⟨[], [], by simpa using hinv, rfl, by simp⟩
  | cons x rest ih =>
      intro st fc pcat st1 fc1 heq hinv hdir hPne hPnorm hwf hnames hfresh
      have hwfx : x.wf = true ∧ wfList rest = true := by
        rw [wfList, Bool.and_eq_true] at hwf
        exact hwf
      have hnames2 : (childNames rest).Nodup ∧ x.name ∉ childNames rest := by
        have : (x.name :: childNames rest).Nodup := hnames
        rw [List.nodup_cons] at this
        exact ⟨this.2, this.1⟩
      cases x with
      | dir n cs2 =>
          rw [add_entries] at heq
          obtain ⟨ext, extItems, h1, h2, h3⟩ := ih st fc pcat st1 fc1 heq hinv hdir hPne
            hPnorm hwfx.2 hnames2.1 (fun y hy => hfresh y (List.mem_cons_of_mem _ hy))
          exact ⟨ext, extItems, h1, h2, h3⟩
      | file n dta =>
          rw [add_entries] at heq
          cases hadd : add_file c b st n dta j with
          | error e =>
              rw [hadd] at heq
              cases heq
          | ok pr =>
              obtain ⟨stA, jA⟩ := pr
              rw [hadd] at heq
              obtain ⟨hbi, hok⟩ := hinv
              have hjle : j ≤ st.items.length := by
                obtain ⟨it, m, hmem, hid, _, _⟩ := hdir
                have := id_mem_index hbi.1 hmem
                omega
              obtain ⟨hbi2, hitems2, hjA⟩ := add_file_cat hb hd hbi n dta j hjle hadd
              obtain ⟨pit, m, hpmem, hpid, hpkind, hpch⟩ := hdir
              have hitnew : ({ id := st.items.length + 1, parent := j, kind := KIND_FILE, name := n } : ItemRow) ∈ stA.items := by
                rw [hitems2]
                exact List.mem_append_right _ (by simp)
              have hchnew : Chain stA.items ({ id := st.items.length + 1, parent := j, kind := KIND_FILE, name := n } : ItemRow) (P ++ [n]) (m + 1) := by
                have hpch2 : Chain stA.items pit P m := by
                  rw [hitems2]; exact chain_mono hpch
                exact Chain.child hpch2 hpkind hitnew (by show j = pit.id; omega)
              have hoknew : pcatOK stA (pcat ++ [(st.items.length + 1, P ++ [n], EntryData.fileE dta)]) := by
                refine pcatOK_extend hok hitems2 ?_ hchnew (by simp) ?_ (hfresh _ (List.mem_cons_self _ _))
                · exact rfl
                · intro nm hnm
                  rcases List.mem_append.mp hnm with h | h
                  · exact hPnorm nm h
                  · rw [List.mem_singleton] at h
                    subst h
                    rw [FsNode.wf] at hwfx
                    exact hwfx.1
              have hinv2 : walkInv d stA (pcat ++ [(st.items.length + 1, P ++ [n], EntryData.fileE dta)]) := by
                refine ⟨?_, hoknew⟩
                rw [show pcatProj (pcat ++ [(st.items.length + 1, P ++ [n], EntryData.fileE dta)]) = pcatProj pcat ++ [(st.items.length + 1, EntryData.fileE dta)] by simp [pcatProj]]
                exact hbi2
              have hdir2 : ∃ it m2, it ∈ stA.items ∧ it.id = j ∧ it.kind = KIND_DIRECTORY ∧
                  Chain stA.items it P m2 := by
                refine ⟨pit, m, ?_, hpid, hpkind, ?_⟩
                · rw [hitems2]; exact List.mem_append_left _ hpmem
                · rw [hitems2]; exact chain_mono hpch
              have hfresh2 : ∀ y ∈ rest, (P ++ [y.name]) ∉
                  (pcat ++ [(st.items.length + 1, P ++ [n], EntryData.fileE dta)]).map (fun z => z.2.1) := by
                intro y hy hmem
                rw [List.map_append, List.mem_append] at hmem
                rcases hmem with h | h
                · exact hfresh y (List.mem_cons_of_mem _ hy) h
                · rw [List.map_singleton, List.mem_singleton] at h
                  have := append_one_inj h
                  have hyname : y.name ∈ childNames rest := List.mem_map_of_mem FsNode.name hy
                  rw [this] at hyname
                  exact hnames2.2 hyname
              obtain ⟨ext, extItems, h1, h2, h3⟩ := ih stA (fc + 1)
                (pcat ++ [(st.items.length + 1, P ++ [n], EntryData.fileE dta)]) st1 fc1 heq
                hinv2 hdir2 hPne hPnorm hwfx.2 hnames2.1 hfresh2
              refine ⟨(st.items.length + 1, P ++ [n], EntryData.fileE dta) :: ext,
                ({ id := st.items.length + 1, parent := j, kind := KIND_FILE, name := n } : ItemRow) :: extItems, ?_, ?_, ?_⟩
              · rw [show pcat ++ (st.items.length + 1, P ++ [n], EntryData.fileE dta) :: ext = (pcat ++ [(st.items.length + 1, P ++ [n], EntryData.fileE dta)]) ++ ext by simp]
                exact h1
              · rw [show pcatPP ((st.items.length + 1, P ++ [n], EntryData.fileE dta) :: ext) = (P ++ [n], EntryData.fileE dta) :: pcatPP ext from rfl]
                rw [h2]
                rfl
              · rw [h3, hitems2]
                simp
      | symlink n t =>
          rw [add_entries] at heq
          obtain ⟨hbi, hok⟩ := hinv
          have hjle : j ≤ st.items.length := by
            obtain ⟨it, m, hmem, hid, _, _⟩ := hdir
            have := id_mem_index hbi.1 hmem
            omega
          obtain ⟨hbi2, hitems2, hjA⟩ := add_symlink_cat hbi n t j hjle
          obtain ⟨pit, m, hpmem, hpid, hpkind, hpch⟩ := hdir
          have hitnew : ({ id := st.items.length + 1, parent := j, kind := KIND_SYMLINK, name := n } : ItemRow) ∈ (add_symlink st n t j).1.items := by
            rw [hitems2]
            exact List.mem_append_right _ (by simp)
          have hchnew : Chain (add_symlink st n t j).1.items ({ id := st.items.length + 1, parent := j, kind := KIND_SYMLINK, name := n } : ItemRow) (P ++ [n]) (m + 1) := by
            have hpch2 : Chain (add_symlink st n t j).1.items pit P m := by
              rw [hitems2]; exact chain_mono hpch
            exact Chain.child hpch2 hpkind hitnew (by show j = pit.id; omega)
          have hoknew : pcatOK (add_symlink st n t j).1 (pcat ++ [(st.items.length + 1, P ++ [n], EntryData.linkE t)]) := by
            refine pcatOK_extend hok hitems2 ?_ hchnew (by simp) ?_ (hfresh _ (List.mem_cons_self _ _))
            · exact rfl
            · intro nm hnm
              rcases List.mem_append.mp hnm with h | h
              · exact hPnorm nm h
              · rw [List.mem_singleton] at h
                subst h
                rw [FsNode.wf] at hwfx
                exact hwfx.1
          have hinv2 : walkInv d (add_symlink st n t j).1 (pcat ++ [(st.items.length + 1, P ++ [n], EntryData.linkE t)]) := by
            refine ⟨?_, hoknew⟩
            rw [show pcatProj (pcat ++ [(st.items.length + 1, P ++ [n], EntryData.linkE t)]) = pcatProj pcat ++ [(st.items.length + 1, EntryData.linkE t)] by simp [pcatProj]]
            exact hbi2
          have hdir2 : ∃ it m2, it ∈ (add_symlink st n t j).1.items ∧ it.id = j ∧ it.kind = KIND_DIRECTORY ∧
              Chain (add_symlink st n t j).1.items it P m2 := by
            refine ⟨pit, m, ?_, hpid, hpkind, ?_⟩
            · rw [hitems2]; exact List.mem_append_left _ hpmem
            · rw [hitems2]; exact chain_mono hpch
          have hfresh2 : ∀ y ∈ rest, (P ++ [y.name]) ∉
              (pcat ++ [(st.items.length + 1, P ++ [n], EntryData.linkE t)]).map (fun z => z.2.1) := by
            intro y hy hmem
            rw [List.map_append, List.mem_append] at hmem
            rcases hmem with h | h
            · exact hfresh y (List.mem_cons_of_mem _ hy) h
            · rw [List.map_singleton, List.mem_singleton] at h
              have := append_one_inj h
              have hyname : y.name ∈ childNames rest := List.mem_map_of_mem FsNode.name hy
              rw [this] at hyname
              exact hnames2.2 hyname
          obtain ⟨ext, extItems, h1, h2, h3⟩ := ih (add_symlink st n t j).1 fc
            (pcat ++ [(st.items.length + 1, P ++ [n], EntryData.linkE t)]) st1 fc1 heq
            hinv2 hdir2 hPne hPnorm hwfx.2 hnames2.1 hfresh2
          refine ⟨(st.items.length + 1, P ++ [n], EntryData.linkE t) :: ext,
            ({ id := st.items.length + 1, parent := j, kind := KIND_SYMLINK, name := n } : ItemRow) :: extItems, ?_, ?_, ?_⟩
          · rw [show pcat ++ (st.items.length + 1, P ++ [n], EntryData.linkE t) :: ext = (pcat ++ [(st.items.length + 1, P ++ [n], EntryData.linkE t)]) ++ ext by simp]
            exact h1
          · rw [show pcatPP ((st.items.length + 1, P ++ [n], EntryData.linkE t) :: ext) = (P ++ [n], EntryData.linkE t) :: pcatPP ext from rfl]
            rw [h2]
            rfl
          · rw [h3, hitems2]
            simp

theorem frameWeight_append : ∀ A B : List (Nat × String × List FsNode),
    frameWeight (A ++ B) = frameWeight A + frameWeight B := by
  intro A
  induction A with
  | nil => intro B; simp [frameWeight]
  | cons hd tl ih =>
      intro B
      obtain ⟨p, n, cs⟩ := hd
      simp [frameWeight, ih]
      omega

theorem frameWeight_childFrames (pid : Nat) (cs : List FsNode) :
    frameWeight (childFrames pid cs) ≤ weightList cs := by
  have hcf : ∀ (cs : List FsNode) (acc : List (Nat × String × List FsNode)),
      frameWeight (cs.foldl (childFramesStep pid) acc) ≤ weightList cs + frameWeight acc := by
    intro cs2
    induction cs2 with
    | nil => intro acc; simp [weightList]
    | cons x xs ih =>
        intro acc
        rw [List.foldl_cons]
        refine le_trans (ih _) ?_
        cases x with
        | dir n cs3 =>
            simp only [weightList, FsNode.weight, frameWeight, childFramesStep]
            omega
        | file n d =>
            simp only [weightList, FsNode.weight, childFramesStep]
            omega
        | symlink n t =>
            simp only [weightList, FsNode.weight, childFramesStep]
            omega
  have := hcf cs []
  simp only [frameWeight] at this
  rw [childFrames]
  omega

theorem mem_dirFrames {P : List String} {pid : Nat} : ∀ {cs : List FsNode}
    {fr : List String × Nat × String × List FsNode}, fr ∈ dirFrames P pid cs →
    fr.1 = P ∧ fr.2.1 = pid ∧ FsNode.dir fr.2.2.1 fr.2.2.2 ∈ cs := by
  intro cs
  induction cs with
  | nil => intro fr h; exact absurd h (by simp [dirFrames])
  | cons x rest ih =>
      intro fr h
      cases x with
      | file n d =>
          rw [show dirFrames P pid (FsNode.file n d :: rest) = dirFrames P pid rest from rfl] at h
          obtain ⟨h1, h2, h3⟩ := ih h
          exact ⟨h1, h2, List.mem_cons_of_mem _ h3⟩
      | symlink n t =>
          rw [show dirFrames P pid (FsNode.symlink n t :: rest) = dirFrames P pid rest from rfl] at h
          obtain ⟨h1, h2, h3⟩ := ih h
          exact ⟨h1, h2, List.mem_cons_of_mem _ h3⟩
      | dir n cs2 =>
          rw [show dirFrames P pid (FsNode.dir n cs2 :: rest) = (P, pid, n, cs2) :: dirFrames P pid rest from rfl] at h
          rcases List.mem_cons.mp h with h | h
          · subst h
            exact ⟨rfl, rfl, List.mem_cons_self _ _⟩
          · obtain ⟨h1, h2, h3⟩ := ih h
            exact ⟨h1, h2, List.mem_cons_of_mem _ h3⟩

theorem node_head_entry : ∀ x : FsNode, ∃ e, ([x.name], e) ∈ x.entries := by
  intro x
  cases x with
  | file n d =>
      refine ⟨EntryData.fileE d, ?_⟩
      rw [FsNode.entries]
      exact List.mem_singleton_self _
  | symlink n t =>
      refine ⟨EntryData.linkE t, ?_⟩
      rw [FsNode.entries]
      exact List.mem_singleton_self _
  | dir n cs =>
      refine ⟨EntryData.dirE, ?_⟩
      rw [FsNode.entries]
      exact List.mem_cons_self _ _

theorem mem_entriesList : ∀ {cs : List FsNode} {x : FsNode}
    {pe : List String × EntryData}, x ∈ cs → pe ∈ x.entries → pe ∈ entriesList cs := by
  intro cs
  induction cs with
  | nil => intro x pe h _; exact absurd h (List.not_mem_nil _)
  | cons y rest ih =>
      intro x pe hx hpe
      rw [entriesList, List.mem_append]
      rcases List.mem_cons.mp hx with h | h
      · subst h
        exact Or.inl hpe
      · exact Or.inr (ih h hpe)

theorem frameEntries_cons (PP : List String) (p : Nat) (n : String) (cs : List FsNode) :
    frameEntries (PP, p, n, cs) = (PP ++ [n], EntryData.dirE) ::
      (entriesList cs).map (fun pe => ((PP ++ [n]) ++ pe.1, pe.2)) := by
  rw [frameEntries]
  rw [show (FsNode.dir (PP, p, n, cs).2.2.1 (PP, p, n, cs).2.2.2).entries =
    ([n], EntryData.dirE) :: (entriesList cs).map (fun pe => (n :: pe.1, pe.2)) from rfl]
  rw [List.map_cons, List.map_map]
  refine congrArg _ ?_
  refine List.map_congr_left ?_
  intro pe _
  show (PP ++ (n :: pe.1), pe.2) = ((PP ++ [n]) ++ pe.1, pe.2)
  rw [List.append_cons]

theorem childFramesA_entries_perm (P : List String) (pid : Nat) (cs : List FsNode) :
    List.Perm ((childFramesA P pid cs).map frameEntries).flatten
      ((dirFrames P pid cs).map frameEntries).flatten := by
  rw [childFramesA_eq, List.map_reverse]
  exact List.Perm.flatten (List.reverse_perm _)

theorem add_dir_all_loop_cons {c : List Nat → List Nat} {b : List Nat → Nat}
    (st : PackBuilder) (fc : Nat) (p : Nat) (n : String) (cs : List FsNode)
    (raw : List (Nat × String × List FsNode)) :
    add_dir_all_loop c b st fc ((p, n, cs) :: raw) =
      match add_entries c b cs (add_directory st n p).2 (add_directory st n p).1 fc with
      | Except.error e => Except.error e
      | Except.ok (st2, fc2) =>
          add_dir_all_loop c b st2 fc2 (childFrames (add_directory st n p).2 cs ++ raw) := by
  rw [add_dir_all_loop]

theorem perm_assemble {α : Type} (A NDp DFp CFEp R TEp E2p : List α) (Pq : α)
    (hTE : List.Perm TEp (NDp ++ DFp)) (hCF : List.Perm CFEp DFp) (hE2 : E2p = NDp) :
    List.Perm ((A ++ [Pq] ++ E2p) ++ (CFEp ++ R)) (A ++ (Pq :: (TEp ++ R))) := by
  rw [hE2]
  rw [List.append_assoc, List.append_assoc, List.singleton_append]
  refine List.Perm.append_left A ?_
  refine List.Perm.cons Pq ?_
  have h1 : List.Perm (TEp ++ R) (NDp ++ (DFp ++ R)) := by
    rw [← List.append_assoc]
    exact List.Perm.append_right R hTE
  have h2 : List.Perm (NDp ++ (CFEp ++ R)) (NDp ++ (DFp ++ R)) :=
    List.Perm.append_left NDp (List.Perm.append_right R hCF)
  exact List.Perm.trans h2 h1.symm

theorem perm_assemble2 {α : Type} (E2 E3 ND DFf CFEf restF TE : List α) (Pq : α)
    (hpp3 : List.Perm E3 (CFEf ++ restF)) (hCF : List.Perm CFEf DFf)
    (hTE : List.Perm TE (ND ++ DFf)) (hE2 : E2 = ND) :
    List.Perm (Pq :: (E2 ++ E3)) ((Pq :: TE) ++ restF) := by
  rw [hE2]
  rw [List.cons_append]
  refine List.Perm.cons Pq ?_
  have h1 : List.Perm (ND ++ E3) (ND ++ (CFEf ++ restF)) :=
    List.Perm.append_left ND hpp3
  have h2 : List.Perm (ND ++ (CFEf ++ restF)) (ND ++ (DFf ++ restF)) :=
    List.Perm.append_left ND (List.Perm.append_right restF hCF)
  have h3 : List.Perm (TE ++ restF) ((ND ++ DFf) ++ restF) :=
    List.Perm.append_right restF hTE
  rw [List.append_assoc] at h3
  exact List.Perm.trans (List.Perm.trans h1 h2) h3.symm

theorem add_dir_all_loop_cat {c d : List Nat → List Nat} {b : List Nat → Nat}
    (hb : ∀ bs, b bs = bs.length) (hd : ∀ bs, d (c bs) = bs) :
    ∀ (W : Nat) (frs : List (List String × Nat × String × List FsNode))
      (st : PackBuilder) (fc : Nat) (pcat : List (Nat × List String × EntryData))
      (st1 : PackBuilder) (fc1 : Nat),
      frameWeight (frs.map (fun fr => fr.2)) ≤ W →
      add_dir_all_loop c b st fc (frs.map (fun fr => fr.2)) = Except.ok (st1, fc1) →
      walkInv d st pcat →
      (∀ fr ∈ frs, frameOK st fr) →
      (pcat.map (fun y => y.2.1) ++ ((frs.map frameEntries).flatten).map Prod.fst).Nodup →
      ∃ ext extItems, walkInv d st1 (pcat ++ ext) ∧
        List.Perm (pcatPP ext) ((frs.map frameEntries).flatten) ∧
        st1.items = st.items ++ extItems := by
  intro W
  induction W with
  | zero =>
      intro frs st fc pcat st1 fc1 hw heq hinv hfr hnd
      cases frs with
      | nil =>
          rw [List.map_nil, add_dir_all_loop] at heq
          obtain ⟨h1, h2⟩ := Prod.mk.injEq _ _ _ _ ▸ Except.ok.inj heq
          subst h1
          refine ⟨[], [], by simpa using hinv, by simp [pcatPP], by simp⟩
      | cons fr frs2 =>
          obtain ⟨PP, p, n, cs⟩ := fr
          rw [List.map_cons] at hw
          rw [show frameWeight ((PP, p, n, cs).2 :: List.map (fun fr => fr.2) frs2) =
            1 + weightList cs + frameWeight (List.map (fun fr => fr.2) frs2) from rfl] at hw
          omega
  | succ W ih =>
      intro frs st fc pcat st1 fc1 hw heq hinv hfr hnd
      cases frs with
      | nil =>
          rw [List.map_nil, add_dir_all_loop] at heq
          obtain ⟨h1, h2⟩ := Prod.mk.injEq _ _ _ _ ▸ Except.ok.inj heq
          subst h1
          refine ⟨[], [], by simpa using hinv, by simp [pcatPP], by simp⟩
      | cons fr frs2 =>
          obtain ⟨PP, p, n, cs⟩ := fr
          have hfr0 := hfr (PP, p, n, cs) (List.mem_cons_self _ _)
          have hjust : (p = 0 ∧ PP = []) ∨ ∃ it m, it ∈ st.items ∧ it.id = p ∧
              it.kind = KIND_DIRECTORY ∧ Chain st.items it PP m := hfr0.1
          have hPPnorm : normalNames PP := hfr0.2.1
          have hwfdir : (FsNode.dir n cs).wf = true := hfr0.2.2
          have hwfd : isNormalName n = true ∧ nodupB (childNames cs) = true ∧ wfList cs = true := by
            have : FsNode.wf (FsNode.dir n cs) = true := hwfdir
            rw [FsNode.wf, Bool.and_eq_true, Bool.and_eq_true] at this
            exact ⟨this.1.1, this.1.2, this.2⟩
          obtain ⟨hbi, hok⟩ := hinv
          have hple : p ≤ st.items.length := by
            rcases hjust with ⟨hp0, _⟩ | ⟨it, m, hmem, hid, _, _⟩
            · omega
            · have := id_mem_index hbi.1 hmem
              omega
          obtain ⟨hbiD, hitemsD, hidD⟩ := add_directory_cat hbi n p hple
          rw [List.map_cons] at heq
          rw [show ((PP, p, n, cs).2 : Nat × String × List FsNode) = (p, n, cs) from rfl] at heq
          rw [add_dir_all_loop_cons] at heq
          cases hent : add_entries c b cs (add_directory st n p).2 (add_directory st n p).1 fc with
          | error e =>
              rw [hent] at heq
              cases heq
          | ok pr2 =>
              obtain ⟨st2, fc2⟩ := pr2
              rw [hent] at heq
              rw [hidD] at hent
              have hchD : Chain (add_directory st n p).1.items
                  ({ id := st.items.length + 1, parent := p, kind := KIND_DIRECTORY, name := n } : ItemRow)
                  (PP ++ [n]) (match hjust with | _ => 0) ∨ True := Or.inr trivial
              clear hchD
              have hmemD : ({ id := st.items.length + 1, parent := p, kind := KIND_DIRECTORY, name := n } : ItemRow) ∈ (add_directory st n p).1.items := by
                rw [hitemsD]
                exact List.mem_append_right _ (by simp)
              have hchainD : ∃ mD, Chain (add_directory st n p).1.items
                  ({ id := st.items.length + 1, parent := p, kind := KIND_DIRECTORY, name := n } : ItemRow)
                  (PP ++ [n]) mD := by
                rcases hjust with ⟨hp0, hPP0⟩ | ⟨pit, m, hpmem, hpid, hpkind, hpch⟩
                · refine ⟨0, ?_⟩
                  rw [hPP0, List.nil_append]
                  exact Chain.root hmemD (by show p = 0; omega)
                · refine ⟨m + 1, ?_⟩
                  have hpch2 : Chain (add_directory st n p).1.items pit PP m := by
                    rw [hitemsD]; exact chain_mono hpch
                  exact Chain.child hpch2 hpkind hmemD (by show p = pit.id; omega)
              obtain ⟨mD, hchainD⟩ := hchainD
              have hndnorm : ((pcat.map (fun y => y.2.1)) ++
                  (((PP ++ [n], EntryData.dirE) :: (entriesList cs).map (fun pe => ((PP ++ [n]) ++ pe.1, pe.2))).map Prod.fst ++
                    ((frs2.map frameEntries).flatten).map Prod.fst)).Nodup := by
                rw [List.map_cons, List.flatten_cons, List.map_append, frameEntries_cons] at hnd
                exact hnd
              rw [List.map_cons] at hndnorm
              have hdisj : (pcat.map (fun y => y.2.1)).Nodup ∧
                  (((PP ++ [n]) :: ((entriesList cs).map (fun pe => ((PP ++ [n]) ++ pe.1, pe.2))).map Prod.fst ++
                    ((frs2.map frameEntries).flatten).map Prod.fst)).Nodup ∧
                  List.Disjoint (pcat.map (fun y => y.2.1))
                    (((PP ++ [n]) :: ((entriesList cs).map (fun pe => ((PP ++ [n]) ++ pe.1, pe.2))).map Prod.fst ++
                      ((frs2.map frameEntries).flatten).map Prod.fst)) := by
                rw [List.cons_append] at hndnorm
                exact List.nodup_append.mp hndnorm
              have hfreshP : (PP ++ [n]) ∉ pcat.map (fun y => y.2.1) := by
                intro hmem
                exact hdisj.2.2 hmem (by rw [List.cons_append]; exact List.mem_cons_self _ _)
              have hnormP : normalNames (PP ++ [n]) := by
                intro nm hnm
                rcases List.mem_append.mp hnm with h | h
                · exact hPPnorm nm h
                · rw [List.mem_singleton] at h
                  subst h
                  exact hwfd.1
              have hokD : pcatOK (add_directory st n p).1
                  (pcat ++ [(st.items.length + 1, PP ++ [n], EntryData.dirE)]) := by
                refine pcatOK_extend hok hitemsD ?_ hchainD (by simp) hnormP hfreshP
                exact rfl
              have hinvD : walkInv d (add_directory st n p).1
                  (pcat ++ [(st.items.length + 1, PP ++ [n], EntryData.dirE)]) := by
                refine ⟨?_, hokD⟩
                rw [show pcatProj (pcat ++ [(st.items.length + 1, PP ++ [n], EntryData.dirE)]) = pcatProj pcat ++ [(st.items.length + 1, EntryData.dirE)] by simp [pcatProj]]
                exact hbiD
              have hdirD : ∃ it m2, it ∈ (add_directory st n p).1.items ∧
                  it.id = st.items.length + 1 ∧ it.kind = KIND_DIRECTORY ∧
                  Chain (add_directory st n p).1.items it (PP ++ [n]) m2 :=
                ⟨_, mD, hmemD, rfl, rfl, hchainD⟩
              have hfreshE : ∀ x ∈ cs, ((PP ++ [n]) ++ [x.name]) ∉
                  (pcat ++ [(st.items.length + 1, PP ++ [n], EntryData.dirE)]).map (fun y => y.2.1) := by
                intro x hx hmem
                rw [List.map_append, List.mem_append] at hmem
                obtain ⟨e0, he0⟩ := node_head_entry x
                have hin0 : (((PP ++ [n]) ++ [x.name], e0) : List String × EntryData) ∈
                    (entriesList cs).map (fun pe => ((PP ++ [n]) ++ pe.1, pe.2)) :=
                  List.mem_map_of_mem _ (mem_entriesList hx he0)
                have hintail : ((PP ++ [n]) ++ [x.name]) ∈
                    ((entriesList cs).map (fun pe => ((PP ++ [n]) ++ pe.1, pe.2))).map Prod.fst :=
                  List.mem_map_of_mem Prod.fst hin0
                rcases hmem with h | h
                · refine hdisj.2.2 h ?_
                  rw [List.cons_append]
                  exact List.mem_cons_of_mem _ (List.mem_append_left _ hintail)
                · rw [List.map_singleton, List.mem_singleton] at h
                  have := congrArg List.length h
                  simp at this
              obtain ⟨ext2, extItems2, hinv2, hpp2, hitems2⟩ := add_entries_cat hb hd
                (PP ++ [n]) (st.items.length + 1) cs (add_directory st n p).1 fc
                (pcat ++ [(st.items.length + 1, PP ++ [n], EntryData.dirE)]) st2 fc2 hent
                hinvD hdirD (by simp) hnormP hwfd.2.2 (nodupB_nodup _ hwfd.2.1) hfreshE
              have hTE := entries_decompose (PP ++ [n]) (st.items.length + 1) cs
              have hCF := childFramesA_entries_perm (PP ++ [n]) (st.items.length + 1) cs
              have hrawR : (childFramesA (PP ++ [n]) (st.items.length + 1) cs ++ frs2).map (fun fr => fr.2) =
                  childFrames (st.items.length + 1) cs ++ frs2.map (fun fr => fr.2) := by
                rw [List.map_append, dirFrames_raw]
              have heqR : add_dir_all_loop c b st2 fc2
                  ((childFramesA (PP ++ [n]) (st.items.length + 1) cs ++ frs2).map (fun fr => fr.2)) =
                  Except.ok (st1, fc1) := by
                rw [hrawR, ← hidD]
                exact heq
              have hwR : frameWeight ((childFramesA (PP ++ [n]) (st.items.length + 1) cs ++ frs2).map (fun fr => fr.2)) ≤ W := by
                rw [hrawR, frameWeight_append]
                have h1 := frameWeight_childFrames (st.items.length + 1) cs
                rw [List.map_cons, show ((PP, p, n, cs).2 : Nat × String × List FsNode) = (p, n, cs) from rfl] at hw
                rw [show frameWeight ((p, n, cs) :: List.map (fun fr => fr.2) frs2) =
                  1 + weightList cs + frameWeight (List.map (fun fr => fr.2) frs2) from rfl] at hw
                omega
              have hst2items : st2.items = st.items ++
                  (({ id := st.items.length + 1, parent := p, kind := KIND_DIRECTORY, name := n } : ItemRow) :: extItems2) := by
                rw [hitems2, hitemsD, List.append_assoc]
                rfl
              have hfrR : ∀ fr2 ∈ childFramesA (PP ++ [n]) (st.items.length + 1) cs ++ frs2,
                  frameOK st2 fr2 := by
                intro fr2 hfr2
                rcases List.mem_append.mp hfr2 with h | h
                · rw [childFramesA_eq, List.mem_reverse] at h
                  obtain ⟨h1, h2, h3⟩ := mem_dirFrames h
                  refine ⟨Or.inr ⟨{ id := st.items.length + 1, parent := p, kind := KIND_DIRECTORY, name := n }, mD, ?_, by rw [h2], rfl, ?_⟩, ?_, ?_⟩
                  · rw [hitems2]
                    exact List.mem_append_left _ hmemD
                  · rw [h1, hitems2]
                    exact chain_mono hchainD
                  · rw [h1]; exact hnormP
                  · exact wfList_mem hwfd.2.2 h3
                · obtain ⟨hj2, hn2, hw2⟩ := hfr fr2 (List.mem_cons_of_mem _ h)
                  refine ⟨?_, hn2, hw2⟩
                  rcases hj2 with h2 | ⟨it, m, hmem, hid, hkind, hch⟩
                  · exact Or.inl h2
                  · refine Or.inr ⟨it, m, ?_, hid, hkind, ?_⟩
                    · rw [hst2items]
                      exact List.mem_append_left _ hmem
                    · rw [hst2items]
                      exact chain_mono hch
              have hext2p : ext2.map (fun y => y.2.1) = (nonDirEntries (PP ++ [n]) cs).map Prod.fst := by
                have h1 : (pcatPP ext2).map Prod.fst = (nonDirEntries (PP ++ [n]) cs).map Prod.fst :=
                  congrArg (List.map Prod.fst) hpp2
                rw [pcatPP, List.map_map] at h1
                exact h1
              have hTEp : List.Perm
                  (((entriesList cs).map (fun pe => ((PP ++ [n]) ++ pe.1, pe.2))).map Prod.fst)
                  ((nonDirEntries (PP ++ [n]) cs).map Prod.fst ++
                    (((dirFrames (PP ++ [n]) (st.items.length + 1) cs).map frameEntries).flatten).map Prod.fst) := by
                have := hTE.map Prod.fst
                rw [List.map_append] at this
                exact this
              have hCFp : List.Perm
                  ((((childFramesA (PP ++ [n]) (st.items.length + 1) cs).map frameEntries).flatten).map Prod.fst)
                  ((((dirFrames (PP ++ [n]) (st.items.length + 1) cs).map frameEntries).flatten).map Prod.fst) :=
                hCF.map Prod.fst
              have hndR : ((pcat ++ [(st.items.length + 1, PP ++ [n], EntryData.dirE)] ++ ext2).map (fun y => y.2.1) ++
                  (((childFramesA (PP ++ [n]) (st.items.length + 1) cs ++ frs2).map frameEntries).flatten).map Prod.fst).Nodup := by
                have hperm : List.Perm
                    ((pcat ++ [(st.items.length + 1, PP ++ [n], EntryData.dirE)] ++ ext2).map (fun y => y.2.1) ++
                      (((childFramesA (PP ++ [n]) (st.items.length + 1) cs ++ frs2).map frameEntries).flatten).map Prod.fst)
                    ((pcat.map (fun y => y.2.1)) ++
                      ((PP ++ [n]) :: (((entriesList cs).map (fun pe => ((PP ++ [n]) ++ pe.1, pe.2))).map Prod.fst ++
                        ((frs2.map frameEntries).flatten).map Prod.fst))) := by
                  rw [List.map_append, List.map_append,
                    show (([(st.items.length + 1, PP ++ [n], EntryData.dirE)] : List (Nat × List String × EntryData)).map (fun y => y.2.1)) = [PP ++ [n]] from rfl,
                    List.map_append, List.flatten_append, List.map_append, hext2p]
                  exact perm_assemble _ _ _ _ _ _ _ _ hTEp hCFp rfl
                refine hperm.nodup_iff.mpr ?_
                exact hndnorm
              obtain ⟨ext3, extItems3, hinv3, hpp3, hitems3⟩ := ih
                (childFramesA (PP ++ [n]) (st.items.length + 1) cs ++ frs2) st2 fc2
                (pcat ++ [(st.items.length + 1, PP ++ [n], EntryData.dirE)] ++ ext2) st1 fc1
                hwR heqR hinv2 hfrR hndR
              refine ⟨(st.items.length + 1, PP ++ [n], EntryData.dirE) :: (ext2 ++ ext3),
                ({ id := st.items.length + 1, parent := p, kind := KIND_DIRECTORY, name := n } : ItemRow) :: (extItems2 ++ extItems3), ?_, ?_, ?_⟩
              · rw [show pcat ++ (st.items.length + 1, PP ++ [n], EntryData.dirE) :: (ext2 ++ ext3) =
                  pcat ++ [(st.items.length + 1, PP ++ [n], EntryData.dirE)] ++ ext2 ++ ext3 by simp]
                exact hinv3
              · rw [List.map_cons, List.flatten_cons, frameEntries_cons]
                rw [show pcatPP ((st.items.length + 1, PP ++ [n], EntryData.dirE) :: (ext2 ++ ext3)) =
                  (PP ++ [n], EntryData.dirE) :: (pcatPP ext2 ++ pcatPP ext3) by simp [pcatPP]]
                have hpp3b : List.Perm (pcatPP ext3)
                    (((childFramesA (PP ++ [n]) (st.items.length + 1) cs).map frameEntries).flatten ++
                      (frs2.map frameEntries).flatten) := by
                  rw [List.map_append, List.flatten_append] at hpp3
                  exact hpp3
                exact perm_assemble2 _ _ _ _ _ _ _ _ hpp3b hCF hTE hpp2
              · rw [hitems3, hst2items]
                simp

theorem buildInv_new (d : List Nat → List Nat) : buildInv d PackBuilder.new [] := by
  refine ⟨?_, ?_, ⟨?_, ?_⟩, ?_, ⟨rfl, ?_, ?_⟩, ?_, ?_, ?_⟩
  · intro k h
    simp [PackBuilder.new] at h
  · intro it h
    simp [PackBuilder.new] at h
  · intro r h
    simp [PackBuilder.new] at h
  · intro s h
    simp [PackBuilder.new] at h
  · intro r h
    simp [PackBuilder.new] at h
  · intro i h
    simp [PackBuilder.new] at h
  · intro s h
    simp [PackBuilder.new] at h
  · intro je h
    simp at h
  · intro je h
    simp at h
  · intro je h
    simp at h

theorem pcatOK_items_eq {st st2 : PackBuilder} {pcat : List (Nat × List String × EntryData)}
    (h : st2.items = st.items) (hok : pcatOK st pcat) : pcatOK st2 pcat := by
  obtain ⟨h1, h2, h3⟩ := hok
  refine ⟨?_, ?_, h3⟩
  · intro x hx
    obtain ⟨it, m, hmem, hrest⟩ := h1 x hx
    exact ⟨it, m, by rw [h]; exact hmem, hrest.1, hrest.2.1, by rw [h]; exact hrest.2.2.1,
      hrest.2.2.2.1, hrest.2.2.2.2⟩
  · intro it hit
    rw [h] at hit
    exact h2 it hit

theorem create_one_dir {c d : List Nat → List Nat} {b : List Nat → Nat}
    (hb : ∀ bs, b bs = bs.length) (hd : ∀ bs, d (c bs) = bs)
    (bn : String) (cs : List FsNode) (hwf : (FsNode.dir bn cs).wf = true)
    {db : ArchiveDb} {fcn : Nat}
    (hcr : create_archive c b [FsNode.dir bn cs] = Except.ok (db, fcn)) :
    ∃ stF pcat, db = stF.db ∧ stF.contents = [] ∧ walkInv d stF pcat ∧
      List.Perm (pcatPP pcat) ((FsNode.dir bn cs).entries) := by
  rw [create_archive] at hcr
  cases han : create_inputs c b [FsNode.dir bn cs] PackBuilder.new 0 with
  | error e =>
      rw [han] at hcr
      cases hcr
  | ok pr =>
      obtain ⟨stW, k⟩ := pr
      rw [han] at hcr
      have han2 : (match add_dir_all c b PackBuilder.new bn cs with
          | Except.error e => Except.error e
          | Except.ok (st1, k2) => create_inputs c b [] st1 (0 + k2)) =
          Except.ok (stW, k) := han
      cases hadd : add_dir_all c b PackBuilder.new bn cs with
      | error e =>
          rw [hadd] at han2
          cases han2
      | ok pr2 =>
          obtain ⟨stW2, k2⟩ := pr2
          rw [hadd] at han2
          have han3 : (Except.ok (stW2, 0 + k2) : Except Error (PackBuilder × Nat)) =
              Except.ok (stW, k) := han2
          obtain ⟨hW, hk⟩ := Prod.mk.injEq _ _ _ _ ▸ Except.ok.inj han3
          subst hW
          rw [add_dir_all] at hadd
          have hseedmap : ([(0, bn, cs)] : List (Nat × String × List FsNode)) =
              ([(([] : List String), 0, bn, cs)]).map (fun fr => fr.2) := rfl
          rw [hseedmap] at hadd
          have hinv0 : walkInv d PackBuilder.new [] := by
            refine ⟨buildInv_new d, ?_, ?_, ?_⟩
            · intro x hx
              exact absurd hx (List.not_mem_nil _)
            · intro it hit
              simp [PackBuilder.new] at hit
            · simp
          have hfr0 : ∀ fr ∈ ([(([] : List String), 0, bn, cs)] :
              List (List String × Nat × String × List FsNode)), frameOK PackBuilder.new fr := by
            intro fr hfr
            rw [List.mem_singleton] at hfr
            subst hfr
            refine ⟨Or.inl ⟨rfl, rfl⟩, ?_, hwf⟩
            intro nm hnm
            exact absurd hnm (List.not_mem_nil _)
          have hwfl : wfList [FsNode.dir bn cs] = true := by
            rw [wfList, hwf, wfList]
            rfl
          have hentnodup : ((entriesList [FsNode.dir bn cs]).map Prod.fst).Nodup := by
            refine (entriesList_wf_props (weightList [FsNode.dir bn cs]) _ (le_refl _) hwfl ?_).1
            show ([bn] : List String).Nodup
            simp
          have hentr : entriesList [FsNode.dir bn cs] = (FsNode.dir bn cs).entries := by
            rw [entriesList, entriesList, List.append_nil]
          have hfid : (fun pe : List String × EntryData => (([] : List String) ++ pe.1, pe.2)) = id := by
            funext pe
            show (pe.1, pe.2) = pe
            rfl
          have hseedent : (([(([] : List String), 0, bn, cs)] :
              List (List String × Nat × String × List FsNode)).map frameEntries).flatten =
              (FsNode.dir bn cs).entries := by
            rw [List.map_singleton]
            rw [show frameEntries ((([] : List String), 0, bn, cs)) =
              (FsNode.dir bn cs).entries.map (fun pe => (([] : List String) ++ pe.1, pe.2)) from rfl]
            rw [hfid, List.map_id]
            simp
          have hnd0 : ((([] : List (Nat × List String × EntryData)).map (fun y => y.2.1)) ++
              ((([(([] : List String), 0, bn, cs)] :
                List (List String × Nat × String × List FsNode)).map frameEntries).flatten).map Prod.fst).Nodup := by
            rw [List.map_nil, List.nil_append, hseedent]
            rw [← hentr]
            exact hentnodup
          obtain ⟨ext, extItems, hinvW, hppW, hitemsW⟩ := add_dir_all_loop_cat hb hd
            (frameWeight [((0 : Nat), bn, cs)]) [(([] : List String), 0, bn, cs)]
            PackBuilder.new 0 [] stW2 k2 (le_refl _) hadd hinv0 hfr0 hnd0
          rw [List.nil_append] at hinvW
          have hcr2 : (match finish c b stW2 with
              | Except.error e => Except.error e
              | Except.ok st1 => Except.ok (st1.db, k)) = Except.ok (db, fcn) := hcr
          cases hfin : finish c b stW2 with
          | error e =>
              rw [hfin] at hcr2
              cases hcr2
          | ok stF =>
              rw [hfin] at hcr2
              obtain ⟨hdb, hfc⟩ := Prod.mk.injEq _ _ _ _ ▸ Except.ok.inj hcr2
              obtain ⟨stF2, hfin2, hbiF, hitemsF, hcontF⟩ := finish_cat hb hd hinvW.1
              rw [hfin] at hfin2
              have hFeq : stF = stF2 := Except.ok.inj hfin2
              subst hFeq
              refine ⟨stF, ext, hdb.symm, hcontF, ⟨hbiF, ?_⟩, ?_⟩
              · exact pcatOK_items_eq hitemsF hinvW.2
              · rw [← hseedent]
                exact hppW

theorem joinRows_eq (db : ArchiveDb) :
    joinRows db = ((indexedFiles db.items).map (blockOf db)).flatten := by
  rw [joinRows]
  induction indexedFiles db.items with
  | nil => rfl
  | cons f rest ih =>
      rw [List.foldr_cons, List.map_cons, List.flatten_cons, ih]
      rfl

theorem mem_joinRows {db : ArchiveDb} {row : ScatterRow} :
    row ∈ joinRows db ↔ ∃ f ∈ indexedFiles db.items, row ∈ blockOf db f := by
  rw [joinRows_eq, List.mem_flatten]
  constructor
  · rintro ⟨l, hl, hrow⟩
    obtain ⟨f, hf, hfe⟩ := List.mem_map.mp hl
    exact ⟨f, hf, hfe ▸ hrow⟩
  · rintro ⟨f, hf, hrow⟩
    exact ⟨blockOf db f, List.mem_map_of_mem _ hf, hrow⟩

/-- In a catalogued final state, every `IndexedFiles` row is a non-directory
catalog entry: same id, same path, matching kind. -/
theorem indexedFiles_catalog {st : PackBuilder} {pcat : List (Nat × List String × EntryData)}
    (hseq : idsSeq st.items) (hok : pcatOK st pcat) {f : FitRow}
    (hf : f ∈ indexedFiles st.items) :
    ∃ x ∈ pcat, x.1 = f.id ∧ x.2.1 = f.path ∧ kindMatches f.kind x.2.2 ∧
      ¬ (f.kind = KIND_DIRECTORY) := by
  rw [indexedFiles, List.mem_filter] at hf
  obtain ⟨hfit, hkind⟩ := hf
  obtain ⟨it, m, hmem, hch, hid, hk⟩ := fitRows_mem hseq hfit
  obtain ⟨x, hx, hxid⟩ := hok.2.1 it hmem
  obtain ⟨it2, m2, hmem2, hid2, hkm2, hch2, hne2, hnorm2⟩ := hok.1 x hx
  have hiteq : it2 = it := id_inj hseq hmem2 hmem (by omega)
  subst hiteq
  obtain ⟨hpeq, _⟩ := chain_det hseq hch2 hch
  refine ⟨x, hx, by omega, by rw [← hpeq], ?_, by simpa using hkind⟩
  rw [hk]
  exact hkm2

/-- Conversely, every non-directory catalog entry yields an `IndexedFiles`
row at its id and path. -/
theorem catalog_indexedFiles {st : PackBuilder} {pcat : List (Nat × List String × EntryData)}
    (hseq : idsSeq st.items) (hplt : parentLt st.items) (hok : pcatOK st pcat)
    {x : Nat × List String × EntryData} (hx : x ∈ pcat) {k : Nat}
    (hkm : kindMatches k x.2.2) (hkd : ¬ (k = KIND_DIRECTORY)) :
    ({ id := x.1, kind := k, path := x.2.1 } : FitRow) ∈ indexedFiles st.items := by
  obtain ⟨it, m, hmem, hid, hkm2, hch, hne, hnorm⟩ := hok.1 x hx
  have hkeq : k = it.kind := by
    cases he : x.2.2 with
    | fileE D =>
        rw [he] at hkm hkm2
        rw [hkm, hkm2]
    | linkE T =>
        rw [he] at hkm hkm2
        rw [hkm, hkm2]
    | dirE =>
        rw [he] at hkm
        exact absurd hkm hkd
  rw [indexedFiles, List.mem_filter]
  constructor
  · have := fitRows_mem_of_chain hseq hplt hch hmem
    rw [show ({ id := x.1, kind := k, path := x.2.1 } : FitRow) =
      { id := it.id, kind := it.kind, path := x.2.1 } by rw [hid, hkeq]]
    exact this
  · show decide (({ id := x.1, kind := k, path := x.2.1 } : FitRow).kind ≠ KIND_DIRECTORY) = true
    simpa using hkd

/-- With no pending slices, the recorded specs of an item are exactly its
`itemcontent` rows' `(itempos, size)` pairs. -/
theorem itemSpecs_no_pending {st : PackBuilder} (hc : st.contents = []) (i : Nat) :
    itemSpecs st i = (rowsOf st.db i).map (fun r => (r.itempos, r.size)) := by
  rw [itemSpecs, hc]
  rw [show (([] : List IncomingContent).filter (fun s => s.item = i)).map (fun s => (s.itempos, s.size)) = [] from rfl]
  rw [List.append_nil]
  rfl

/-- Path injectivity of a catalog. -/
theorem pcat_path_inj {st : PackBuilder} {pcat : List (Nat × List String × EntryData)}
    (hok : pcatOK st pcat) {x1 x2 : Nat × List String × EntryData}
    (h1 : x1 ∈ pcat) (h2 : x2 ∈ pcat) (hp : x1.2.1 = x2.2.1) : x1 = x2 :=
  List.inj_on_of_nodup_map hok.2.2 h1 h2 hp

theorem kindMatches_iff {k : Nat} {e : EntryData} : kindMatches k e ↔ k = kindOfE e := by
  cases e with
  | fileE D => exact Iff.rfl
  | dirE => exact Iff.rfl
  | linkE T => exact Iff.rfl

theorem sanitizeNames_normal {P : List String} (h : normalNames P) :
    sanitizeNames P = P := by
  rw [sanitizeNames]
  exact List.filter_eq_self.mpr h

theorem specs_of_entry {d : List Nat → List Nat} {stF : PackBuilder}
    {pcat : List (Nat × List String × EntryData)}
    (hbi : buildInv d stF (pcatProj pcat)) (hcont : stF.contents = [])
    {x : Nat × List String × EntryData} (hx : x ∈ pcat) :
    match x.2.2 with
    | EntryData.fileE D => ∃ sizes, sizes ≠ [] ∧
        (rowsOf stF.db x.1).map (fun r => (r.itempos, r.size)) = specsFrom 0 sizes ∧
        sizes.sum = D.length
    | EntryData.linkE T => ∃ r, rowsOf stF.db x.1 = [r] ∧ r.itempos = 0 ∧ r.size = T.length
    | EntryData.dirE => rowsOf stF.db x.1 = [] := by
  have hje : ((x.1, x.2.2) : Nat × EntryData) ∈ pcatProj pcat := by
    rw [pcatProj]
    exact List.mem_map_of_mem _ hx
  have hcs := hbi.2.2.2.2.2.2.1 (x.1, x.2.2) hje
  have hspecs := itemSpecs_no_pending hcont x.1
  cases he : x.2.2 with
  | fileE D =>
      rw [he] at hcs
      obtain ⟨sizes, h1, h2, h3⟩ := hcs
      refine ⟨sizes, h1, ?_, h3⟩
      rw [← hspecs]
      exact h2
  | linkE T =>
      rw [he] at hcs
      rw [hspecs] at hcs
      cases hrw : rowsOf stF.db x.1 with
      | nil =>
          rw [hrw] at hcs
          cases hcs
      | cons r t =>
          rw [hrw, List.map_cons] at hcs
          have ht : t.map (fun r => (r.itempos, r.size)) = [] := by
            have := congrArg List.tail hcs
            simpa using this
          have hrv : ((r.itempos, r.size) : Nat × Nat) = (0, T.length) := by
            have := congrArg List.head? hcs
            simpa using this
          refine ⟨r, ?_, ?_, ?_⟩
          · rw [List.map_eq_nil_iff] at ht
            rw [ht]
          · exact (Prod.mk.injEq _ _ _ _ ▸ hrv).1
          · exact (Prod.mk.injEq _ _ _ _ ▸ hrv).2
  | dirE =>
      rw [he] at hcs
      rw [hspecs] at hcs
      rw [List.map_eq_nil_iff] at hcs
      exact hcs

theorem bytes_of_entry {d : List Nat → List Nat} {stF : PackBuilder}
    {pcat : List (Nat × List String × EntryData)}
    (hbi : buildInv d stF (pcatProj pcat))
    {x : Nat × List String × EntryData} (hx : x ∈ pcat)
    {r : IcRow} (hr : r ∈ rowsOf stF.db x.1) :
    match x.2.2 with
    | EntryData.fileE D => entryRowOK d stF D r
    | EntryData.linkE T => entryRowOK d stF T r ∧ r.itempos = 0 ∧ r.size = T.length
    | EntryData.dirE => False := by
  have hje : ((x.1, x.2.2) : Nat × EntryData) ∈ pcatProj pcat := by
    rw [pcatProj]
    exact List.mem_map_of_mem _ hx
  have hcb := hbi.2.2.2.2.2.1 (x.1, x.2.2) hje
  rw [rowsOf, List.mem_filter] at hr
  have hritem : r.item = x.1 := by
    have := hr.2
    simpa using this
  have hrmem : r ∈ stF.itemcontentRows := hr.1
  cases he : x.2.2 with
  | fileE D =>
      rw [he] at hcb
      exact hcb.1 r hrmem hritem
  | linkE T =>
      rw [he] at hcb
      exact hcb.1 r hrmem hritem
  | dirE =>
      rw [he] at hcb
      exact hcb.1 r hrmem hritem

theorem blobOf_row {d : List Nat → List Nat} {stF : PackBuilder}
    {pcat : List (Nat × List String × EntryData)}
    (hbi : buildInv d stF (pcatProj pcat))
    {r : IcRow} (hrmem : r ∈ stF.itemcontentRows) {B : List Nat}
    (hB : stF.contentRows[r.content - 1]? = some B) :
    blobOf stF.db r.content = some B := by
  have hrb := hbi.2.2.2.1 r hrmem
  rw [blobOf, if_neg (by omega)]
  exact hB

theorem block_shape {d : List Nat → List Nat} {stF : PackBuilder}
    {pcat : List (Nat × List String × EntryData)}
    (hbi : buildInv d stF (pcatProj pcat)) (hok : pcatOK stF pcat)
    (hcont : stF.contents = []) {f : FitRow} (hf : f ∈ indexedFiles stF.items) :
    ∃ x ∈ pcat, x.1 = f.id ∧ x.2.1 = f.path ∧ f.kind = kindOfE x.2.2 ∧
      ¬ (x.2.2 = EntryData.dirE) ∧ sanitizeNames f.path = f.path ∧
      blockOf stF.db f = (rowsOf stF.db f.id).map (fun r =>
        ScatterRow.dataRow r.content r.contentpos r.itempos r.size f.kind f.path) ∧
      rowsOf stF.db f.id ≠ [] := by
  obtain ⟨x, hx, hid, hpath, hkm, hkd⟩ := indexedFiles_catalog hbi.1 hok hf
  have hkoe : f.kind = kindOfE x.2.2 := kindMatches_iff.mp hkm
  have hnd : ¬ (x.2.2 = EntryData.dirE) := by
    intro he
    rw [he] at hkoe
    exact hkd hkoe
  have hnorm : normalNames x.2.1 := (hok.1 x hx).choose_spec.choose_spec.2.2.2.2.2
  have hne : rowsOf stF.db f.id ≠ [] := by
    have hsp := specs_of_entry hbi hcont hx
    rw [← hid]
    cases he : x.2.2 with
    | fileE D =>
        rw [he] at hsp
        obtain ⟨sizes, h1, h2, _⟩ := hsp
        intro hnil
        rw [hnil] at h2
        cases sizes with
        | nil => exact h1 rfl
        | cons s t =>
            rw [specsFrom] at h2
            cases h2
    | linkE T =>
        rw [he] at hsp
        obtain ⟨r, hr, _⟩ := hsp
        rw [hr]
        exact List.cons_ne_nil _ _
    | dirE => exact absurd he hnd
  refine ⟨x, hx, hid, hpath, hkoe, hnd, ?_, ?_, hne⟩
  · rw [← hpath]
    exact sanitizeNames_normal hnorm
  · rw [blockOf]
    rw [if_neg ?_]
    · rfl
    · intro hemp
      rw [List.isEmpty_iff] at hemp
      exact hne hemp

theorem ids_ne_pairwise {stF : PackBuilder} (hseq : idsSeq stF.items) :
    List.Pairwise (fun f1 f2 : FitRow => f1.id ≠ f2.id) (indexedFiles stF.items) := by
  have hnd : ((indexedFiles stF.items).map (fun r => r.id)).Nodup := by
    refine List.Nodup.sublist ?_ (fitRows_ids_nodup hseq)
    exact List.Sublist.map _ (List.filter_sublist _)
  exact List.pairwise_map.mp hnd

theorem joinRows_pairwise {d : List Nat → List Nat} {stF : PackBuilder}
    {pcat : List (Nat × List String × EntryData)}
    (hbi : buildInv d stF (pcatProj pcat)) (hok : pcatOK stF pcat)
    (hcont : stF.contents = []) :
    List.Pairwise rowsDisjoint (joinRows stF.db) ∧
    List.Pairwise linkSep (joinRows stF.db) := by
  have hflat := joinRows_eq stF.db
  have hitems : stF.db.items = stF.items := rfl
  rw [hitems] at hflat
  have hcross : ∀ (R : ScatterRow → ScatterRow → Prop),
      (∀ (c1 cp1 ip1 sz1 k1 : Nat) (q1 : List String) (c2 cp2 ip2 sz2 k2 : Nat)
        (q2 : List String), sanitizeNames q1 = q1 → sanitizeNames q2 = q2 → q1 ≠ q2 →
        R (ScatterRow.dataRow c1 cp1 ip1 sz1 k1 q1) (ScatterRow.dataRow c2 cp2 ip2 sz2 k2 q2)) →
      List.Pairwise (fun a b => ∀ r1 ∈ a, ∀ r2 ∈ b, R r1 r2)
        ((indexedFiles stF.items).map (blockOf stF.db)) := by
    intro R hR
    refine List.pairwise_map.mpr ?_
    refine List.Pairwise.imp_of_mem ?_ (ids_ne_pairwise hbi.1)
    intro f1 f2 hf1 hf2 hne r1 hr1 r2 hr2
    obtain ⟨x1, hx1, hid1, hpath1, hkoe1, hnd1, hsan1, hblk1, hne1⟩ :=
      block_shape hbi hok hcont hf1
    obtain ⟨x2, hx2, hid2, hpath2, hkoe2, hnd2, hsan2, hblk2, hne2⟩ :=
      block_shape hbi hok hcont hf2
    rw [hblk1] at hr1
    rw [hblk2] at hr2
    obtain ⟨s1, _, hs1⟩ := List.mem_map.mp hr1
    obtain ⟨s2, _, hs2⟩ := List.mem_map.mp hr2
    subst hs1
    subst hs2
    have hpne : f1.path ≠ f2.path := by
      intro heq
      have : x1.2.1 = x2.2.1 := by rw [hpath1, hpath2, heq]
      have := pcat_path_inj hok hx1 hx2 this
      rw [this] at hid1
      exact hne (by omega)
    exact hR _ _ _ _ _ _ _ _ _ _ _ _ hsan1 hsan2 hpne
  have hwithin : ∀ f ∈ indexedFiles stF.items,
      List.Pairwise rowsDisjoint (blockOf stF.db f) ∧
      List.Pairwise linkSep (blockOf stF.db f) := by
    intro f hf
    obtain ⟨x, hx, hid, hpath, hkoe, hnd', hsan, hblk, hneb⟩ :=
      block_shape hbi hok hcont hf
    rw [hblk]
    have hsp := specs_of_entry hbi hcont hx
    cases he : x.2.2 with
    | fileE D =>
        rw [he] at hsp
        obtain ⟨sizes, _, h2, _⟩ := hsp
        rw [hid] at h2
        have hc := specsFrom_chain sizes 0
        rw [← h2] at hc
        have hchain : List.Pairwise (fun r1 r2 : IcRow => r1.itempos + r1.size ≤ r2.itempos)
            (rowsOf stF.db f.id) :=
          (List.pairwise_map.mp hc).imp (fun h => h)
        have hkf : f.kind = KIND_FILE := by rw [hkoe, he]; rfl
        constructor
        · refine List.pairwise_map.mpr ?_
          refine hchain.imp ?_
          intro r1 r2 h12
          intro _ _ _
          exact Or.inl h12
        · refine List.pairwise_map.mpr ?_
          refine hchain.imp ?_
          intro r1 r2 _
          intro hsym
          exfalso
          rw [show rowKind (ScatterRow.dataRow r1.content r1.contentpos r1.itempos r1.size f.kind f.path) = f.kind from rfl,
            show rowKind (ScatterRow.dataRow r2.content r2.contentpos r2.itempos r2.size f.kind f.path) = f.kind from rfl,
            hkf] at hsym
          rcases hsym with h | h <;> exact absurd h (by decide)
    | linkE T =>
        rw [he] at hsp
        obtain ⟨r, hr, _⟩ := hsp
        rw [hid] at hr
        rw [hr, List.map_singleton]
        exact ⟨List.pairwise_singleton _ _, List.pairwise_singleton _ _⟩
    | dirE => exact absurd he hnd'
  constructor
  · rw [hflat, List.pairwise_flatten]
    refine ⟨?_, ?_⟩
    · intro l hl
      obtain ⟨f, hf, hfe⟩ := List.mem_map.mp hl
      rw [← hfe]
      exact (hwithin f hf).1
    · refine hcross rowsDisjoint ?_
      intro c1 cp1 ip1 sz1 k1 q1 c2 cp2 ip2 sz2 k2 q2 h1 h2 hne
      intro _ _ hpq
      rw [h1, h2] at hpq
      exact absurd hpq hne
  · rw [hflat, List.pairwise_flatten]
    refine ⟨?_, ?_⟩
    · intro l hl
      obtain ⟨f, hf, hfe⟩ := List.mem_map.mp hl
      rw [← hfe]
      exact (hwithin f hf).2
    · refine hcross linkSep ?_
      intro c1 cp1 ip1 sz1 k1 q1 c2 cp2 ip2 sz2 k2 q2 h1 h2 hne
      intro _
      rw [show rowPath (ScatterRow.dataRow c1 cp1 ip1 sz1 k1 q1) = sanitizeNames q1 from rfl,
        show rowPath (ScatterRow.dataRow c2 cp2 ip2 sz2 k2 q2) = sanitizeNames q2 from rfl,
        h1, h2]
      exact hne

theorem linkSep_symm : ∀ {a b : ScatterRow}, linkSep a b → linkSep b a := by
  intro a b h hor
  exact (h (Or.symm hor)).symm

theorem rows_benign {d : List Nat → List Nat} {stF : PackBuilder}
    {pcat : List (Nat × List String × EntryData)}
    (hbi : buildInv d stF (pcatProj pcat)) (hok : pcatOK stF pcat)
    (hcont : stF.contents = []) :
    ∀ row ∈ joinRows stF.db, rowBenign2 stF.db row := by
  intro row hrow
  obtain ⟨f, hf, hblkmem⟩ := mem_joinRows.mp hrow
  have hf2 : f ∈ indexedFiles stF.items := hf
  obtain ⟨x, hx, hid, hpath, hkoe, hnd', hsan, hblk, hneb⟩ := block_shape hbi hok hcont hf2
  rw [hblk] at hblkmem
  obtain ⟨r, hr, hre⟩ := List.mem_map.mp hblkmem
  subst hre
  have hrmem : r ∈ stF.itemcontentRows := by
    rw [rowsOf, List.mem_filter] at hr
    exact hr.1
  have hby := bytes_of_entry hbi hx (by rw [hid]; exact hr)
  have hblob : (blobOf stF.db r.content).isSome := by
    cases he : x.2.2 with
    | fileE D =>
        rw [he] at hby
        obtain ⟨B, hB, _⟩ := hby
        rw [blobOf_row hbi hrmem hB]
        rfl
    | linkE T =>
        rw [he] at hby
        obtain ⟨⟨B, hB, _⟩, _⟩ := hby
        rw [blobOf_row hbi hrmem hB]
        rfl
    | dirE => exact absurd he hnd'
  refine ⟨hblob, ?_⟩
  intro _
  rw [hsan, ← hpath]
  obtain ⟨it, m, _, _, _, _, hne, _⟩ := hok.1 x hx
  exact hne

theorem mem_foldl_dirstep : ∀ (l : List (List String)) (acc : List (List String))
    (q : List String), q ∈ l.foldl (fun ds q2 => if q2 ∈ ds then ds else ds ++ [q2]) acc →
    q ∈ acc ∨ q ∈ l := by
  intro l
  induction l with
  | nil => intro acc q h; exact Or.inl h
  | cons a t ih =>
      intro acc q h
      rw [List.foldl_cons] at h
      rcases ih _ q h with h2 | h2
      · by_cases ha : a ∈ acc
        · rw [if_pos ha] at h2
          exact Or.inl h2
        · rw [if_neg ha] at h2
          rcases List.mem_append.mp h2 with h3 | h3
          · exact Or.inl h3
          · rw [List.mem_singleton] at h3
            subst h3
            exact Or.inr (List.mem_cons_self _ _)
      · exact Or.inr (List.mem_cons_of_mem _ h2)

theorem create_dir_all_mem_inv {dirs : List (List String)} {p q : List String}
    (h : q ∈ create_dir_all dirs p) : q ∈ dirs ∨ (q ≠ [] ∧ q <+: p) := by
  rw [create_dir_all] at h
  rcases mem_foldl_dirstep _ _ _ h with h2 | h2
  · exact Or.inl h2
  · rw [List.mem_filter] at h2
    refine Or.inr ⟨by simpa using h2.2, ?_⟩
    exact (List.mem_inits q p).mp h2.1

theorem mem_dirs_foldl : ∀ (l : List FitRow) (acc : List (List String)) (q : List String),
    q ∈ l.foldl (fun ds r => create_dir_all ds (sanitizeNames r.path)) acc →
    q ∈ acc ∨ ∃ r ∈ l, q ≠ [] ∧ q <+: sanitizeNames r.path := by
  intro l
  induction l with
  | nil => intro acc q h; exact Or.inl h
  | cons a t ih =>
      intro acc q h
      rw [List.foldl_cons] at h
      rcases ih _ q h with h2 | h2
      · rcases create_dir_all_mem_inv h2 with h3 | h3
        · exact Or.inl h3
        · exact Or.inr ⟨a, List.mem_cons_self _ _, h3⟩
      · obtain ⟨r, hr, h3⟩ := h2
        exact Or.inr ⟨r, List.mem_cons_of_mem _ hr, h3⟩

theorem mem_ensure_dirs {items : List ItemRow} {fs : OutFS} {q : List String}
    (h : q ∈ (ensure_all_directories items fs).dirs) :
    q ∈ fs.dirs ∨ ∃ r ∈ dirRows items, q ≠ [] ∧ q <+: sanitizeNames r.path := by
  rw [ensure_all_directories] at h
  exact mem_dirs_foldl _ _ _ h

theorem dirRows_catalog {st : PackBuilder} {pcat : List (Nat × List String × EntryData)}
    (hseq : idsSeq st.items) (hok : pcatOK st pcat) {f : FitRow}
    (hf : f ∈ dirRows st.items) :
    ∃ x ∈ pcat, x.1 = f.id ∧ x.2.1 = f.path ∧ x.2.2 = EntryData.dirE := by
  rw [dirRows, List.mem_filter] at hf
  obtain ⟨hfit, hkind⟩ := hf
  have hkd : f.kind = KIND_DIRECTORY := by simpa using hkind
  obtain ⟨it, m, hmem, hch, hid, hk⟩ := fitRows_mem hseq hfit
  obtain ⟨x, hx, hxid⟩ := hok.2.1 it hmem
  obtain ⟨it2, m2, hmem2, hid2, hkm2, hch2, hne2, hnorm2⟩ := hok.1 x hx
  have hiteq : it2 = it := id_inj hseq hmem2 hmem (by omega)
  subst hiteq
  obtain ⟨hpeq, _⟩ := chain_det hseq hch2 hch
  refine ⟨x, hx, by omega, by rw [← hpeq], ?_⟩
  have hitk : it2.kind = KIND_DIRECTORY := by omega
  rw [kindMatches_iff] at hkm2
  cases he : x.2.2 with
  | fileE D =>
      rw [he] at hkm2
      have h2 : KIND_DIRECTORY = KIND_FILE := by rw [← hitk, hkm2]; rfl
      exact absurd h2 (by decide)
  | linkE T =>
      rw [he] at hkm2
      have h2 : KIND_DIRECTORY = KIND_SYMLINK := by rw [← hitk, hkm2]; rfl
      exact absurd h2 (by decide)
  | dirE => rfl

theorem prefix_dir_catalog {st : PackBuilder} {pcat : List (Nat × List String × EntryData)}
    (hseq : idsSeq st.items) (hplt : parentLt st.items) (hok : pcatOK st pcat)
    {fs : OutFS} (hfs : fs.dirs = []) {q : List String}
    (h : q ∈ (ensure_all_directories st.items fs).dirs) :
    ∃ x ∈ pcat, x.2.2 = EntryData.dirE ∧ x.2.1 = q := by
  rcases mem_ensure_dirs h with h2 | h2
  · rw [hfs] at h2
    exact absurd h2 (List.not_mem_nil _)
  · obtain ⟨f, hf, hqne, hpre⟩ := h2
    obtain ⟨x, hx, hid, hpath, hdirE⟩ := dirRows_catalog hseq hok hf
    obtain ⟨it, m, hmem, hitid, hkm, hch, hne, hnorm⟩ := hok.1 x hx
    have hsan : sanitizeNames f.path = f.path := by
      rw [← hpath]
      exact sanitizeNames_normal hnorm
    rw [hsan] at hpre
    have hqtake : q = f.path.take q.length := List.prefix_iff_eq_take.mp hpre
    have hqlen : 1 ≤ q.length ∧ q.length ≤ f.path.length := by
      constructor
      · cases hq : q with
        | nil => exact absurd hq hqne
        | cons a t => simp
      · exact hpre.length_le
    have hchf : Chain st.items it f.path m := by
      rw [← hpath]
      exact hch
    obtain ⟨it3, m3, hmem3, hch3, hdir3, hlast3⟩ :=
      chain_prefix hseq hplt hchf q.length hqlen.1 hqlen.2
    have hitkind3 : it3.kind = KIND_DIRECTORY := by
      by_cases hql : q.length < f.path.length
      · exact hdir3 hql
      · have : q.length = f.path.length := by omega
        rw [hlast3 this]
        rw [kindMatches_iff, hdirE] at hkm
        exact hkm
    obtain ⟨x3, hx3, hxid3⟩ := hok.2.1 it3 hmem3
    obtain ⟨it4, m4, hmem4, hid4, hkm4, hch4, hne4, hnorm4⟩ := hok.1 x3 hx3
    have hiteq : it4 = it3 := id_inj hseq hmem4 hmem3 (by omega)
    subst hiteq
    obtain ⟨hpeq4, _⟩ := chain_det hseq hch4 hch3
    refine ⟨x3, hx3, ?_, by rw [hpeq4, ← hqtake]⟩
    rw [kindMatches_iff] at hkm4
    cases he : x3.2.2 with
    | fileE D =>
        rw [he] at hkm4
        have h2 : KIND_DIRECTORY = KIND_FILE := by rw [← hitkind3, hkm4]; rfl
        exact absurd h2 (by decide)
    | linkE T =>
        rw [he] at hkm4
        have h2 : KIND_DIRECTORY = KIND_SYMLINK := by rw [← hitkind3, hkm4]; rfl
        exact absurd h2 (by decide)
    | dirE => rfl

theorem c1_main {c d : List Nat → List Nat} {b : List Nat → Nat}
    (hb : ∀ bs, b bs = bs.length) (hd : ∀ bs, d (c bs) = bs)
    {bn : String} {cs : List FsNode} (hwf : (FsNode.dir bn cs).wf = true)
    {db : ArchiveDb} {fcn : Nat}
    (hcr : create_archive c b [FsNode.dir bn cs] = Except.ok (db, fcn)) :
    ∃ fs fc2, extract_all d db ⟨[], [], []⟩ = (fs, Except.ok fc2) ∧
      (∀ P D, (P, EntryData.fileE D) ∈ (FsNode.dir bn cs).entries →
        List.lookup P fs.files = some D) ∧
      (∀ P T, (P, EntryData.linkE T) ∈ (FsNode.dir bn cs).entries →
        List.lookup P fs.links = some T) := by
  obtain ⟨stF, pcat, hdb, hcont, ⟨hbi, hok⟩, hperm⟩ := create_one_dir hb hd bn cs hwf hcr
  subst hdb
  have hpermRows : List.Perm (List.insertionSort rowLe (joinRows stF.db)) (joinRows stF.db) :=
    List.perm_insertionSort rowLe (joinRows stF.db)
  have hben : ∀ r ∈ List.insertionSort rowLe (joinRows stF.db), rowBenign2 stF.db r :=
    fun r hr => rows_benign hbi hok hcont r (hpermRows.mem_iff.mp hr)
  obtain ⟨hdisJ, hsepJ⟩ := joinRows_pairwise hbi hok hcont
  have hdis : List.Pairwise rowsDisjoint (List.insertionSort rowLe (joinRows stF.db)) :=
    (hpermRows.pairwise_iff (fun h => rowsDisjoint_symm h)).mpr hdisJ
  have hsep : List.Pairwise linkSep (List.insertionSort rowLe (joinRows stF.db)) :=
    (hpermRows.pairwise_iff (fun h => linkSep_symm h)).mpr hsepJ
  have hfs1 : ensure_all_directories stF.db.items (⟨[], [], []⟩ : OutFS) =
      ⟨(ensure_all_directories stF.db.items (⟨[], [], []⟩ : OutFS)).dirs, [], []⟩ := rfl
  have hcol : ∀ r ∈ List.insertionSort rowLe (joinRows stF.db), rowKind r = KIND_SYMLINK →
      List.lookup (rowPath r) (ensure_all_directories stF.db.items (⟨[], [], []⟩ : OutFS)).links = none ∧
      List.lookup (rowPath r) (ensure_all_directories stF.db.items (⟨[], [], []⟩ : OutFS)).files = none ∧
      rowPath r ∉ (ensure_all_directories stF.db.items (⟨[], [], []⟩ : OutFS)).dirs := by
    intro r hr hk
    obtain ⟨f, hf, hblkmem⟩ := mem_joinRows.mp (hpermRows.mem_iff.mp hr)
    obtain ⟨x, hx, hid, hpath, hkoe, hnd', hsan, hblk, hneb⟩ := block_shape hbi hok hcont hf
    rw [hblk] at hblkmem
    obtain ⟨r0, hr0, hre⟩ := List.mem_map.mp hblkmem
    subst hre
    have hkf : f.kind = KIND_SYMLINK := hk
    have hlinkE : ∃ T, x.2.2 = EntryData.linkE T := by
      cases he : x.2.2 with
      | fileE D =>
          rw [he] at hkoe
          rw [hkoe] at hkf
          have h2 : KIND_FILE = KIND_SYMLINK := hkf
          exact absurd h2 (by decide)
      | dirE => exact absurd he hnd'
      | linkE T => exact ⟨T, rfl⟩
    have hrp : rowPath (ScatterRow.dataRow r0.content r0.contentpos r0.itempos r0.size f.kind f.path) = x.2.1 := by
      show sanitizeNames f.path = x.2.1
      rw [hsan, hpath]
    refine ⟨rfl, rfl, ?_⟩
    intro hmem
    rw [hrp] at hmem
    obtain ⟨x3, hx3, hx3dir, hx3path⟩ := prefix_dir_catalog hbi.1 hbi.2.1 hok rfl hmem
    have hxeq : x = x3 := pcat_path_inj hok hx hx3 (by rw [hx3path])
    obtain ⟨T, hT⟩ := hlinkE
    rw [← hxeq, hT] at hx3dir
    cases hx3dir
  have huniq : uniqKeys (ensure_all_directories stF.db.items (⟨[], [], []⟩ : OutFS)).files := by
    show uniqKeys []
    exact List.nodup_nil
  obtain ⟨fs2, fc2, hgo, huniq2, hdirs2, hlinks2, hpres2, hprov2, hbound2, hdone2⟩ :=
    @extract_go_run d stF.db (List.insertionSort rowLe (joinRows stF.db))
      (ensure_all_directories stF.db.items (⟨[], [], []⟩ : OutFS)) 0 hben hdis hsep hcol huniq
  have hea : extract_all d stF.db (⟨[], [], []⟩ : OutFS) = (fs2, Except.ok fc2) := by
    rw [extract_all]
    exact hgo
  refine ⟨fs2, fc2, hea, ?_, ?_⟩
  · intro P D hmem
    have hmem2 : (P, EntryData.fileE D) ∈ pcatPP pcat := (hperm.mem_iff).mpr hmem
    rw [pcatPP] at hmem2
    obtain ⟨x0, hx0, hx0e⟩ := List.mem_map.mp hmem2
    have hx0p : x0.2.1 = P := (Prod.mk.injEq _ _ _ _ ▸ hx0e).1
    have hx0d : x0.2.2 = EntryData.fileE D := (Prod.mk.injEq _ _ _ _ ▸ hx0e).2
    have hnormx0 : normalNames x0.2.1 := by
      obtain ⟨it, m, _, _, _, _, _, hn⟩ := hok.1 x0 hx0
      exact hn
    have hf0 : ({ id := x0.1, kind := KIND_FILE, path := x0.2.1 } : FitRow) ∈
        indexedFiles stF.items := by
      refine catalog_indexedFiles hbi.1 hbi.2.1 hok hx0 ?_ (by decide)
      rw [kindMatches_iff, hx0d]
      rfl
    have hsp := specs_of_entry hbi hcont hx0
    rw [hx0d] at hsp
    obtain ⟨sizes, hsz1, hsz2, hsz3⟩ := hsp
    have hrofne : rowsOf stF.db x0.1 ≠ [] := by
      intro hnil
      rw [hnil] at hsz2
      cases sizes with
      | nil => exact hsz1 rfl
      | cons a t =>
          rw [specsFrom] at hsz2
          cases hsz2
    have hrowmem : ∀ r0 ∈ rowsOf stF.db x0.1,
        (ScatterRow.dataRow r0.content r0.contentpos r0.itempos r0.size KIND_FILE x0.2.1) ∈
          List.insertionSort rowLe (joinRows stF.db) := by
      intro r0 hr0
      refine hpermRows.mem_iff.mpr ?_
      refine mem_joinRows.mpr ⟨{ id := x0.1, kind := KIND_FILE, path := x0.2.1 }, hf0, ?_⟩
      rw [blockOf]
      rw [if_neg ?_]
      · exact List.mem_map_of_mem _ hr0
      · intro hemp
        rw [List.isEmpty_iff] at hemp
        exact hrofne hemp
    refine file_restored hdone2 ?_ ?_ ?_ ?_
    · intro F' hF' B hrows
      refine hbound2 P F' hF' B ?_ hrows
      show ((List.lookup P ([] : List (List String × List Nat))).getD []).length ≤ B
      simp
    · intro c0 cp ip sz q hrin hq
      obtain ⟨f, hf, hblkmem⟩ := mem_joinRows.mp (hpermRows.mem_iff.mp hrin)
      obtain ⟨x, hx, hid, hpath, hkoe, hnd', hsan, hblk, hneb⟩ := block_shape hbi hok hcont hf
      rw [hblk] at hblkmem
      obtain ⟨r0, hr0, hre⟩ := List.mem_map.mp hblkmem
      have hc0 : c0 = r0.content := ((ScatterRow.dataRow.injEq _ _ _ _ _ _ _ _ _ _ _ _ ▸ hre).1).symm
      have hcp : cp = r0.contentpos := ((ScatterRow.dataRow.injEq _ _ _ _ _ _ _ _ _ _ _ _ ▸ hre).2.1).symm
      have hip : ip = r0.itempos := ((ScatterRow.dataRow.injEq _ _ _ _ _ _ _ _ _ _ _ _ ▸ hre).2.2.1).symm
      have hsz : sz = r0.size := ((ScatterRow.dataRow.injEq _ _ _ _ _ _ _ _ _ _ _ _ ▸ hre).2.2.2.1).symm
      have hqf : q = f.path := ((ScatterRow.dataRow.injEq _ _ _ _ _ _ _ _ _ _ _ _ ▸ hre).2.2.2.2.2).symm
      have hqP : q = P := by
        rw [← hq, hqf]
        exact hsan.symm
      have hxis : x = x0 := by
        refine pcat_path_inj hok hx hx0 ?_
        rw [hpath, hx0p, ← hqP, hqf]
      have hby := bytes_of_entry hbi hx (by rw [hid]; exact hr0)
      rw [hxis, hx0d] at hby
      obtain ⟨B, hB, hseg, hle⟩ := hby
      have hrmem : r0 ∈ stF.itemcontentRows := by
        rw [rowsOf, List.mem_filter] at hr0
        exact hr0.1
      have hblob : blobOf stF.db c0 = some B := by
        rw [hc0]
        exact blobOf_row hbi hrmem hB
      refine ⟨by rw [hip, hsz]; exact hle, ?_⟩
      rw [hblob]
      rw [show (some B).getD [] = B from rfl]
      rw [hcp, hip, hsz]
      exact hseg
    · intro y hy
      have hcover := (specsFrom_cover sizes 0 y).mp (by omega)
      obtain ⟨qq, hqq, hqq1, hqq2⟩ := hcover
      rw [← hsz2] at hqq
      obtain ⟨r0, hr0, hqe⟩ := List.mem_map.mp hqq
      refine ⟨r0.content, r0.contentpos, r0.itempos, r0.size, x0.2.1, hrowmem r0 hr0, ?_, ?_, ?_⟩
      · rw [sanitizeNames_normal hnormx0, hx0p]
      · rw [show r0.itempos = qq.1 by rw [← hqe]]
        exact hqq1
      · rw [show r0.itempos = qq.1 by rw [← hqe], show r0.size = qq.2 by rw [← hqe]]
        exact hqq2
    · obtain ⟨r0, hr0⟩ := List.exists_mem_of_ne_nil _ hrofne
      exact ⟨r0.content, r0.contentpos, r0.itempos, r0.size, x0.2.1, hrowmem r0 hr0,
        by rw [sanitizeNames_normal hnormx0, hx0p]⟩
  · intro P T hmem
    have hmem2 : (P, EntryData.linkE T) ∈ pcatPP pcat := (hperm.mem_iff).mpr hmem
    rw [pcatPP] at hmem2
    obtain ⟨x0, hx0, hx0e⟩ := List.mem_map.mp hmem2
    have hx0p : x0.2.1 = P := (Prod.mk.injEq _ _ _ _ ▸ hx0e).1
    have hx0d : x0.2.2 = EntryData.linkE T := (Prod.mk.injEq _ _ _ _ ▸ hx0e).2
    have hnormx0 : normalNames x0.2.1 := by
      obtain ⟨it, m, _, _, _, _, _, hn⟩ := hok.1 x0 hx0
      exact hn
    have hf0 : ({ id := x0.1, kind := KIND_SYMLINK, path := x0.2.1 } : FitRow) ∈
        indexedFiles stF.items := by
      refine catalog_indexedFiles hbi.1 hbi.2.1 hok hx0 ?_ (by decide)
      rw [kindMatches_iff, hx0d]
      rfl
    have hsp := specs_of_entry hbi hcont hx0
    rw [hx0d] at hsp
    obtain ⟨r0, hrof, hip0, hszT⟩ := hsp
    have hr0mem : r0 ∈ rowsOf stF.db x0.1 := by
      rw [hrof]
      exact List.mem_singleton_self _
    have hby := bytes_of_entry hbi hx0 hr0mem
    rw [hx0d] at hby
    obtain ⟨⟨B, hB, hseg, hle⟩, _, _⟩ := hby
    have hrmem : r0 ∈ stF.itemcontentRows := by
      rw [rowsOf, List.mem_filter] at hr0mem
      exact hr0mem.1
    have hblob : blobOf stF.db r0.content = some B := blobOf_row hbi hrmem hB
    have hrowin : (ScatterRow.dataRow r0.content r0.contentpos r0.itempos r0.size KIND_SYMLINK x0.2.1) ∈
        List.insertionSort rowLe (joinRows stF.db) := by
      refine hpermRows.mem_iff.mpr ?_
      refine mem_joinRows.mpr ⟨{ id := x0.1, kind := KIND_SYMLINK, path := x0.2.1 }, hf0, ?_⟩
      rw [blockOf]
      rw [if_neg ?_]
      · exact List.mem_map_of_mem _ hr0mem
      · intro hemp
        rw [List.isEmpty_iff] at hemp
        have hrof2 : rowsOf stF.db x0.1 = [] := hemp
        rw [hrof2] at hrof
        cases hrof
    have hsegT : segmentOf (d ((blobOf stF.db r0.content).getD [])) r0.contentpos r0.size = T := by
      rw [hblob]
      rw [show (some B).getD [] = B from rfl]
      rw [hseg, hip0, hszT]
      rw [List.drop_zero, List.take_length]
    have hlr := link_restored hsep ⟨r0.content, r0.contentpos, r0.itempos, r0.size, x0.2.1,
      hrowin, by rw [sanitizeNames_normal hnormx0, hx0p], hsegT⟩
    rw [hlinks2]
    rw [show (ensure_all_directories stF.db.items (⟨[], [], []⟩ : OutFS)).links = [] from rfl]
    rw [List.nil_append]
    exact hlr

/-- C1, helper equality: the witness build evaluates to a concrete archive. -/
theorem c1_witness_build : create_archive (fun x => x) (fun x : List Nat => x.length)
    [FsNode.dir "d" [FsNode.file "f" [7], FsNode.symlink "l" [8, 9]]] =
    Except.ok (({ items := [{ id := 1, parent := 0, kind := 1, name := "d" }, { id := 2, parent := 1, kind := 0, name := "f" }, { id := 3, parent := 1, kind := 2, name := "l" }], contentRows := [[7, 8, 9]], itemcontentRows := [{ item := 2, itempos := 0, content := 1, contentpos := 0, size := 1 }, { item := 3, itempos := 0, content := 1, contentpos := 1, size := 2 }] } : ArchiveDb), 1) := by
  simp [create_archive, create_inputs, add_dir_all, add_dir_all_loop, add_entries,
    add_file, add_file_loop, add_directory, add_symlink, childFrames, childFramesStep,
    finish, process_contents, insert_content, PackBuilder.new, bundleBytes, sliceBytes,
    flushRow, PackBuilder.db, BUNDLE_SIZE, KIND_FILE, KIND_SYMLINK, KIND_DIRECTORY]

/-- C1 amended: round-trip for every well-formed input tree whose build
completes.  If `create_archive` on a well-formed directory tree returns an
archive, then extracting that archive into an empty destination succeeds,
restores every regular file's bytes bit-identically, and restores every
symlink's raw target bytes bit-identically.  (The build can fail: see the
counterexample, where a symlink pushes the pending bundle past
`BUNDLE_SIZE` and the next `add_file` underflows `BUNDLE_SIZE -
current_pos`.) -/
theorem c1_round_trip {c d : List Nat → List Nat} {b : List Nat → Nat}
    (hb : ∀ bs, b bs = bs.length) (hd : ∀ bs, d (c bs) = bs)
    {bn : String} {cs : List FsNode} (hwf : (FsNode.dir bn cs).wf = true)
    {db : ArchiveDb} {fcn : Nat}
    (hcr : create_archive c b [FsNode.dir bn cs] = Except.ok (db, fcn)) :
    ∃ fs fc2, extract_all d db ⟨[], [], []⟩ = (fs, Except.ok fc2) ∧
      (∀ P D, (P, EntryData.fileE D) ∈ (FsNode.dir bn cs).entries →
        List.lookup P fs.files = some D) ∧
      (∀ P T, (P, EntryData.linkE T) ∈ (FsNode.dir bn cs).entries →
        List.lookup P fs.links = some T) :=
  c1_main hb hd hwf hcr

theorem c1_round_trip_witness :
    (FsNode.dir "d" [FsNode.file "f" [7], FsNode.symlink "l" [8, 9]]).wf = true ∧
    ∃ db fcn, create_archive (fun x => x) (fun x : List Nat => x.length)
        [FsNode.dir "d" [FsNode.file "f" [7], FsNode.symlink "l" [8, 9]]] =
        Except.ok (db, fcn) ∧
      ∃ fs fc2, extract_all (fun x => x) db ⟨[], [], []⟩ = (fs, Except.ok fc2) ∧
        List.lookup ["d", "f"] fs.files = some [7] ∧
        List.lookup ["d", "l"] fs.links = some [8, 9] := by
  have hwf : (FsNode.dir "d" [FsNode.file "f" [7], FsNode.symlink "l" [8, 9]]).wf = true := by
    decide
  refine ⟨hwf, _, 1, c1_witness_build, ?_⟩
  obtain ⟨fs, fc2, hea, hfile, hlink⟩ := c1_round_trip (fun bs => rfl) (fun bs => rfl)
    hwf c1_witness_build
  refine ⟨fs, fc2, hea, ?_, ?_⟩
  · exact hfile ["d", "f"] [7] (by decide)
  · exact hlink ["d", "l"] [8, 9] (by decide)

theorem add_file_fit {c : List Nat → List Nat} {b : List Nat → Nat}
    {st : PackBuilder} {n : String} {D : List Nat} {p : Nat}
    (h : ¬ (st.current_pos + D.length > BUNDLE_SIZE)) :
    add_file c b st n D p = Except.ok ({ st with items := st.items ++ [{ id := st.items.length + 1, parent := p, kind := KIND_FILE, name := n }], contents := st.contents ++ [{ data := D, kind := KIND_FILE, item := st.items.length + 1, itempos := 0, contentpos := st.current_pos, size := D.length }], current_pos := st.current_pos + D.length }, st.items.length + 1) := by
  unfold add_file
  dsimp only
  rw [add_file_loop_fit (show ¬ (({ st with items := st.items ++ [{ id := st.items.length + 1, parent := p, kind := KIND_FILE, name := n }] } : PackBuilder).current_pos + D.length > BUNDLE_SIZE) from h)]
  rfl

theorem add_file_overflow {c : List Nat → List Nat} {b : List Nat → Nat}
    {st : PackBuilder} {n : String} {D : List Nat} {p : Nat}
    (h1 : st.current_pos + D.length > BUNDLE_SIZE) (h2 : BUNDLE_SIZE < st.current_pos) :
    add_file c b st n D p = Except.error Error.arithOverflow := by
  unfold add_file
  dsimp only
  have hloop : add_file_loop c b D (st.items.length + 1) ({ st with items := st.items ++ [{ id := st.items.length + 1, parent := p, kind := KIND_FILE, name := n }] } : PackBuilder) 0 D.length = Except.error Error.arithOverflow := by
    unfold add_file_loop
    rw [if_pos (show ({ st with items := st.items ++ [{ id := st.items.length + 1, parent := p, kind := KIND_FILE, name := n }] } : PackBuilder).current_pos + D.length > BUNDLE_SIZE from h1)]
    rw [if_pos (show BUNDLE_SIZE < ({ st with items := st.items ++ [{ id := st.items.length + 1, parent := p, kind := KIND_FILE, name := n }] } : PackBuilder).current_pos from h2)]
  rw [hloop]

theorem c1_cex_general (D : List Nat) (hD : D.length = BUNDLE_SIZE) :
    create_archive (fun x => x) (fun x : List Nat => x.length)
      [FsNode.dir "d" [FsNode.file "big" D, FsNode.symlink "l" [0], FsNode.file "g" [1]]] =
      Except.error Error.arithOverflow := by
  have hc1 : ¬ (({ items := [{ id := 1, parent := 0, kind := KIND_DIRECTORY, name := "d" }], contentRows := [], itemcontentRows := [], current_pos := 0, contents := [] } : PackBuilder).current_pos + D.length > BUNDLE_SIZE) := by
    show ¬ (0 + D.length > BUNDLE_SIZE)
    rw [hD]
    omega
  have hent : add_entries (fun x => x) (fun x : List Nat => x.length)
      [FsNode.file "big" D, FsNode.symlink "l" [0], FsNode.file "g" [1]] 1
      ({ items := [{ id := 1, parent := 0, kind := KIND_DIRECTORY, name := "d" }], contentRows := [], itemcontentRows := [], current_pos := 0, contents := [] } : PackBuilder) 0 =
      Except.error Error.arithOverflow := by
    rw [add_entries]
    rw [add_file_fit hc1]
    show add_entries (fun x => x) (fun x : List Nat => x.length)
      [FsNode.symlink "l" [0], FsNode.file "g" [1]] 1
      ({ items := [{ id := 1, parent := 0, kind := KIND_DIRECTORY, name := "d" }, { id := 2, parent := 1, kind := KIND_FILE, name := "big" }], contentRows := [], itemcontentRows := [], current_pos := 0 + D.length, contents := [{ data := D, kind := KIND_FILE, item := 2, itempos := 0, contentpos := 0, size := D.length }] } : PackBuilder) 1 =
      Except.error Error.arithOverflow
    rw [add_entries]
    show add_entries (fun x => x) (fun x : List Nat => x.length)
      [FsNode.file "g" [1]] 1
      ({ items := [{ id := 1, parent := 0, kind := KIND_DIRECTORY, name := "d" }, { id := 2, parent := 1, kind := KIND_FILE, name := "big" }, { id := 3, parent := 1, kind := KIND_SYMLINK, name := "l" }], contentRows := [], itemcontentRows := [], current_pos := 0 + D.length + 1, contents := [{ data := D, kind := KIND_FILE, item := 2, itempos := 0, contentpos := 0, size := D.length }, { data := [0], kind := KIND_SYMLINK, item := 3, itempos := 0, contentpos := 0 + D.length, size := 1 }] } : PackBuilder) 1 =
      Except.error Error.arithOverflow
    rw [add_entries]
    rw [add_file_overflow ?_ ?_]
    · show (0 + D.length + 1) + ([1] : List Nat).length > BUNDLE_SIZE
      rw [hD]
      decide
    · show BUNDLE_SIZE < 0 + D.length + 1
      rw [hD]
      decide
  have hada : add_dir_all (fun x => x) (fun x : List Nat => x.length) PackBuilder.new "d"
      [FsNode.file "big" D, FsNode.symlink "l" [0], FsNode.file "g" [1]] =
      Except.error Error.arithOverflow := by
    rw [add_dir_all, add_dir_all_loop_cons]
    rw [show add_entries (fun x => x) (fun x : List Nat => x.length)
      [FsNode.file "big" D, FsNode.symlink "l" [0], FsNode.file "g" [1]]
      (add_directory PackBuilder.new "d" 0).2 (add_directory PackBuilder.new "d" 0).1 0 =
      Except.error Error.arithOverflow from hent]
  rw [create_archive]
  have hci : create_inputs (fun x => x) (fun x : List Nat => x.length)
      [FsNode.dir "d" [FsNode.file "big" D, FsNode.symlink "l" [0], FsNode.file "g" [1]]]
      PackBuilder.new 0 = Except.error Error.arithOverflow := by
    have hstep : create_inputs (fun x => x) (fun x : List Nat => x.length)
        [FsNode.dir "d" [FsNode.file "big" D, FsNode.symlink "l" [0], FsNode.file "g" [1]]]
        PackBuilder.new 0 =
        (match add_dir_all (fun x => x) (fun x : List Nat => x.length) PackBuilder.new "d"
            [FsNode.file "big" D, FsNode.symlink "l" [0], FsNode.file "g" [1]] with
          | Except.error e => Except.error e
          | Except.ok (st1, k2) => create_inputs (fun x => x) (fun x : List Nat => x.length) [] st1 (0 + k2)) := rfl
    rw [hstep, hada]
  rw [hci]

theorem c1_round_trip_counterexample :
    create_archive (fun x => x) (fun x : List Nat => x.length)
      [FsNode.dir "d" [FsNode.file "big" (List.replicate BUNDLE_SIZE 0),
        FsNode.symlink "l" [0], FsNode.file "g" [1]]] =
      Except.error Error.arithOverflow :=
  c1_cex_general (List.replicate BUNDLE_SIZE 0) (List.length_replicate _ _)

end PackRs
